import Mathlib

/-!
# Sweep2Wake gesture recogniser

A shallow embedding of `drivers/input/touchscreen/sweep2wake.c` (v1.5) and the
properties of its gate cascade, its reset and its event demultiplexer.

The module-level variables of the C file become the fields of `State`; every
C function becomes a Lean function from the state before the call to the state
after it, paired with the list of calls it made to its collaborators
(`Effect`), oldest first.  C `int` values are only ever assigned and compared,
never computed with, so they are modelled by `Int`.
-/

namespace Sweep2Wake

/-! ## Constants -/

/-- The macro `S2W_DEFAULT`. -/
def S2W_DEFAULT : Int := 0

/-- The macro `DEFAULT_S2W_Y_MAX`. -/
def DEFAULT_S2W_Y_MAX : Int := 2560

/-- The macro `DEFAULT_S2W_Y_LIMIT`, whose text is `DEFAULT_S2W_Y_MAX-160`.  It is
only used as the right operand of `>`, where the unparenthesised expansion
keeps its value. -/
def DEFAULT_S2W_Y_LIMIT : Int := DEFAULT_S2W_Y_MAX - 160

/-- The macro `DEFAULT_S2W_X_MAX`. -/
def DEFAULT_S2W_X_MAX : Int := 1440

/-- The macro `DEFAULT_S2W_X_B0`. -/
def DEFAULT_S2W_X_B0 : Int := 250

/-- The macro `DEFAULT_S2W_X_B1`, text `DEFAULT_S2W_X_B0+150`; used only as the
right-hand side of an assignment. -/
def DEFAULT_S2W_X_B1 : Int := DEFAULT_S2W_X_B0 + 150

/-- The macro `DEFAULT_S2W_X_B2`, text `DEFAULT_S2W_X_B0+450`; used only as the
right-hand side of an assignment. -/
def DEFAULT_S2W_X_B2 : Int := DEFAULT_S2W_X_B0 + 450

/-- The macro `DEFAULT_S2W_X_B3`, text `DEFAULT_S2W_X_B0+130`; used only as the
right-hand side of an assignment. -/
def DEFAULT_S2W_X_B3 : Int := DEFAULT_S2W_X_B0 + 130

/-- The macro `DEFAULT_S2W_X_B4`, text `DEFAULT_S2W_X_MAX-400`; used only as the
right-hand side of an assignment. -/
def DEFAULT_S2W_X_B4 : Int := DEFAULT_S2W_X_MAX - 400

/-- The macro `DEFAULT_S2W_X_B5`, text `DEFAULT_S2W_X_MAX-DEFAULT_S2W_X_B0`; used as
the right-hand side of an assignment and as the right operand of `>`. -/
def DEFAULT_S2W_X_B5 : Int := DEFAULT_S2W_X_MAX - DEFAULT_S2W_X_B0

/-- Modelled from the spec: the header `linux/input.h` that defines the event
codes is not part of the source tree under study.  The spec's demultiplexer
tags every event with one of four distinct axis kinds (`X`, `Y`, `SLOT`,
`TRACKING_ID`); the numbers are those of the Linux input ABI.  This one is
`ABS_MT_SLOT`. -/
def ABS_MT_SLOT : Nat := 0x2f

/-- Modelled from the spec: the axis kind `X` (see `ABS_MT_SLOT`). -/
def ABS_MT_POSITION_X : Nat := 0x35

/-- Modelled from the spec: the axis kind `Y` (see `ABS_MT_SLOT`). -/
def ABS_MT_POSITION_Y : Nat := 0x36

/-- Modelled from the spec: the axis kind `TRACKING_ID` (see `ABS_MT_SLOT`). -/
def ABS_MT_TRACKING_ID : Nat := 0x39

/-! ## State and effects -/

/-- A call the module makes that is visible outside its own variables. -/
inductive Effect
  /-- `sweep2wake_pwrswitch()`: the emulated power-key press is scheduled. -/
  | pwrswitch
  /-- `wake_lock_timeout(&s2w_wakelock, HZ*2)`. -/
  | wake_lock_timeout
  /-- `wake_unlock(&s2w_wakelock)`. -/
  | wake_unlock
  /-- `detect_sweep2wake(x, y, true)` called from `s2w_input_event`. -/
  | detect (x y : Int)
  deriving DecidableEq, Repr

/-- The module-level variables of `sweep2wake.c`.  The arrays `barrier[2]` and
`reverse_barrier[2]` are split into their two cells.  `wakelock_active` is what
`wake_lock_active(&s2w_wakelock)` reports: set by `wake_lock_timeout`, cleared
by `wake_unlock` (the expiry of the two-second timeout is real time and is not
modelled).  The global `s2w`, which nothing reads or writes after its
initialiser, and the power-key device, its work item and its mutex, which only
`sweep2wake_presspwr` uses, are left out. -/
structure State where
  s2w_switch : Int
  s2w_wakeup : Int
  touch_x : Int
  touch_y : Int
  touch_x_called : Bool
  touch_y_called : Bool
  exec_count : Bool
  scr_on_touch : Bool
  barrier0 : Bool
  barrier1 : Bool
  reverse_barrier0 : Bool
  reverse_barrier1 : Bool
  wakelock_active : Bool
  deriving DecidableEq, Repr

/-- The state given by the static initialisers of the C file. -/
def init : State :=
  { s2w_switch := S2W_DEFAULT
    s2w_wakeup := S2W_DEFAULT
    touch_x := 0
    touch_y := 0
    touch_x_called := false
    touch_y_called := false
    exec_count := true
    scr_on_touch := false
    barrier0 := false
    barrier1 := false
    reverse_barrier0 := false
    reverse_barrier1 := false
    wakelock_active := false }

/-! ## The functions of the module -/

/-- The function `sweep2wake_reset`. -/
def sweep2wake_reset (s0 : State) : State × List Effect :=
  let r : State × List Effect :=
    if s0.wakelock_active = true then
      ({ s0 with wakelock_active := false }, [Effect.wake_unlock])
    else (s0, [])
  let s := r.1
  let s := { s with exec_count := true }
  let s := { s with barrier0 := false }
  let s := { s with barrier1 := false }
  let s := { s with reverse_barrier0 := false }
  let s := { s with reverse_barrier1 := false }
  let s := { s with scr_on_touch := false }
  (s, r.2)

/-! `detect_sweep2wake` is one C function made of four cascades: right-to-left and
left-to-right under the sweep-to-sleep test, and the same two again under the
sweep-to-wake test.  Each cascade is transcribed as a function of its own, from
its own lines of the source, and `detect_sweep2wake` runs them in the order of
the C text.  The locals `prev_coord`, `next_coord`, `reverse_prev_coord` and
`reverse_next_coord` are assigned at the head of every cascade before they are
read, so each cascade carries its own copy; a C assignment to a variable is a
`let` that shadows it.  `out0` holds the effects emitted earlier in the same
call. -/

/-- Lines 170-206 of `detect_sweep2wake`: the `s2s: right->left` cascade of the
sweep-to-sleep branch. -/
def sleep_right_left (s0 : State) (out0 : List Effect)
    (sweep_coord sweep_height : Int) : State × List Effect :=
  let s := s0
  let out := out0
  let prev_coord : Int := DEFAULT_S2W_X_B5
  let next_coord : Int := DEFAULT_S2W_X_B2
  if s.barrier0 = true ∨
      (sweep_coord < prev_coord ∧ sweep_coord > next_coord ∧
        sweep_height > DEFAULT_S2W_Y_LIMIT) then
    let prev_coord := next_coord
    let next_coord := DEFAULT_S2W_X_B1
    let s := { s with barrier0 := true }
    let s := { s with wakelock_active := true }
    let out := out ++ [Effect.wake_lock_timeout]
    if s.barrier1 = true ∨
        (sweep_coord < prev_coord ∧ sweep_coord > next_coord ∧
          sweep_height > DEFAULT_S2W_Y_LIMIT) then
      let prev_coord := next_coord
      let s := { s with barrier1 := true }
      if sweep_coord < prev_coord ∧ sweep_height > DEFAULT_S2W_Y_LIMIT then
        if sweep_coord < DEFAULT_S2W_X_B0 then
          if s.exec_count = true then
            let out := out ++ [Effect.pwrswitch]
            let s := { s with exec_count := false }
            (s, out)
          else (s, out)
        else (s, out)
      else (s, out)
    else (s, out)
  else (s, out)

/-- Lines 207-242 of `detect_sweep2wake`: the `s2s: left->right` cascade of the
sweep-to-sleep branch. -/
def sleep_left_right (s0 : State) (out0 : List Effect)
    (sweep_coord sweep_height : Int) : State × List Effect :=
  let s := s0
  let out := out0
  let reverse_prev_coord : Int := DEFAULT_S2W_X_B0
  let reverse_next_coord : Int := DEFAULT_S2W_X_B3
  if s.reverse_barrier0 = true ∨
      (sweep_coord > reverse_prev_coord ∧ sweep_coord < reverse_next_coord ∧
        sweep_height > DEFAULT_S2W_Y_LIMIT) then
    let reverse_prev_coord := reverse_next_coord
    let reverse_next_coord := DEFAULT_S2W_X_B4
    let s := { s with reverse_barrier0 := true }
    let s := { s with wakelock_active := true }
    let out := out ++ [Effect.wake_lock_timeout]
    if s.reverse_barrier1 = true ∨
        (sweep_coord > reverse_prev_coord ∧ sweep_coord < reverse_next_coord ∧
          sweep_height > DEFAULT_S2W_Y_LIMIT) then
      let reverse_prev_coord := reverse_next_coord
      let s := { s with reverse_barrier1 := true }
      if sweep_coord > reverse_prev_coord ∧ sweep_height > DEFAULT_S2W_Y_LIMIT then
        if sweep_coord > DEFAULT_S2W_X_B5 then
          if s.exec_count = true then
            let out := out ++ [Effect.pwrswitch]
            let s := { s with exec_count := false }
            (s, out)
          else (s, out)
        else (s, out)
      else (s, out)
    else (s, out)
  else (s, out)

/-- Lines 248-284 of `detect_sweep2wake`: the `s2s: right->left` cascade of the
sweep-to-wake branch. -/
def wake_right_left (s0 : State) (out0 : List Effect)
    (sweep_coord sweep_height : Int) : State × List Effect :=
  let s := s0
  let out := out0
  let prev_coord : Int := DEFAULT_S2W_X_B5
  let next_coord : Int := DEFAULT_S2W_X_B2
  if s.barrier0 = true ∨
      (sweep_coord < prev_coord ∧ sweep_coord > next_coord ∧
        sweep_height > DEFAULT_S2W_Y_LIMIT) then
    let prev_coord := next_coord
    let next_coord := DEFAULT_S2W_X_B1
    let s := { s with barrier0 := true }
    let s := { s with wakelock_active := true }
    let out := out ++ [Effect.wake_lock_timeout]
    if s.barrier1 = true ∨
        (sweep_coord < prev_coord ∧ sweep_coord > next_coord ∧
          sweep_height > DEFAULT_S2W_Y_LIMIT) then
      let prev_coord := next_coord
      let s := { s with barrier1 := true }
      if sweep_coord < prev_coord ∧ sweep_height > DEFAULT_S2W_Y_LIMIT then
        if sweep_coord < DEFAULT_S2W_X_B0 then
          if s.exec_count = true then
            let out := out ++ [Effect.pwrswitch]
            let s := { s with exec_count := false }
            (s, out)
          else (s, out)
        else (s, out)
      else (s, out)
    else (s, out)
  else (s, out)

/-- Lines 285-320 of `detect_sweep2wake`: the `s2s: left->right` cascade of the
sweep-to-wake branch. -/
def wake_left_right (s0 : State) (out0 : List Effect)
    (sweep_coord sweep_height : Int) : State × List Effect :=
  let s := s0
  let out := out0
  let reverse_prev_coord : Int := DEFAULT_S2W_X_B0
  let reverse_next_coord : Int := DEFAULT_S2W_X_B3
  if s.reverse_barrier0 = true ∨
      (sweep_coord > reverse_prev_coord ∧ sweep_coord < reverse_next_coord ∧
        sweep_height > DEFAULT_S2W_Y_LIMIT) then
    let reverse_prev_coord := reverse_next_coord
    let reverse_next_coord := DEFAULT_S2W_X_B4
    let s := { s with reverse_barrier0 := true }
    let s := { s with wakelock_active := true }
    let out := out ++ [Effect.wake_lock_timeout]
    if s.reverse_barrier1 = true ∨
        (sweep_coord > reverse_prev_coord ∧ sweep_coord < reverse_next_coord ∧
          sweep_height > DEFAULT_S2W_Y_LIMIT) then
      let reverse_prev_coord := reverse_next_coord
      let s := { s with reverse_barrier1 := true }
      if sweep_coord > reverse_prev_coord ∧ sweep_height > DEFAULT_S2W_Y_LIMIT then
        if sweep_coord > DEFAULT_S2W_X_B5 then
          if s.exec_count = true then
            let out := out ++ [Effect.pwrswitch]
            let s := { s with exec_count := false }
            (s, out)
          else (s, out)
        else (s, out)
      else (s, out)
    else (s, out)
  else (s, out)

/-- The function `detect_sweep2wake`.  `flg_screen_report` is a variable of the
display driver (true while the screen is on), read at both mode tests; it is
not written by this module, so it is an argument here. -/
def detect_sweep2wake (s0 : State) (flg_screen_report : Bool)
    (sweep_coord sweep_height : Int) (st : Bool) : State × List Effect :=
  let single_touch : Bool := st
  -- swipe to sleep check
  let r : State × List Effect :=
    if single_touch = true ∧ flg_screen_report = true ∧ s0.s2w_switch > 0 then
      let s := { s0 with scr_on_touch := true }
      let r := sleep_right_left s [] sweep_coord sweep_height
      sleep_left_right r.1 r.2 sweep_coord sweep_height
    else (s0, [])
  -- swipe to wakeup check
  if single_touch = true ∧ flg_screen_report = false ∧ r.1.s2w_wakeup > 0 then
    let s := { r.1 with scr_on_touch := true }
    let r := wake_right_left s r.2 sweep_coord sweep_height
    wake_left_right r.1 r.2 sweep_coord sweep_height
  else r

/-- The function `s2w_input_event`.  The effects of the nested
`detect_sweep2wake` call follow the `Effect.detect` entry that records it. -/
def s2w_input_event (s0 : State) (flg_screen_report : Bool)
    (code : Nat) (value : Int) : State × List Effect :=
  if s0.s2w_switch = 0 ∧ s0.s2w_wakeup = 0 then
    (s0, [])
  else if code = ABS_MT_SLOT ∧ value > 0 then
    sweep2wake_reset s0
  else if code = ABS_MT_TRACKING_ID ∧ value = -1 then
    sweep2wake_reset s0
  else
    let s : State :=
      if code = ABS_MT_POSITION_X then
        let s := { s0 with touch_x := value }
        { s with touch_x_called := true }
      else s0
    let s : State :=
      if code = ABS_MT_POSITION_Y then
        let s := { s with touch_y := value }
        { s with touch_y_called := true }
      else s
    if s.touch_x_called = true ∧ s.touch_y_called = true then
      let s := { s with touch_x_called := false }
      let s := { s with touch_y_called := false }
      let r := detect_sweep2wake s flg_screen_report s.touch_x s.touch_y true
      (r.1, Effect.detect s.touch_x s.touch_y :: r.2)
    else (s, [])

/-! ## Runs of `detect_sweep2wake` -/

/-- The number of `sweep2wake_pwrswitch()` calls among the effects. -/
def pwrCount (out : List Effect) : Nat := out.count Effect.pwrswitch

/-- One of the two mode tests of `detect_sweep2wake` passes: the screen is on and
`s2w_switch > 0`, or the screen is off and `s2w_wakeup > 0`. -/
def ModeActive (s : State) (flg : Bool) : Prop :=
  (flg = true ∧ 0 < s.s2w_switch) ∨ (flg = false ∧ 0 < s.s2w_wakeup)

instance (s : State) (flg : Bool) : Decidable (ModeActive s flg) := by
  unfold ModeActive; infer_instance

/-- The state after the coordinate updates of the list have been given to
`detect_sweep2wake` one after the other, with the screen state `flg` at every
call and `st = true`, the value the only caller passes. -/
def feed (flg : Bool) (s : State) : List (Int × Int) → State
  | [] => s
  | p :: l => feed flg (detect_sweep2wake s flg p.1 p.2 true).1 l

/-- For every coordinate update of the list, in order, the number of power
actions requested by its `detect_sweep2wake` call. -/
def triggers (flg : Bool) (s : State) : List (Int × Int) → List Nat
  | [] => []
  | p :: l =>
    pwrCount (detect_sweep2wake s flg p.1 p.2 true).2 ::
      triggers flg (detect_sweep2wake s flg p.1 p.2 true).1 l

/-- The update at position `i` of the list exists and satisfies `G`. -/
def Holds (l : List (Int × Int)) (i : Nat) (G : Int × Int → Prop) : Prop :=
  ∃ p, l[i]? = some p ∧ G p

/-- Positions `i < j < k` of the list trace a forward (right-to-left) sweep:
all three in the active band, `700 < x_i < 1190`, `400 < x_j < 700`,
`x_k < 250`. -/
def ForwardSweepAt (l : List (Int × Int)) (i j k : Nat) : Prop :=
  i < j ∧ j < k ∧
    Holds l i (fun p => 700 < p.1 ∧ p.1 < 1190 ∧ 2400 < p.2) ∧
    Holds l j (fun p => 400 < p.1 ∧ p.1 < 700 ∧ 2400 < p.2) ∧
    Holds l k (fun p => p.1 < 250 ∧ 2400 < p.2)

/-- Positions `i < j < k` of the list trace a reverse (left-to-right) sweep:
all three in the active band, `250 < x_i < 380`, `380 < x_j < 1040`,
`x_k > 1190`. -/
def ReverseSweepAt (l : List (Int × Int)) (i j k : Nat) : Prop :=
  i < j ∧ j < k ∧
    Holds l i (fun p => 250 < p.1 ∧ p.1 < 380 ∧ 2400 < p.2) ∧
    Holds l j (fun p => 380 < p.1 ∧ p.1 < 1040 ∧ 2400 < p.2) ∧
    Holds l k (fun p => 1190 < p.1 ∧ 2400 < p.2)

/-- A sweep in either direction is completed at position `k`. -/
def SweepEndsAt (l : List (Int × Int)) (k : Nat) : Prop :=
  ∃ i j, ForwardSweepAt l i j k ∨ ReverseSweepAt l i j k

/-- Position `m` is the first position of the list at which a sweep is
completed. -/
def FirstSweepEnd (l : List (Int × Int)) (m : Nat) : Prop :=
  SweepEndsAt l m ∧ ∀ k, k < m → ¬ SweepEndsAt l k

/-! ## Runs of `s2w_input_event` -/

/-- One call of `s2w_input_event` with the environment it runs in: the values the
two switch variables hold when the call starts (they are globals, written
between calls by the sysfs setters and the command-line hook), the screen state
`flg_screen_report`, and the event `(code, value)`. -/
structure Call where
  s2w_switch : Int
  s2w_wakeup : Int
  flg_screen_report : Bool
  code : Nat
  value : Int
  deriving DecidableEq, Repr

/-- The call `c` made in state `s`. -/
def callStep (s : State) (c : Call) : State × List Effect :=
  s2w_input_event { s with s2w_switch := c.s2w_switch, s2w_wakeup := c.s2w_wakeup }
    c.flg_screen_report c.code c.value

/-- The state after the calls of the list, made one after the other. -/
def runCalls (s : State) : List Call → State
  | [] => s
  | c :: l => runCalls (callStep s c).1 l

/-- For every call of the list, in order, the effects it has. -/
def callEffects (s : State) : List Call → List (List Effect)
  | [] => []
  | c :: l => (callStep s c).2 :: callEffects (callStep s c).1 l

/-- The event of the call is one of the two that `s2w_input_event` answers with
`sweep2wake_reset`: `SLOT` with a value above zero, or `TRACKING_ID` with value
`-1`. -/
def IsResetEvent (c : Call) : Prop :=
  (c.code = ABS_MT_SLOT ∧ 0 < c.value) ∨ (c.code = ABS_MT_TRACKING_ID ∧ c.value = -1)

instance (c : Call) : Decidable (IsResetEvent c) := by
  unfold IsResetEvent; infer_instance

/-! ## Auxiliary notions for the frame properties -/

/-- The variables the cascades of `detect_sweep2wake` read to decide what to do:
the four gate flags, `exec_count` and the two switches. -/
def gateView (s : State) : Bool × Bool × Bool × Bool × Bool × Int × Int :=
  (s.barrier0, s.barrier1, s.reverse_barrier0, s.reverse_barrier1, s.exec_count,
    s.s2w_switch, s.s2w_wakeup)

/-- The list `l'` is the list `l` with further coordinate updates inserted at any
places, every inserted update lying outside the active band (`y ≤ 2400`). -/
inductive Padded : List (Int × Int) → List (Int × Int) → Prop
  | nil : Padded [] []
  | keep (p : Int × Int) {l l' : List (Int × Int)} : Padded l l' → Padded (p :: l) (p :: l')
  | pad (p : Int × Int) {l l' : List (Int × Int)} :
      p.2 ≤ 2400 → Padded l l' → Padded l (p :: l')

/-- The update satisfies one of the three gate conditions of the reverse
(left-to-right) cascade: in the active band, and `250 < x < 380`, or
`380 < x < 1040`, or `x > 1190`. -/
def ReverseGateUpdate (p : Int × Int) : Prop :=
  2400 < p.2 ∧ ((250 < p.1 ∧ p.1 < 380) ∨ (380 < p.1 ∧ p.1 < 1040) ∨ 1190 < p.1)

instance (p : Int × Int) : Decidable (ReverseGateUpdate p) := by
  unfold ReverseGateUpdate; infer_instance

/-- The update satisfies one of the three gate conditions of the forward
(right-to-left) cascade: in the active band, and `700 < x < 1190`, or
`400 < x < 700`, or `x < 250`. -/
def ForwardGateUpdate (p : Int × Int) : Prop :=
  2400 < p.2 ∧ ((700 < p.1 ∧ p.1 < 1190) ∨ (400 < p.1 ∧ p.1 < 700) ∨ p.1 < 250)

instance (p : Int × Int) : Decidable (ForwardGateUpdate p) := by
  unfold ForwardGateUpdate; infer_instance

/-! ## Auxiliary notions for the event demultiplexer -/

/-- The coordinate pairs of the `detect_sweep2wake` calls among the effects, in
order. -/
def detectCalls (out : List Effect) : List (Int × Int) :=
  out.filterMap (fun e =>
    match e with
    | Effect.detect x y => some (x, y)
    | _ => none)

/-- The value of the most recent event with the given code in the list of calls,
if there is one. -/
def lastValue (code : Nat) (l : List Call) : Option Int :=
  Option.map Call.value (List.find? (fun c => decide (c.code = code)) l.reverse)

/-- The call at position `m` of the list, made in the state that the calls
before it lead to from the initial state, calls `detect_sweep2wake`. -/
def DetectCalledAt (l : List Call) (m : Nat) : Prop :=
  ∃ c, l[m]? = some c ∧ detectCalls (callStep (runCalls init (l.take m)) c).2 ≠ []

/-- The call at position `i` of the list carries an event with the given
code. -/
def EventAt (l : List Call) (i : Nat) (code : Nat) : Prop :=
  ∃ c, l[i]? = some c ∧ c.code = code

/-! ## Reachable states -/

/-- The states the module can be in: the state of the static initialisers, and
every state that a write to the two switch variables (by the sysfs setters or
the command-line hook), a call of `s2w_input_event`, a call of
`detect_sweep2wake` or a call of `sweep2wake_reset` leads to from such a
state, whatever the arguments and the screen state. -/
inductive Reachable : State → Prop
  | init : Reachable init
  | switches (s : State) (sw wk : Int) :
      Reachable s → Reachable { s with s2w_switch := sw, s2w_wakeup := wk }
  | event (s : State) (flg : Bool) (code : Nat) (value : Int) :
      Reachable s → Reachable (s2w_input_event s flg code value).1
  | detect (s : State) (flg : Bool) (x y : Int) (st : Bool) :
      Reachable s → Reachable (detect_sweep2wake s flg x y st).1
  | reset (s : State) : Reachable s → Reachable (sweep2wake_reset s).1

/-- Four facts about a state that every operation of the module keeps: the two
seen marks are not both set; the second gate flag of a direction is set only if
the first is; and `exec_count` is false only if both flags of some direction
are set. -/
def StateInv (s : State) : Prop :=
  ¬ (s.touch_x_called = true ∧ s.touch_y_called = true) ∧
  (s.barrier1 = true → s.barrier0 = true) ∧
  (s.reverse_barrier1 = true → s.reverse_barrier0 = true) ∧
  (s.exec_count = false →
    (s.barrier0 = true ∧ s.barrier1 = true) ∨
      (s.reverse_barrier0 = true ∧ s.reverse_barrier1 = true))

/-- A state in which the action has fired on a forward sweep: sweep-to-sleep
on, both forward flags set, `exec_count` false, everything else as in `init`. -/
def firedForward : State :=
  { init with
    s2w_switch := 1
    exec_count := false
    barrier0 := true
    barrier1 := true }

/-! ## The command-line hook and the sysfs setters -/

/-- Which message `read_s2w_cmdline` logs. -/
inductive CmdlineLog
  /-- `[cmdline_s2w]: Sweep2Wake enabled.` -/
  | enabled
  /-- `[cmdline_s2w]: Sweep2Wake disabled.` -/
  | disabled
  /-- `[cmdline_s2w]: No valid input found. Going with default`. -/
  | noValidInput
  deriving DecidableEq, Repr

/-- The function `read_s2w_cmdline`.  Its argument is the text after `s2w=` on the
kernel command line; `strcmp(s2w, "1") == 0` is equality with the
one-character text.  The result is the state, the message logged and the
return value. -/
def read_s2w_cmdline (s : State) (s2w : List Char) : State × CmdlineLog × Int :=
  if s2w = ['1'] then
    ({ s with s2w_switch := 1 }, CmdlineLog.enabled, 1)
  else if s2w = ['2'] then
    ({ s with s2w_switch := 2 }, CmdlineLog.disabled, 1)
  else if s2w = ['0'] then
    ({ s with s2w_switch := 0 }, CmdlineLog.disabled, 1)
  else
    (s, CmdlineLog.noValidInput, 1)

/-- The newline character. -/
def newline : Char := Char.ofNat 10

/-- The character at offset `i` of the buffer handed to a sysfs store function,
as the `int` it is promoted to in a comparison or a subtraction.  Past the
bytes written the buffer holds the terminating NUL that sysfs puts there. -/
def charAt (buf : List Char) (i : Nat) : Int :=
  ((buf.getD i (Char.ofNat 0)).toNat : Int)

/-- The conversion `(ssize_t)count` of a `size_t` value `count`, both types being
`w` bits wide: the value is kept when it is below `2 ^ (w - 1)` and wraps to a
negative number otherwise.  The width is that of the target the kernel is
built for; the source does not fix it. -/
def toSsize (w : Nat) (count : Nat) : Int :=
  if count % 2 ^ w < 2 ^ (w - 1) then ((count % 2 ^ w : Nat) : Int)
  else ((count % 2 ^ w : Nat) : Int) - ((2 ^ w : Nat) : Int)

/-- The function `s2w_sweep2wake_dump`, the sysfs store of `s2w_wakeup`, on a
target whose `size_t` and `ssize_t` are `w` bits wide.  The result is the state
and the return value, which is `count` converted to the return type
`ssize_t`. -/
def s2w_sweep2wake_dump (w : Nat) (s : State) (buf : List Char) (count : Nat) : State × Int :=
  if charAt buf 0 ≥ (('0' : Char).toNat : Int) ∧ charAt buf 0 ≤ (('1' : Char).toNat : Int) ∧
      charAt buf 1 = (newline.toNat : Int) then
    if s.s2w_wakeup ≠ charAt buf 0 - (('0' : Char).toNat : Int) then
      ({ s with s2w_wakeup := charAt buf 0 - (('0' : Char).toNat : Int) }, toSsize w count)
    else (s, toSsize w count)
  else (s, toSsize w count)

/-- The function `s2w_sweep2sleep_dump`, the sysfs store of `s2w_switch`, on a
target whose `size_t` and `ssize_t` are `w` bits wide. -/
def s2w_sweep2sleep_dump (w : Nat) (s : State) (buf : List Char) (count : Nat) : State × Int :=
  if charAt buf 0 ≥ (('0' : Char).toNat : Int) ∧ charAt buf 0 ≤ (('1' : Char).toNat : Int) ∧
      charAt buf 1 = (newline.toNat : Int) then
    if s.s2w_switch ≠ charAt buf 0 - (('0' : Char).toNat : Int) then
      ({ s with s2w_switch := charAt buf 0 - (('0' : Char).toNat : Int) }, toSsize w count)
    else (s, toSsize w count)
  else (s, toSsize w count)

/-- One write to a sysfs attribute of the module. -/
inductive SetterCall
  /-- A write to `sweep2sleep`, handled by `s2w_sweep2sleep_dump`. -/
  | sweep2sleep (buf : List Char) (count : Nat)
  /-- A write to `sweep2wake`, handled by `s2w_sweep2wake_dump`. -/
  | sweep2wake (buf : List Char) (count : Nat)

/-- The state after the writes of the list, made one after the other, on a
target of width `w`. -/
def runSetters (w : Nat) (s : State) : List SetterCall → State
  | [] => s
  | SetterCall.sweep2sleep buf count :: l =>
    runSetters w (s2w_sweep2sleep_dump w s buf count).1 l
  | SetterCall.sweep2wake buf count :: l =>
    runSetters w (s2w_sweep2wake_dump w s buf count).1 l

/-! ## Properties of a single call -/

theorem wake_right_left_eq : wake_right_left = sleep_right_left := rfl

theorem wake_left_right_eq : wake_left_right = sleep_left_right := rfl

/-- What the right-to-left cascade does to the state and to the effects. -/
theorem right_left_step (s : State) (out : List Effect) (x y : Int) :
    ∀ r, r = sleep_right_left s out x y →
    (r.1.barrier0 = true ↔ s.barrier0 = true ∨ (700 < x ∧ x < 1190 ∧ 2400 < y)) ∧
    (r.1.barrier1 = true ↔
      s.barrier1 = true ∨ (s.barrier0 = true ∧ 400 < x ∧ x < 700 ∧ 2400 < y)) ∧
    (r.1.exec_count = false ↔ s.exec_count = false ∨
      (s.barrier0 = true ∧ s.barrier1 = true ∧ x < 250 ∧ 2400 < y)) ∧
    (pwrCount r.2 = pwrCount out +
      if s.exec_count = true ∧ s.barrier0 = true ∧ s.barrier1 = true ∧ x < 250 ∧ 2400 < y
      then 1 else 0) ∧
    r.1.reverse_barrier0 = s.reverse_barrier0 ∧ r.1.reverse_barrier1 = s.reverse_barrier1 ∧
    r.1.s2w_switch = s.s2w_switch ∧ r.1.s2w_wakeup = s.s2w_wakeup ∧
    r.1.touch_x = s.touch_x ∧ r.1.touch_y = s.touch_y ∧
    r.1.touch_x_called = s.touch_x_called ∧ r.1.touch_y_called = s.touch_y_called ∧
    r.1.scr_on_touch = s.scr_on_touch := by
  intro r hr
  simp only [sleep_right_left, DEFAULT_S2W_X_B5, DEFAULT_S2W_X_B2, DEFAULT_S2W_X_B1,
    DEFAULT_S2W_X_B0, DEFAULT_S2W_Y_LIMIT, DEFAULT_S2W_Y_MAX, DEFAULT_S2W_X_MAX] at hr
  norm_num at hr
  cases hb0 : s.barrier0 <;> cases hb1 : s.barrier1 <;> cases hec : s.exec_count <;>
    simp only [hb0, hb1, hec] at hr ⊢ <;>
    split_ifs at hr <;> subst hr <;> simp_all [pwrCount] <;> omega

/-- What the left-to-right cascade does to the state and to the effects. -/
theorem left_right_step (s : State) (out : List Effect) (x y : Int) :
    ∀ r, r = sleep_left_right s out x y →
    (r.1.reverse_barrier0 = true ↔
      s.reverse_barrier0 = true ∨ (250 < x ∧ x < 380 ∧ 2400 < y)) ∧
    (r.1.reverse_barrier1 = true ↔
      s.reverse_barrier1 = true ∨
        (s.reverse_barrier0 = true ∧ 380 < x ∧ x < 1040 ∧ 2400 < y)) ∧
    (r.1.exec_count = false ↔ s.exec_count = false ∨
      (s.reverse_barrier0 = true ∧ s.reverse_barrier1 = true ∧ 1190 < x ∧ 2400 < y)) ∧
    (pwrCount r.2 = pwrCount out +
      if s.exec_count = true ∧ s.reverse_barrier0 = true ∧ s.reverse_barrier1 = true ∧
        1190 < x ∧ 2400 < y
      then 1 else 0) ∧
    r.1.barrier0 = s.barrier0 ∧ r.1.barrier1 = s.barrier1 ∧
    r.1.s2w_switch = s.s2w_switch ∧ r.1.s2w_wakeup = s.s2w_wakeup ∧
    r.1.touch_x = s.touch_x ∧ r.1.touch_y = s.touch_y ∧
    r.1.touch_x_called = s.touch_x_called ∧ r.1.touch_y_called = s.touch_y_called ∧
    r.1.scr_on_touch = s.scr_on_touch := by
  intro r hr
  simp only [sleep_left_right, DEFAULT_S2W_X_B5, DEFAULT_S2W_X_B4, DEFAULT_S2W_X_B3,
    DEFAULT_S2W_X_B0, DEFAULT_S2W_Y_LIMIT, DEFAULT_S2W_Y_MAX, DEFAULT_S2W_X_MAX] at hr
  norm_num at hr
  cases hb0 : s.reverse_barrier0 <;> cases hb1 : s.reverse_barrier1 <;>
    cases hec : s.exec_count <;>
    simp only [hb0, hb1, hec] at hr ⊢ <;>
    split_ifs at hr <;> subst hr <;> simp_all [pwrCount] <;> omega

theorem detect_eq (s : State) (flg : Bool) (x y : Int) (st : Bool) :
    detect_sweep2wake s flg x y st =
      if st = true ∧ ModeActive s flg then
        sleep_left_right (sleep_right_left { s with scr_on_touch := true } [] x y).1
          (sleep_right_left { s with scr_on_touch := true } [] x y).2 x y
      else (s, []) := by
  simp only [detect_sweep2wake, wake_right_left_eq, wake_left_right_eq, ModeActive]
  cases flg <;> cases st <;> simp

/-- What one call of `detect_sweep2wake` does, in every mode. -/
theorem detect_step (s : State) (flg : Bool) (x y : Int) (st : Bool) :
    ∀ r, r = detect_sweep2wake s flg x y st →
    (r.1.barrier0 = true ↔
      s.barrier0 = true ∨ ((st = true ∧ ModeActive s flg) ∧ 700 < x ∧ x < 1190 ∧ 2400 < y)) ∧
    (r.1.barrier1 = true ↔
      s.barrier1 = true ∨
        ((st = true ∧ ModeActive s flg) ∧ s.barrier0 = true ∧ 400 < x ∧ x < 700 ∧ 2400 < y)) ∧
    (r.1.reverse_barrier0 = true ↔
      s.reverse_barrier0 = true ∨
        ((st = true ∧ ModeActive s flg) ∧ 250 < x ∧ x < 380 ∧ 2400 < y)) ∧
    (r.1.reverse_barrier1 = true ↔
      s.reverse_barrier1 = true ∨
        ((st = true ∧ ModeActive s flg) ∧
          s.reverse_barrier0 = true ∧ 380 < x ∧ x < 1040 ∧ 2400 < y)) ∧
    (r.1.exec_count = false ↔ s.exec_count = false ∨
      ((st = true ∧ ModeActive s flg) ∧
        ((s.barrier0 = true ∧ s.barrier1 = true ∧ x < 250 ∧ 2400 < y) ∨
          (s.reverse_barrier0 = true ∧ s.reverse_barrier1 = true ∧ 1190 < x ∧ 2400 < y)))) ∧
    ((s.exec_count = true ∧ (st = true ∧ ModeActive s flg) ∧
        ((s.barrier0 = true ∧ s.barrier1 = true ∧ x < 250 ∧ 2400 < y) ∨
          (s.reverse_barrier0 = true ∧ s.reverse_barrier1 = true ∧ 1190 < x ∧ 2400 < y)) ∧
        pwrCount r.2 = 1) ∨
      (¬ (s.exec_count = true ∧ (st = true ∧ ModeActive s flg) ∧
        ((s.barrier0 = true ∧ s.barrier1 = true ∧ x < 250 ∧ 2400 < y) ∨
          (s.reverse_barrier0 = true ∧ s.reverse_barrier1 = true ∧ 1190 < x ∧ 2400 < y))) ∧
        pwrCount r.2 = 0)) ∧
    r.1.s2w_switch = s.s2w_switch ∧ r.1.s2w_wakeup = s.s2w_wakeup ∧
    r.1.touch_x = s.touch_x ∧ r.1.touch_y = s.touch_y ∧
    r.1.touch_x_called = s.touch_x_called ∧ r.1.touch_y_called = s.touch_y_called := by
  intro r hr
  rw [detect_eq] at hr
  by_cases hA : st = true ∧ ModeActive s flg
  · rw [if_pos hA] at hr
    have h1 := right_left_step { s with scr_on_touch := true } [] x y _ rfl
    have h2 := left_right_step _ _ x y r hr
    generalize sleep_right_left { s with scr_on_touch := true } [] x y = r1 at h1 h2
    simp only at h1
    obtain ⟨a1, a2, a3, a4, a5, a6, a7, a8, a9, a10, a11, a12, -⟩ := h1
    obtain ⟨b1, b2, b3, b4, b5, b6, b7, b8, b9, b10, b11, b12, -⟩ := h2
    clear hr
    rw [a5] at b1
    rw [a5, a6] at b2 b3 b4
    rw [a4] at b4
    have hp : pwrCount ([] : List Effect) = 0 := rfl
    rw [hp] at b4
    simp only [hA, true_and]
    refine ⟨by rw [b5]; exact a1, by rw [b6]; exact a2, b1, b2, by rw [b3, a3, or_assoc], ?_,
      by rw [b7, a7], by rw [b8, a8], by rw [b9, a9], by rw [b10, a10], by rw [b11, a11],
      by rw [b12, a12]⟩
    have e1 : s.exec_count = false ↔ ¬ s.exec_count = true := by simp
    have e2 : r1.1.exec_count = false ↔ ¬ r1.1.exec_count = true := by simp
    rw [e1, e2] at a3
    split_ifs at b4 with hF hR hR
    · exact absurd hR.1 (a3.mpr (Or.inr hF.2))
    · left; exact ⟨hF.1, Or.inl hF.2, by omega⟩
    · left
      refine ⟨?_, Or.inr hR.2, by omega⟩
      by_contra h
      exact a3.mpr (Or.inl h) hR.1
    · right
      refine ⟨?_, by omega⟩
      rintro ⟨h1, h2 | h2⟩
      · exact hF ⟨h1, h2⟩
      · apply hR
        refine ⟨?_, h2⟩
        by_contra h
        rcases a3.mp h with h3 | h3
        · exact h3 h1
        · exact hF ⟨h1, h3⟩
  · rw [if_neg hA] at hr
    subst hr
    simp [hA, pwrCount]

/-! ## Properties of runs -/

theorem reset_fields (s : State) :
    (sweep2wake_reset s).1.exec_count = true ∧
    (sweep2wake_reset s).1.barrier0 = false ∧ (sweep2wake_reset s).1.barrier1 = false ∧
    (sweep2wake_reset s).1.reverse_barrier0 = false ∧
    (sweep2wake_reset s).1.reverse_barrier1 = false ∧
    (sweep2wake_reset s).1.scr_on_touch = false ∧
    (sweep2wake_reset s).1.wakelock_active = false ∧
    (sweep2wake_reset s).1.s2w_switch = s.s2w_switch ∧
    (sweep2wake_reset s).1.s2w_wakeup = s.s2w_wakeup ∧
    (sweep2wake_reset s).1.touch_x = s.touch_x ∧ (sweep2wake_reset s).1.touch_y = s.touch_y ∧
    (sweep2wake_reset s).1.touch_x_called = s.touch_x_called ∧
    (sweep2wake_reset s).1.touch_y_called = s.touch_y_called ∧
    pwrCount (sweep2wake_reset s).2 = 0 := by
  simp only [sweep2wake_reset]
  split_ifs <;> simp_all [pwrCount]

theorem feed_snoc (flg : Bool) (s : State) (l : List (Int × Int)) (p : Int × Int) :
    feed flg s (l ++ [p]) = (detect_sweep2wake (feed flg s l) flg p.1 p.2 true).1 := by
  induction l generalizing s with
  | nil => rfl
  | cons q l ih => exact ih _

theorem triggers_snoc (flg : Bool) (s : State) (l : List (Int × Int)) (p : Int × Int) :
    triggers flg s (l ++ [p]) =
      triggers flg s l ++ [pwrCount (detect_sweep2wake (feed flg s l) flg p.1 p.2 true).2] := by
  induction l generalizing s with
  | nil => rfl
  | cons q l ih => exact congrArg _ (ih _)

theorem triggers_length (flg : Bool) (s : State) (l : List (Int × Int)) :
    (triggers flg s l).length = l.length := by
  induction l generalizing s with
  | nil => rfl
  | cons q l ih => simp only [triggers, List.length_cons, ih]

theorem feed_switches (flg : Bool) (s : State) (l : List (Int × Int)) :
    (feed flg s l).s2w_switch = s.s2w_switch ∧ (feed flg s l).s2w_wakeup = s.s2w_wakeup := by
  induction l generalizing s with
  | nil => exact ⟨rfl, rfl⟩
  | cons q l ih =>
    have h := detect_step s flg q.1 q.2 true _ rfl
    simp only [feed]
    rw [(ih _).1, (ih _).2]
    exact ⟨h.2.2.2.2.2.2.1, h.2.2.2.2.2.2.2.1⟩

theorem feed_modeActive (flg : Bool) (s : State) (l : List (Int × Int))
    (h : ModeActive s flg) : ModeActive (feed flg s l) flg := by
  unfold ModeActive at *
  rw [(feed_switches flg s l).1, (feed_switches flg s l).2]
  exact h

theorem reset_modeActive (flg : Bool) (s : State)
    (h : ModeActive s flg) : ModeActive (sweep2wake_reset s).1 flg := by
  unfold ModeActive at *
  rw [(reset_fields s).2.2.2.2.2.2.2.1, (reset_fields s).2.2.2.2.2.2.2.2.1]
  exact h

theorem holds_snoc (l : List (Int × Int)) (q : Int × Int) (i : Nat) (G : Int × Int → Prop) :
    Holds (l ++ [q]) i G ↔ Holds l i G ∨ (i = l.length ∧ G q) := by
  unfold Holds
  constructor
  · rintro ⟨p, hp, hG⟩
    rcases Nat.lt_trichotomy i l.length with h | h | h
    · left
      rw [List.getElem?_append_left h] at hp
      exact ⟨p, hp, hG⟩
    · right
      subst h
      simp at hp
      subst hp
      exact ⟨rfl, hG⟩
    · exfalso
      have : (l ++ [q])[i]? = none := by
        apply List.getElem?_eq_none
        simp
        omega
      rw [this] at hp
      exact Option.noConfusion hp
  · rintro (⟨p, hp, hG⟩ | ⟨rfl, hG⟩)
    · have h : i < l.length := by
        by_contra hc
        rw [List.getElem?_eq_none (by omega)] at hp
        exact Option.noConfusion hp
      exact ⟨p, by rw [List.getElem?_append_left h]; exact hp, hG⟩
    · exact ⟨q, by simp, hG⟩

theorem holds_lt {l : List (Int × Int)} {i : Nat} {G : Int × Int → Prop}
    (h : Holds l i G) : i < l.length := by
  obtain ⟨p, hp, -⟩ := h
  by_contra hc
  rw [List.getElem?_eq_none (by omega)] at hp
  exact Option.noConfusion hp

theorem holds_nil (i : Nat) (G : Int × Int → Prop) : ¬ Holds [] i G := by
  rintro ⟨p, hp, -⟩
  simp at hp

theorem ex_holds_snoc (l : List (Int × Int)) (p : Int × Int) (G : Int × Int → Prop) :
    (∃ i, Holds (l ++ [p]) i G) ↔ (∃ i, Holds l i G) ∨ G p := by
  constructor
  · rintro ⟨i, h⟩
    rcases (holds_snoc l p i G).mp h with h | ⟨-, h⟩
    · exact Or.inl ⟨i, h⟩
    · exact Or.inr h
  · rintro (⟨i, h⟩ | h)
    · exact ⟨i, (holds_snoc l p i G).mpr (Or.inl h)⟩
    · exact ⟨l.length, (holds_snoc l p _ G).mpr (Or.inr ⟨rfl, h⟩)⟩

theorem ex_holds2_snoc (l : List (Int × Int)) (p : Int × Int) (G0 G1 : Int × Int → Prop) :
    (∃ i j, i < j ∧ Holds (l ++ [p]) i G0 ∧ Holds (l ++ [p]) j G1) ↔
      (∃ i j, i < j ∧ Holds l i G0 ∧ Holds l j G1) ∨ ((∃ i, Holds l i G0) ∧ G1 p) := by
  constructor
  · rintro ⟨i, j, hij, hi, hj⟩
    rcases (holds_snoc l p i G0).mp hi with hi | ⟨hi, -⟩
    · rcases (holds_snoc l p j G1).mp hj with hj | ⟨-, hj⟩
      · exact Or.inl ⟨i, j, hij, hi, hj⟩
      · exact Or.inr ⟨⟨i, hi⟩, hj⟩
    · exfalso
      rcases (holds_snoc l p j G1).mp hj with hj | ⟨hj, -⟩
      · have := holds_lt hj
        omega
      · omega
  · rintro (⟨i, j, hij, hi, hj⟩ | ⟨⟨i, hi⟩, hp⟩)
    · exact ⟨i, j, hij, (holds_snoc l p i G0).mpr (Or.inl hi),
        (holds_snoc l p j G1).mpr (Or.inl hj)⟩
    · exact ⟨i, l.length, holds_lt hi, (holds_snoc l p i G0).mpr (Or.inl hi),
        (holds_snoc l p _ G1).mpr (Or.inr ⟨rfl, hp⟩)⟩

theorem ex_holds3_snoc (l : List (Int × Int)) (p : Int × Int) (G0 G1 G2 : Int × Int → Prop)
    (k : Nat) :
    (∃ i j, i < j ∧ j < k ∧ Holds (l ++ [p]) i G0 ∧ Holds (l ++ [p]) j G1 ∧
        Holds (l ++ [p]) k G2) ↔
      (∃ i j, i < j ∧ j < k ∧ Holds l i G0 ∧ Holds l j G1 ∧ Holds l k G2) ∨
        (k = l.length ∧ (∃ i j, i < j ∧ Holds l i G0 ∧ Holds l j G1) ∧ G2 p) := by
  constructor
  · rintro ⟨i, j, hij, hjk, hi, hj, hk⟩
    have hk1 := holds_lt hk
    simp only [List.length_append, List.length_singleton] at hk1
    rcases (holds_snoc l p i G0).mp hi with hi | ⟨hi, -⟩
    · rcases (holds_snoc l p j G1).mp hj with hj | ⟨hj, -⟩
      · rcases (holds_snoc l p k G2).mp hk with hk | ⟨hk, hp⟩
        · exact Or.inl ⟨i, j, hij, hjk, hi, hj, hk⟩
        · exact Or.inr ⟨hk, ⟨i, j, hij, hi, hj⟩, hp⟩
      · omega
    · omega
  · rintro (⟨i, j, hij, hjk, hi, hj, hk⟩ | ⟨rfl, ⟨i, j, hij, hi, hj⟩, hp⟩)
    · exact ⟨i, j, hij, hjk, (holds_snoc l p i G0).mpr (Or.inl hi),
        (holds_snoc l p j G1).mpr (Or.inl hj), (holds_snoc l p k G2).mpr (Or.inl hk)⟩
    · exact ⟨i, j, hij, holds_lt hj, (holds_snoc l p i G0).mpr (Or.inl hi),
        (holds_snoc l p j G1).mpr (Or.inl hj), (holds_snoc l p _ G2).mpr (Or.inr ⟨rfl, hp⟩)⟩

theorem sweepEndsAt_lt {l : List (Int × Int)} {k : Nat} (h : SweepEndsAt l k) :
    k < l.length := by
  obtain ⟨i, j, h | h⟩ := h
  · exact holds_lt h.2.2.2.2
  · exact holds_lt h.2.2.2.2

theorem sweepEndsAt_snoc (l : List (Int × Int)) (p : Int × Int) (k : Nat) :
    SweepEndsAt (l ++ [p]) k ↔ SweepEndsAt l k ∨ (k = l.length ∧
      (((∃ i j, i < j ∧ Holds l i (fun p => 700 < p.1 ∧ p.1 < 1190 ∧ 2400 < p.2) ∧
          Holds l j (fun p => 400 < p.1 ∧ p.1 < 700 ∧ 2400 < p.2)) ∧
          (p.1 < 250 ∧ 2400 < p.2)) ∨
        ((∃ i j, i < j ∧ Holds l i (fun p => 250 < p.1 ∧ p.1 < 380 ∧ 2400 < p.2) ∧
          Holds l j (fun p => 380 < p.1 ∧ p.1 < 1040 ∧ 2400 < p.2)) ∧
          (1190 < p.1 ∧ 2400 < p.2)))) := by
  have hf := ex_holds3_snoc l p (fun p => 700 < p.1 ∧ p.1 < 1190 ∧ 2400 < p.2)
    (fun p => 400 < p.1 ∧ p.1 < 700 ∧ 2400 < p.2) (fun p => p.1 < 250 ∧ 2400 < p.2) k
  have hr := ex_holds3_snoc l p (fun p => 250 < p.1 ∧ p.1 < 380 ∧ 2400 < p.2)
    (fun p => 380 < p.1 ∧ p.1 < 1040 ∧ 2400 < p.2) (fun p => 1190 < p.1 ∧ 2400 < p.2) k
  unfold SweepEndsAt ForwardSweepAt ReverseSweepAt
  constructor
  · rintro ⟨i, j, h | h⟩
    · rcases hf.mp ⟨i, j, h⟩ with ⟨i, j, h⟩ | ⟨h1, h2, h3⟩
      · exact Or.inl ⟨i, j, Or.inl h⟩
      · exact Or.inr ⟨h1, Or.inl ⟨h2, h3⟩⟩
    · rcases hr.mp ⟨i, j, h⟩ with ⟨i, j, h⟩ | ⟨h1, h2, h3⟩
      · exact Or.inl ⟨i, j, Or.inr h⟩
      · exact Or.inr ⟨h1, Or.inr ⟨h2, h3⟩⟩
  · rintro (⟨i, j, h | h⟩ | ⟨h1, ⟨h2, h3⟩ | ⟨h2, h3⟩⟩)
    · obtain ⟨i, j, h⟩ := hf.mpr (Or.inl ⟨i, j, h⟩)
      exact ⟨i, j, Or.inl h⟩
    · obtain ⟨i, j, h⟩ := hr.mpr (Or.inl ⟨i, j, h⟩)
      exact ⟨i, j, Or.inr h⟩
    · obtain ⟨i, j, h⟩ := hf.mpr (Or.inr ⟨h1, h2, h3⟩)
      exact ⟨i, j, Or.inl h⟩
    · obtain ⟨i, j, h⟩ := hr.mpr (Or.inr ⟨h1, h2, h3⟩)
      exact ⟨i, j, Or.inr h⟩

/-- The gate flags and the fired flag after a run from a reset state, read off
the list of updates. -/
theorem gate_inv (s0 : State) (flg : Bool) (hm : ModeActive s0 flg) (l : List (Int × Int)) :
    ((feed flg (sweep2wake_reset s0).1 l).barrier0 = true ↔
      ∃ i, Holds l i (fun p => 700 < p.1 ∧ p.1 < 1190 ∧ 2400 < p.2)) ∧
    ((feed flg (sweep2wake_reset s0).1 l).barrier1 = true ↔
      ∃ i j, i < j ∧ Holds l i (fun p => 700 < p.1 ∧ p.1 < 1190 ∧ 2400 < p.2) ∧
        Holds l j (fun p => 400 < p.1 ∧ p.1 < 700 ∧ 2400 < p.2)) ∧
    ((feed flg (sweep2wake_reset s0).1 l).reverse_barrier0 = true ↔
      ∃ i, Holds l i (fun p => 250 < p.1 ∧ p.1 < 380 ∧ 2400 < p.2)) ∧
    ((feed flg (sweep2wake_reset s0).1 l).reverse_barrier1 = true ↔
      ∃ i j, i < j ∧ Holds l i (fun p => 250 < p.1 ∧ p.1 < 380 ∧ 2400 < p.2) ∧
        Holds l j (fun p => 380 < p.1 ∧ p.1 < 1040 ∧ 2400 < p.2)) ∧
    ((feed flg (sweep2wake_reset s0).1 l).exec_count = false ↔ ∃ k, SweepEndsAt l k) := by
  induction l using List.reverseRecOn with
  | nil =>
    have hr := reset_fields s0
    simp only [feed]
    refine ⟨?_, ?_, ?_, ?_, ?_⟩
    · rw [hr.2.1]; simp [holds_nil]
    · rw [hr.2.2.1]; simp [holds_nil]
    · rw [hr.2.2.2.1]; simp [holds_nil]
    · rw [hr.2.2.2.2.1]; simp [holds_nil]
    · rw [hr.1]
      simp only [Bool.true_eq_false, false_iff, not_exists]
      intro k hk
      have := sweepEndsAt_lt hk
      simp at this
  | append_singleton l p ih =>
    have hA : true = true ∧ ModeActive (feed flg (sweep2wake_reset s0).1 l) flg :=
      ⟨rfl, feed_modeActive flg _ l (reset_modeActive flg s0 hm)⟩
    have h := detect_step (feed flg (sweep2wake_reset s0).1 l) flg p.1 p.2 true _ rfl
    simp only [hA, true_and, and_self] at h
    obtain ⟨h0, h1, h2, h3, h4, -⟩ := h
    obtain ⟨i0, i1, i2, i3, i4⟩ := ih
    rw [feed_snoc]
    refine ⟨?_, ?_, ?_, ?_, ?_⟩
    · rw [h0, i0, ex_holds_snoc]
    · rw [h1, i1, i0, ex_holds2_snoc]
    · rw [h2, i2, ex_holds_snoc]
    · rw [h3, i3, i2, ex_holds2_snoc]
    · rw [h4, i4, i0, i1, i2, i3]
      constructor
      · rintro (⟨k, hk⟩ | ⟨-, hb, hp⟩ | ⟨-, hb, hp⟩)
        · exact ⟨k, (sweepEndsAt_snoc l p k).mpr (Or.inl hk)⟩
        · exact ⟨l.length, (sweepEndsAt_snoc l p _).mpr (Or.inr ⟨rfl, Or.inl ⟨hb, hp⟩⟩)⟩
        · exact ⟨l.length, (sweepEndsAt_snoc l p _).mpr (Or.inr ⟨rfl, Or.inr ⟨hb, hp⟩⟩)⟩
      · rintro ⟨k, hk⟩
        rcases (sweepEndsAt_snoc l p k).mp hk with hk | ⟨-, ⟨hb, hp⟩ | ⟨hb, hp⟩⟩
        · exact Or.inl ⟨k, hk⟩
        · obtain ⟨i, j, hij, hi, hj⟩ := hb
          exact Or.inr (Or.inl ⟨⟨i, hi⟩, ⟨i, j, hij, hi, hj⟩, hp⟩)
        · obtain ⟨i, j, hij, hi, hj⟩ := hb
          exact Or.inr (Or.inr ⟨⟨i, hi⟩, ⟨i, j, hij, hi, hj⟩, hp⟩)

theorem firstSweepEnd_snoc_lt (l : List (Int × Int)) (p : Int × Int) (m : Nat)
    (hm : m < l.length) : FirstSweepEnd (l ++ [p]) m ↔ FirstSweepEnd l m := by
  have key : ∀ k, k < l.length → (SweepEndsAt (l ++ [p]) k ↔ SweepEndsAt l k) := by
    intro k hk
    rw [sweepEndsAt_snoc]
    constructor
    · rintro (h | ⟨h, -⟩)
      · exact h
      · omega
    · exact Or.inl
  unfold FirstSweepEnd
  rw [key m hm]
  constructor
  · rintro ⟨h1, h2⟩
    exact ⟨h1, fun k hk hc => h2 k hk ((key k (by omega)).mpr hc)⟩
  · rintro ⟨h1, h2⟩
    exact ⟨h1, fun k hk hc => h2 k hk ((key k (by omega)).mp hc)⟩

/-- In a run from a reset state the call at position `m` requests the power
action once if `m` is the first position completing a sweep, and not at all
otherwise. -/
theorem triggers_spec (s0 : State) (flg : Bool) (hm : ModeActive s0 flg)
    (l : List (Int × Int)) (m : Nat) :
    (FirstSweepEnd l m ∧ (triggers flg (sweep2wake_reset s0).1 l).getD m 0 = 1) ∨
      (¬ FirstSweepEnd l m ∧ (triggers flg (sweep2wake_reset s0).1 l).getD m 0 = 0) := by
  induction l using List.reverseRecOn with
  | nil =>
    right
    refine ⟨fun h => ?_, rfl⟩
    have := sweepEndsAt_lt h.1
    simp at this
  | append_singleton l p ih =>
    rw [triggers_snoc]
    rcases Nat.lt_trichotomy m l.length with hlt | heq | hgt
    · rw [firstSweepEnd_snoc_lt l p m hlt,
        List.getD_append _ _ _ _ (by rw [triggers_length]; exact hlt)]
      exact ih
    · subst heq
      have hlen : (triggers flg (sweep2wake_reset s0).1 l).length ≤ l.length := by
        rw [triggers_length]
      rw [List.getD_append_right _ _ _ _ hlen, triggers_length, Nat.sub_self]
      simp only [List.getD_cons_zero]
      have hA : true = true ∧ ModeActive (feed flg (sweep2wake_reset s0).1 l) flg :=
        ⟨rfl, feed_modeActive flg _ l (reset_modeActive flg s0 hm)⟩
      have h := detect_step (feed flg (sweep2wake_reset s0).1 l) flg p.1 p.2 true _ rfl
      simp only [hA, true_and, and_self] at h
      obtain ⟨-, -, -, -, -, h5, -⟩ := h
      obtain ⟨i0, i1, i2, i3, i4⟩ := gate_inv s0 flg hm l
      have e1 : (feed flg (sweep2wake_reset s0).1 l).exec_count = true ↔
          ¬ ∃ k, SweepEndsAt l k := by
        rw [← i4]; simp
      rw [e1, i0, i1, i2, i3] at h5
      have hfirst : FirstSweepEnd (l ++ [p]) l.length ↔
          (¬ ∃ k, SweepEndsAt l k) ∧
          (((∃ i, Holds l i (fun p => 700 < p.1 ∧ p.1 < 1190 ∧ 2400 < p.2)) ∧
            (∃ i j, i < j ∧ Holds l i (fun p => 700 < p.1 ∧ p.1 < 1190 ∧ 2400 < p.2) ∧
              Holds l j (fun p => 400 < p.1 ∧ p.1 < 700 ∧ 2400 < p.2)) ∧
              p.1 < 250 ∧ 2400 < p.2) ∨
            ((∃ i, Holds l i (fun p => 250 < p.1 ∧ p.1 < 380 ∧ 2400 < p.2)) ∧
              (∃ i j, i < j ∧ Holds l i (fun p => 250 < p.1 ∧ p.1 < 380 ∧ 2400 < p.2) ∧
                Holds l j (fun p => 380 < p.1 ∧ p.1 < 1040 ∧ 2400 < p.2)) ∧
              1190 < p.1 ∧ 2400 < p.2)) := by
        unfold FirstSweepEnd
        rw [sweepEndsAt_snoc]
        constructor
        · rintro ⟨h1, h2⟩
          refine ⟨?_, ?_⟩
          · rintro ⟨k, hk⟩
            exact h2 k (sweepEndsAt_lt hk) ((sweepEndsAt_snoc l p k).mpr (Or.inl hk))
          · rcases h1 with h1 | ⟨-, ⟨hb, hp⟩ | ⟨hb, hp⟩⟩
            · exact absurd (sweepEndsAt_lt h1) (by omega)
            · obtain ⟨i, j, hij, hi, hj⟩ := hb
              exact Or.inl ⟨⟨i, hi⟩, ⟨i, j, hij, hi, hj⟩, hp⟩
            · obtain ⟨i, j, hij, hi, hj⟩ := hb
              exact Or.inr ⟨⟨i, hi⟩, ⟨i, j, hij, hi, hj⟩, hp⟩
        · rintro ⟨h1, h2⟩
          refine ⟨Or.inr ⟨rfl, ?_⟩, ?_⟩
          · rcases h2 with ⟨-, hb, hp⟩ | ⟨-, hb, hp⟩
            · exact Or.inl ⟨hb, hp⟩
            · exact Or.inr ⟨hb, hp⟩
          · intro k hk hc
            rcases (sweepEndsAt_snoc l p k).mp hc with hc | ⟨hc, -⟩
            · exact h1 ⟨k, hc⟩
            · omega
      rw [hfirst]
      rcases h5 with ⟨a, b, c⟩ | ⟨a, c⟩
      · exact Or.inl ⟨⟨a, b⟩, c⟩
      · exact Or.inr ⟨fun hc => a ⟨hc.1, hc.2⟩, c⟩
    · right
      refine ⟨fun h => ?_, ?_⟩
      · have := sweepEndsAt_lt h.1
        simp only [List.length_append, List.length_singleton] at this
        omega
      · apply List.getD_eq_default
        simp only [List.length_append, List.length_singleton, triggers_length]
        omega

theorem sum_eq_zero_of_getD (tr : List Nat) (h : ∀ m, tr.getD m 0 = 0) : tr.sum = 0 := by
  induction tr with
  | nil => rfl
  | cons a t ih =>
    have h0 : a = 0 := h 0
    have ht : ∀ m, t.getD m 0 = 0 := fun m => h (m + 1)
    rw [List.sum_cons, h0, ih ht]

theorem sum_eq_one_of_getD (tr : List Nat) (k : Nat) (hk : k < tr.length)
    (h : ∀ m, tr.getD m 0 = if m = k then 1 else 0) : tr.sum = 1 := by
  induction tr generalizing k with
  | nil => simp at hk
  | cons a t ih =>
    cases k with
    | zero =>
      have h0 : a = 1 := h 0
      have ht : ∀ m, t.getD m 0 = 0 := fun m => by
        have := h (m + 1)
        simpa using this
      rw [List.sum_cons, h0, sum_eq_zero_of_getD t ht]
    | succ k =>
      have h0 : a = 0 := by
        have := h 0
        simpa using this
      have ht : ∀ m, t.getD m 0 = if m = k then 1 else 0 := fun m => by
        have := h (m + 1)
        simpa using this
      rw [List.sum_cons, h0, ih k (by simpa using hk) ht]

theorem exists_firstSweepEnd {l : List (Int × Int)} (h : ∃ k, SweepEndsAt l k) :
    ∃ k, FirstSweepEnd l k := by
  classical
  exact ⟨Nat.find h, Nat.find_spec h, fun k hk => Nat.find_min h hk⟩

theorem firstSweepEnd_unique {l : List (Int × Int)} {k m : Nat}
    (hk : FirstSweepEnd l k) (hm : FirstSweepEnd l m) : m = k := by
  rcases Nat.lt_trichotomy m k with h | h | h
  · exact absurd hm.1 (hk.2 m h)
  · exact h
  · exact absurd hk.1 (hm.2 k h)

theorem modeActive_of_reset {s : State} {flg : Bool}
    (h : ModeActive (sweep2wake_reset s).1 flg) : ModeActive s flg := by
  unfold ModeActive at *
  rw [(reset_fields s).2.2.2.2.2.2.2.1, (reset_fields s).2.2.2.2.2.2.2.2.1] at h
  exact h

/-- The trigger counts of a run from a reset state, once the list is known to
complete a sweep first at position `k`. -/
theorem triggers_of_first (s0 : State) (flg : Bool) (hm : ModeActive s0 flg)
    (l : List (Int × Int)) (k : Nat) (hk : FirstSweepEnd l k) :
    (triggers flg (sweep2wake_reset s0).1 l).sum = 1 ∧
      ∀ m, (triggers flg (sweep2wake_reset s0).1 l).getD m 0 = if m = k then 1 else 0 := by
  have hget : ∀ m, (triggers flg (sweep2wake_reset s0).1 l).getD m 0 =
      if m = k then 1 else 0 := by
    intro m
    rcases triggers_spec s0 flg hm l m with ⟨h1, h2⟩ | ⟨h1, h2⟩
    · rw [h2, if_pos (firstSweepEnd_unique hk h1)]
    · rw [h2, if_neg (fun (h : m = k) => h1 (by rw [h]; exact hk))]
  refine ⟨sum_eq_one_of_getD _ k ?_ hget, hget⟩
  rw [triggers_length]
  exact sweepEndsAt_lt hk.1

/-- A run from a reset state requests the power action somewhere exactly when
the list completes a sweep. -/
theorem triggers_pos_iff (s0 : State) (flg : Bool) (hm : ModeActive s0 flg)
    (l : List (Int × Int)) :
    (∃ n ∈ triggers flg (sweep2wake_reset s0).1 l, n ≠ 0) ↔ ∃ k, SweepEndsAt l k := by
  constructor
  · rintro ⟨n, hn, hn0⟩
    obtain ⟨m, hm1, hm2⟩ := List.getElem_of_mem hn
    have hg : (triggers flg (sweep2wake_reset s0).1 l).getD m 0 = n := by
      rw [List.getD_eq_getElem _ _ hm1, hm2]
    rcases triggers_spec s0 flg hm l m with ⟨h1, -⟩ | ⟨-, h2⟩
    · exact ⟨m, h1.1⟩
    · exact absurd (hg ▸ h2) hn0
  · intro h
    obtain ⟨k, hk⟩ := exists_firstSweepEnd h
    have hlen : k < (triggers flg (sweep2wake_reset s0).1 l).length := by
      rw [triggers_length]
      exact sweepEndsAt_lt hk.1
    have hg := (triggers_of_first s0 flg hm l k hk).2 k
    rw [if_pos rfl, List.getD_eq_getElem _ _ hlen] at hg
    exact ⟨1, hg ▸ List.getElem_mem _, by decide⟩

/-- C1: for every sequence of coordinate updates fed to `detect_sweep2wake` from a
reset state with one mode active throughout, the power action is requested
during the run if and only if positions `i < j < k` trace a forward or a reverse
sweep; and when they do, it is requested exactly once in total, by the call at
the smallest such `k`. -/
theorem sweep_recognised_iff (s0 : State) (flg : Bool) (l : List (Int × Int))
    (hmode : ModeActive (sweep2wake_reset s0).1 flg) :
    ((∃ n ∈ triggers flg (sweep2wake_reset s0).1 l, n ≠ 0) ↔
      ∃ i j k, ForwardSweepAt l i j k ∨ ReverseSweepAt l i j k) ∧
    ((∃ i j k, ForwardSweepAt l i j k ∨ ReverseSweepAt l i j k) →
      ∃ k, FirstSweepEnd l k ∧
        (triggers flg (sweep2wake_reset s0).1 l).sum = 1 ∧
        ∀ m, (triggers flg (sweep2wake_reset s0).1 l).getD m 0 = if m = k then 1 else 0) := by
  have hm := modeActive_of_reset hmode
  have e : (∃ i j k, ForwardSweepAt l i j k ∨ ReverseSweepAt l i j k) ↔
      ∃ k, SweepEndsAt l k := by
    unfold SweepEndsAt
    constructor
    · rintro ⟨i, j, k, h⟩
      exact ⟨k, i, j, h⟩
    · rintro ⟨k, i, j, h⟩
      exact ⟨i, j, k, h⟩
  rw [e]
  refine ⟨triggers_pos_iff s0 flg hm l, fun h => ?_⟩
  obtain ⟨k, hk⟩ := exists_firstSweepEnd h
  exact ⟨k, hk, triggers_of_first s0 flg hm l k hk⟩

theorem sweep_recognised_iff_witness :
    ModeActive (sweep2wake_reset { init with s2w_switch := 1 }).1 true ∧
    (((∃ n ∈ triggers true (sweep2wake_reset { init with s2w_switch := 1 }).1
        [(1000, 2450), (600, 2450), (200, 2450)], n ≠ 0) ↔
      ∃ i j k, ForwardSweepAt [(1000, 2450), (600, 2450), (200, 2450)] i j k ∨
        ReverseSweepAt [(1000, 2450), (600, 2450), (200, 2450)] i j k) ∧
    ((∃ i j k, ForwardSweepAt [(1000, 2450), (600, 2450), (200, 2450)] i j k ∨
        ReverseSweepAt [(1000, 2450), (600, 2450), (200, 2450)] i j k) →
      ∃ k, FirstSweepEnd [(1000, 2450), (600, 2450), (200, 2450)] k ∧
        (triggers true (sweep2wake_reset { init with s2w_switch := 1 }).1
          [(1000, 2450), (600, 2450), (200, 2450)]).sum = 1 ∧
        ∀ m, (triggers true (sweep2wake_reset { init with s2w_switch := 1 }).1
          [(1000, 2450), (600, 2450), (200, 2450)]).getD m 0 = if m = k then 1 else 0)) :=
  ⟨by decide, sweep_recognised_iff _ true [(1000, 2450), (600, 2450), (200, 2450)]
    (by decide)⟩

/-- C2: with the default geometry and sweep-to-sleep active (screen on,
`s2w_switch > 0`), the updates `(1000,2450)`, `(600,2450)`, `(200,2450)` fed from a
reset state request the power action exactly once, during the third update and
not during the first or the second. -/
theorem forward_scenario_fires_at_third (s0 : State) (hsw : 0 < s0.s2w_switch) :
    triggers true (sweep2wake_reset s0).1 [(1000, 2450), (600, 2450), (200, 2450)] =
      [0, 0, 1] := by
  have hm : ModeActive s0 true := Or.inl ⟨rfl, hsw⟩
  have hfirst : FirstSweepEnd [(1000, 2450), (600, 2450), (200, 2450)] 2 := by
    refine ⟨⟨0, 1, Or.inl ⟨by decide, by decide, ⟨_, rfl, by decide⟩, ⟨_, rfl, by decide⟩,
      ⟨_, rfl, by decide⟩⟩⟩, ?_⟩
    rintro k hk ⟨i, j, h | h⟩
    · have := h.1; have := h.2.1; omega
    · have := h.1; have := h.2.1; omega
  have h := (triggers_of_first s0 true hm _ 2 hfirst).2
  have hlen := triggers_length true (sweep2wake_reset s0).1
    [(1000, 2450), (600, 2450), (200, 2450)]
  generalize triggers true (sweep2wake_reset s0).1 [(1000, 2450), (600, 2450), (200, 2450)]
    = tr at h hlen
  match tr, hlen with
  | [a, b, c], _ =>
    have h0 := h 0
    have h1 := h 1
    have h2 := h 2
    simp at h0 h1 h2
    rw [h0, h1, h2]

theorem forward_scenario_fires_at_third_witness :
    (0 : Int) < ({ init with s2w_switch := 1 } : State).s2w_switch ∧
    triggers true (sweep2wake_reset { init with s2w_switch := 1 }).1
      [(1000, 2450), (600, 2450), (200, 2450)] = [0, 0, 1] :=
  ⟨by decide, forward_scenario_fires_at_third { init with s2w_switch := 1 } (by decide)⟩

/-! ## Properties of `s2w_input_event` -/

theorem pwrCount_detect_cons (x y : Int) (out : List Effect) :
    pwrCount (Effect.detect x y :: out) = pwrCount out := by
  simp [pwrCount]

/-- A call of `detect_sweep2wake` requests the power action at most once, only
when `exec_count` is true, and then clears `exec_count`. -/
theorem detect_potential (s : State) (flg : Bool) (x y : Int) (st : Bool) :
    (s.exec_count = false → (detect_sweep2wake s flg x y st).1.exec_count = false ∧
      pwrCount (detect_sweep2wake s flg x y st).2 = 0) ∧
    (pwrCount (detect_sweep2wake s flg x y st).2 = 0 ∨
      (pwrCount (detect_sweep2wake s flg x y st).2 = 1 ∧
        (detect_sweep2wake s flg x y st).1.exec_count = false)) := by
  obtain ⟨-, -, -, -, h4, h5, -⟩ := detect_step s flg x y st _ rfl
  constructor
  · intro h
    refine ⟨h4.mpr (Or.inl h), ?_⟩
    rcases h5 with ⟨h5, -⟩ | ⟨-, h5⟩
    · rw [h] at h5
      exact absurd h5 (by decide)
    · exact h5
  · rcases h5 with ⟨-, a, b, c⟩ | ⟨-, h5⟩
    · exact Or.inr ⟨c, h4.mpr (Or.inr ⟨a, b⟩)⟩
    · exact Or.inl h5

theorem codes_distinct : ABS_MT_POSITION_X ≠ ABS_MT_POSITION_Y := by decide

/-- What a call of `s2w_input_event` does when a switch is on and the event is
not a reset event: the pending coordinates are updated into a state `s1`, and
`detect_sweep2wake` runs on them exactly when both axes are then marked. -/
theorem input_event_spec (s : State) (flg : Bool) (code : Nat) (value : Int)
    (hz : ¬ (s.s2w_switch = 0 ∧ s.s2w_wakeup = 0))
    (hnr : ¬ ((code = ABS_MT_SLOT ∧ 0 < value) ∨ (code = ABS_MT_TRACKING_ID ∧ value = -1))) :
    ∃ s1 : State,
      s1.touch_x = (if code = ABS_MT_POSITION_X then value else s.touch_x) ∧
      s1.touch_y = (if code = ABS_MT_POSITION_Y then value else s.touch_y) ∧
      s1.exec_count = s.exec_count ∧ s1.barrier0 = s.barrier0 ∧ s1.barrier1 = s.barrier1 ∧
      s1.reverse_barrier0 = s.reverse_barrier0 ∧ s1.reverse_barrier1 = s.reverse_barrier1 ∧
      s1.s2w_switch = s.s2w_switch ∧ s1.s2w_wakeup = s.s2w_wakeup ∧
      ((((s.touch_x_called = true ∨ code = ABS_MT_POSITION_X) ∧
          (s.touch_y_called = true ∨ code = ABS_MT_POSITION_Y)) ∧
          s1.touch_x_called = false ∧ s1.touch_y_called = false ∧
          s2w_input_event s flg code value =
            ((detect_sweep2wake s1 flg s1.touch_x s1.touch_y true).1,
              Effect.detect s1.touch_x s1.touch_y ::
                (detect_sweep2wake s1 flg s1.touch_x s1.touch_y true).2)) ∨
        (¬ ((s.touch_x_called = true ∨ code = ABS_MT_POSITION_X) ∧
            (s.touch_y_called = true ∨ code = ABS_MT_POSITION_Y)) ∧
          (s1.touch_x_called = true ↔ s.touch_x_called = true ∨ code = ABS_MT_POSITION_X) ∧
          (s1.touch_y_called = true ↔ s.touch_y_called = true ∨ code = ABS_MT_POSITION_Y) ∧
          s2w_input_event s flg code value = (s1, []))) := by
  rw [not_or] at hnr
  simp only [s2w_input_event, gt_iff_lt]
  rw [if_neg hz, if_neg hnr.1, if_neg hnr.2]
  clear hz hnr
  by_cases hx : code = ABS_MT_POSITION_X
  · have hy : code ≠ ABS_MT_POSITION_Y := fun h => codes_distinct (hx ▸ h)
    have hy2 : ABS_MT_POSITION_X ≠ ABS_MT_POSITION_Y := codes_distinct
    by_cases hc : s.touch_y_called = true
    · refine ⟨{ s with touch_x := value, touch_x_called := false, touch_y_called := false }, ?_⟩
      simp [hx, hy2, hc]
    · refine ⟨{ s with touch_x := value, touch_x_called := true }, ?_⟩
      simp [hx, hy2, hc]
  · by_cases hy : code = ABS_MT_POSITION_Y
    · have hx2 : ABS_MT_POSITION_Y ≠ ABS_MT_POSITION_X := fun h => codes_distinct h.symm
      by_cases hc : s.touch_x_called = true
      · refine ⟨{ s with touch_y := value, touch_x_called := false, touch_y_called := false }, ?_⟩
        simp [hy, hx2, hc]
      · refine ⟨{ s with touch_y := value, touch_y_called := true }, ?_⟩
        simp [hy, hx2, hc]
    · by_cases hc : s.touch_x_called = true ∧ s.touch_y_called = true
      · refine ⟨{ s with touch_x_called := false, touch_y_called := false }, ?_⟩
        simp [hx, hy, hc]
      · refine ⟨s, ?_⟩
        simp [hx, hy, hc]

theorem input_event_off (s : State) (flg : Bool) (code : Nat) (value : Int)
    (hz : s.s2w_switch = 0 ∧ s.s2w_wakeup = 0) :
    s2w_input_event s flg code value = (s, []) := by
  simp only [s2w_input_event]
  rw [if_pos hz]

/-- A call of `s2w_input_event` whose event is not a reset event requests the
power action at most once, only when `exec_count` is true, and then clears
`exec_count`. -/
theorem input_event_potential (s : State) (flg : Bool) (code : Nat) (value : Int)
    (hnr : ¬ ((code = ABS_MT_SLOT ∧ 0 < value) ∨ (code = ABS_MT_TRACKING_ID ∧ value = -1))) :
    (s.exec_count = false → (s2w_input_event s flg code value).1.exec_count = false ∧
      pwrCount (s2w_input_event s flg code value).2 = 0) ∧
    (pwrCount (s2w_input_event s flg code value).2 = 0 ∨
      (pwrCount (s2w_input_event s flg code value).2 = 1 ∧
        (s2w_input_event s flg code value).1.exec_count = false)) := by
  by_cases hz : s.s2w_switch = 0 ∧ s.s2w_wakeup = 0
  · rw [input_event_off s flg code value hz]
    exact ⟨fun h => ⟨h, rfl⟩, Or.inl rfl⟩
  · obtain ⟨s1, -, -, he, -, -, -, -, -, -, h | h⟩ := input_event_spec s flg code value hz hnr
    · obtain ⟨-, -, -, hr⟩ := h
      rw [hr, ← he]
      simp only [pwrCount_detect_cons]
      exact detect_potential s1 flg s1.touch_x s1.touch_y true
    · obtain ⟨-, -, -, hr⟩ := h
      rw [hr, ← he]
      exact ⟨fun h => ⟨h, rfl⟩, Or.inl rfl⟩

theorem callStep_potential (s : State) (c : Call) (hnr : ¬ IsResetEvent c) :
    (s.exec_count = false → (callStep s c).1.exec_count = false ∧
      pwrCount (callStep s c).2 = 0) ∧
    (pwrCount (callStep s c).2 = 0 ∨
      (pwrCount (callStep s c).2 = 1 ∧ (callStep s c).1.exec_count = false)) :=
  input_event_potential { s with s2w_switch := c.s2w_switch, s2w_wakeup := c.s2w_wakeup }
    c.flg_screen_report c.code c.value hnr

theorem calls_potential (s : State) (l : List Call) (h : ∀ c ∈ l, ¬ IsResetEvent c) :
    ((callEffects s l).map pwrCount).sum ≤ 1 ∧
      (s.exec_count = false → ((callEffects s l).map pwrCount).sum = 0) := by
  induction l generalizing s with
  | nil => exact ⟨by simp [callEffects], fun _ => rfl⟩
  | cons c l ih =>
    have hc := callStep_potential s c (h c (List.mem_cons_self _ _))
    have ih1 := ih (callStep s c).1 (fun d hd => h d (List.mem_cons_of_mem _ hd))
    simp only [callEffects, List.map_cons, List.sum_cons]
    constructor
    · rcases hc.2 with h0 | ⟨h1, h2⟩
      · rw [h0]; simpa using ih1.1
      · rw [h1, ih1.2 h2]
    · intro hs
      rw [(hc.1 hs).2, ih1.2 (hc.1 hs).1]

/-- C3: over any sequence of `s2w_input_event` calls that contains no reset event
(no `SLOT` event with value above zero, no `TRACKING_ID` event with value `-1`),
from any state and with any switch values and screen state at each call, the
power action is requested at most once in total; and not at all when the run
starts with `exec_count` false. -/
theorem at_most_one_trigger_between_resets (s : State) (l : List Call)
    (hnr : ∀ c ∈ l, ¬ IsResetEvent c) :
    ((callEffects s l).map pwrCount).sum ≤ 1 ∧
      (s.exec_count = false → ((callEffects s l).map pwrCount).sum = 0) :=
  calls_potential s l hnr

theorem at_most_one_trigger_between_resets_witness :
    (∀ c ∈ [Call.mk 1 0 true ABS_MT_POSITION_X 200, Call.mk 1 0 true ABS_MT_POSITION_Y 2450],
      ¬ IsResetEvent c) ∧
    (((callEffects { init with barrier0 := true, barrier1 := true }
        [Call.mk 1 0 true ABS_MT_POSITION_X 200,
          Call.mk 1 0 true ABS_MT_POSITION_Y 2450]).map pwrCount).sum ≤ 1 ∧
      (({ init with barrier0 := true, barrier1 := true } : State).exec_count = false →
        ((callEffects { init with barrier0 := true, barrier1 := true }
          [Call.mk 1 0 true ABS_MT_POSITION_X 200,
            Call.mk 1 0 true ABS_MT_POSITION_Y 2450]).map pwrCount).sum = 0)) :=
  ⟨by decide, at_most_one_trigger_between_resets _ _ (by decide)⟩

/-- C4: immediately after `sweep2wake_reset`, from every state, `exec_count` is
true (nothing has fired), the four gate flags are false, the touch flag
`scr_on_touch` is false and the wake lock is not held. -/
theorem reset_clears_gesture_state (s : State) :
    (sweep2wake_reset s).1.exec_count = true ∧
    (sweep2wake_reset s).1.barrier0 = false ∧ (sweep2wake_reset s).1.barrier1 = false ∧
    (sweep2wake_reset s).1.reverse_barrier0 = false ∧
    (sweep2wake_reset s).1.reverse_barrier1 = false ∧
    (sweep2wake_reset s).1.scr_on_touch = false ∧
    (sweep2wake_reset s).1.wakelock_active = false := by
  have h := reset_fields s
  exact ⟨h.1, h.2.1, h.2.2.1, h.2.2.2.1, h.2.2.2.2.1, h.2.2.2.2.2.1, h.2.2.2.2.2.2.1⟩

/-- C5: when a sequence of coordinate updates fed from a reset state under a
fixed active mode requests the power action, then feeding it, calling
`sweep2wake_reset` and feeding it again under the same mode requests the action
exactly twice: once before the reset and once after it (the reset itself
requests nothing). -/
theorem fires_again_after_reset (s0 : State) (flg : Bool) (l : List (Int × Int))
    (hmode : ModeActive (sweep2wake_reset s0).1 flg)
    (hfire : ∃ n ∈ triggers flg (sweep2wake_reset s0).1 l, n ≠ 0) :
    (triggers flg (sweep2wake_reset s0).1 l).sum = 1 ∧
    pwrCount (sweep2wake_reset (feed flg (sweep2wake_reset s0).1 l)).2 = 0 ∧
    (triggers flg (sweep2wake_reset (feed flg (sweep2wake_reset s0).1 l)).1 l).sum = 1 ∧
    (triggers flg (sweep2wake_reset s0).1 l).sum +
      pwrCount (sweep2wake_reset (feed flg (sweep2wake_reset s0).1 l)).2 +
      (triggers flg (sweep2wake_reset (feed flg (sweep2wake_reset s0).1 l)).1 l).sum = 2 := by
  have hm := modeActive_of_reset hmode
  obtain ⟨k, hk⟩ := exists_firstSweepEnd ((triggers_pos_iff s0 flg hm l).mp hfire)
  have h1 := (triggers_of_first s0 flg hm l k hk).1
  have h2 := (triggers_of_first (feed flg (sweep2wake_reset s0).1 l) flg
    (feed_modeActive flg _ l hmode) l k hk).1
  have h3 := (reset_fields (feed flg (sweep2wake_reset s0).1 l)).2.2.2.2.2.2.2.2.2.2.2.2.2
  exact ⟨h1, h3, h2, by rw [h1, h2, h3]⟩

theorem fires_again_after_reset_witness :
    ModeActive (sweep2wake_reset { init with s2w_wakeup := 1 }).1 false ∧
    (∃ n ∈ triggers false (sweep2wake_reset { init with s2w_wakeup := 1 }).1
      [(300, 2500), (900, 2500), (1300, 2500)], n ≠ 0) ∧
    (triggers false (sweep2wake_reset { init with s2w_wakeup := 1 }).1
        [(300, 2500), (900, 2500), (1300, 2500)]).sum +
      pwrCount (sweep2wake_reset (feed false (sweep2wake_reset { init with s2w_wakeup := 1 }).1
        [(300, 2500), (900, 2500), (1300, 2500)])).2 +
      (triggers false (sweep2wake_reset (feed false
        (sweep2wake_reset { init with s2w_wakeup := 1 }).1
        [(300, 2500), (900, 2500), (1300, 2500)])).1
        [(300, 2500), (900, 2500), (1300, 2500)]).sum = 2 :=
  ⟨by decide, ⟨1, by decide, by decide⟩,
    (fires_again_after_reset { init with s2w_wakeup := 1 } false
      [(300, 2500), (900, 2500), (1300, 2500)] (by decide) ⟨1, by decide, by decide⟩).2.2.2⟩

/-! ## Monotonicity and frame properties -/

theorem detect_monotone (s : State) (flg : Bool) (x y : Int) (st : Bool) :
    (s.barrier0 = true → (detect_sweep2wake s flg x y st).1.barrier0 = true) ∧
    (s.barrier1 = true → (detect_sweep2wake s flg x y st).1.barrier1 = true) ∧
    (s.reverse_barrier0 = true →
      (detect_sweep2wake s flg x y st).1.reverse_barrier0 = true) ∧
    (s.reverse_barrier1 = true →
      (detect_sweep2wake s flg x y st).1.reverse_barrier1 = true) ∧
    (s.exec_count = false → (detect_sweep2wake s flg x y st).1.exec_count = false) := by
  obtain ⟨h0, h1, h2, h3, h4, -⟩ := detect_step s flg x y st _ rfl
  exact ⟨fun h => h0.mpr (Or.inl h), fun h => h1.mpr (Or.inl h), fun h => h2.mpr (Or.inl h),
    fun h => h3.mpr (Or.inl h), fun h => h4.mpr (Or.inl h)⟩

theorem callStep_monotone (s : State) (c : Call) (hnr : ¬ IsResetEvent c) :
    (s.barrier0 = true → (callStep s c).1.barrier0 = true) ∧
    (s.barrier1 = true → (callStep s c).1.barrier1 = true) ∧
    (s.reverse_barrier0 = true → (callStep s c).1.reverse_barrier0 = true) ∧
    (s.reverse_barrier1 = true → (callStep s c).1.reverse_barrier1 = true) ∧
    (s.exec_count = false → (callStep s c).1.exec_count = false) := by
  unfold callStep
  by_cases hz : c.s2w_switch = 0 ∧ c.s2w_wakeup = 0
  · rw [input_event_off _ _ _ _ hz]
    exact ⟨id, id, id, id, id⟩
  · obtain ⟨s1, -, -, he, h0, h1, h2, h3, -, -, h | h⟩ :=
      input_event_spec { s with s2w_switch := c.s2w_switch, s2w_wakeup := c.s2w_wakeup }
        c.flg_screen_report c.code c.value hz hnr
    · obtain ⟨-, -, -, hr⟩ := h
      rw [hr]
      simp only at he h0 h1 h2 h3 ⊢
      rw [← he, ← h0, ← h1, ← h2, ← h3]
      exact detect_monotone s1 _ _ _ _
    · obtain ⟨-, -, -, hr⟩ := h
      rw [hr]
      simp only at he h0 h1 h2 h3 ⊢
      rw [← he, ← h0, ← h1, ← h2, ← h3]
      exact ⟨id, id, id, id, id⟩

/-- C6: a call of `detect_sweep2wake`, from any state, with any coordinates,
switches and screen state, never turns one of the four gate flags from true to
false and never turns `exec_count` from false back to true (fired stays fired).
The same holds for a call of `s2w_input_event` unless its event is a reset
event; `sweep2wake_reset` is the function that clears them. -/
theorem gate_flags_monotone (s : State) (flg : Bool) (x y : Int) (st : Bool) (c : Call) :
    ((s.barrier0 = true → (detect_sweep2wake s flg x y st).1.barrier0 = true) ∧
      (s.barrier1 = true → (detect_sweep2wake s flg x y st).1.barrier1 = true) ∧
      (s.reverse_barrier0 = true →
        (detect_sweep2wake s flg x y st).1.reverse_barrier0 = true) ∧
      (s.reverse_barrier1 = true →
        (detect_sweep2wake s flg x y st).1.reverse_barrier1 = true) ∧
      (s.exec_count = false → (detect_sweep2wake s flg x y st).1.exec_count = false)) ∧
    (¬ IsResetEvent c →
      (s.barrier0 = true → (callStep s c).1.barrier0 = true) ∧
      (s.barrier1 = true → (callStep s c).1.barrier1 = true) ∧
      (s.reverse_barrier0 = true → (callStep s c).1.reverse_barrier0 = true) ∧
      (s.reverse_barrier1 = true → (callStep s c).1.reverse_barrier1 = true) ∧
      (s.exec_count = false → (callStep s c).1.exec_count = false)) ∧
    ((sweep2wake_reset s).1.barrier0 = false ∧ (sweep2wake_reset s).1.barrier1 = false ∧
      (sweep2wake_reset s).1.reverse_barrier0 = false ∧
      (sweep2wake_reset s).1.reverse_barrier1 = false ∧
      (sweep2wake_reset s).1.exec_count = true) := by
  have h := reset_fields s
  exact ⟨detect_monotone s flg x y st, callStep_monotone s c,
    h.2.1, h.2.2.1, h.2.2.2.1, h.2.2.2.2.1, h.1⟩

theorem gate_flags_monotone_witness :
    (detect_sweep2wake { init with barrier0 := true, exec_count := false, s2w_switch := 1 }
        true 100 100 true).1.barrier0 = true ∧
    (detect_sweep2wake { init with barrier0 := true, exec_count := false, s2w_switch := 1 }
        true 100 100 true).1.exec_count = false ∧
    (callStep { init with barrier0 := true, exec_count := false }
        (Call.mk 1 0 true ABS_MT_POSITION_X 5)).1.barrier0 = true :=
  ⟨(gate_flags_monotone { init with barrier0 := true, exec_count := false, s2w_switch := 1 }
      true 100 100 true (Call.mk 1 0 true ABS_MT_POSITION_X 5)).1.1 rfl,
    (gate_flags_monotone { init with barrier0 := true, exec_count := false, s2w_switch := 1 }
      true 100 100 true (Call.mk 1 0 true ABS_MT_POSITION_X 5)).1.2.2.2.2 rfl,
    ((gate_flags_monotone { init with barrier0 := true, exec_count := false }
      true 100 100 true (Call.mk 1 0 true ABS_MT_POSITION_X 5)).2.1 (by decide)).1 rfl⟩

theorem gateView_eq {s t : State} (h : gateView s = gateView t) :
    s.barrier0 = t.barrier0 ∧ s.barrier1 = t.barrier1 ∧
    s.reverse_barrier0 = t.reverse_barrier0 ∧ s.reverse_barrier1 = t.reverse_barrier1 ∧
    s.exec_count = t.exec_count ∧ s.s2w_switch = t.s2w_switch ∧
    s.s2w_wakeup = t.s2w_wakeup := by
  simpa [gateView] using h

theorem gateView_ext {s t : State} (h0 : s.barrier0 = t.barrier0) (h1 : s.barrier1 = t.barrier1)
    (h2 : s.reverse_barrier0 = t.reverse_barrier0)
    (h3 : s.reverse_barrier1 = t.reverse_barrier1)
    (h4 : s.exec_count = t.exec_count) (h5 : s.s2w_switch = t.s2w_switch)
    (h6 : s.s2w_wakeup = t.s2w_wakeup) : gateView s = gateView t := by
  simp [gateView, h0, h1, h2, h3, h4, h5, h6]

theorem bool_eq_of_iff {a b : Bool} (h : a = true ↔ b = true) : a = b := by
  cases a <;> cases b <;> simp at h ⊢

theorem bool_eq_of_iff_false {a b : Bool} (h : a = false ↔ b = false) : a = b := by
  cases a <;> cases b <;> simp at h ⊢

/-- What a call does to the gate view, and how often it fires, depends on the
gate view alone. -/
theorem detect_gateView_congr (s t : State) (flg : Bool) (x y : Int) (st : Bool)
    (h : gateView s = gateView t) :
    gateView (detect_sweep2wake s flg x y st).1 = gateView (detect_sweep2wake t flg x y st).1 ∧
    pwrCount (detect_sweep2wake s flg x y st).2 = pwrCount (detect_sweep2wake t flg x y st).2 := by
  obtain ⟨e0, e1, e2, e3, e4, e5, e6⟩ := gateView_eq h
  obtain ⟨a0, a1, a2, a3, a4, a5, a6, a7, -⟩ := detect_step s flg x y st _ rfl
  obtain ⟨b0, b1, b2, b3, b4, b5, b6, b7, -⟩ := detect_step t flg x y st _ rfl
  have hm : ModeActive s flg ↔ ModeActive t flg := by
    unfold ModeActive
    rw [e5, e6]
  rw [e0, hm] at a0
  rw [e0, e1, hm] at a1
  rw [e2, hm] at a2
  rw [e2, e3, hm] at a3
  rw [e0, e1, e2, e3, e4, hm] at a4 a5
  refine ⟨gateView_ext (bool_eq_of_iff (a0.trans b0.symm)) (bool_eq_of_iff (a1.trans b1.symm))
    (bool_eq_of_iff (a2.trans b2.symm)) (bool_eq_of_iff (a3.trans b3.symm))
    (bool_eq_of_iff_false (a4.trans b4.symm)) (by rw [a6, b6, e5]) (by rw [a7, b7, e6]), ?_⟩
  rcases a5 with ⟨ha1, ha2, ha3, a5⟩ | ⟨ha, a5⟩ <;>
    rcases b5 with ⟨hb1, hb2, hb3, b5⟩ | ⟨hb, b5⟩
  · rw [a5, b5]
  · exact absurd ⟨ha1, ha2, ha3⟩ hb
  · exact absurd ⟨hb1, hb2, hb3⟩ ha
  · rw [a5, b5]

/-- An update outside the active band leaves the gate view alone and requests
nothing. -/
theorem detect_out_of_band (s : State) (flg : Bool) (x y : Int) (st : Bool) (hy : y ≤ 2400) :
    (detect_sweep2wake s flg x y st).1.barrier0 = s.barrier0 ∧
    (detect_sweep2wake s flg x y st).1.barrier1 = s.barrier1 ∧
    (detect_sweep2wake s flg x y st).1.reverse_barrier0 = s.reverse_barrier0 ∧
    (detect_sweep2wake s flg x y st).1.reverse_barrier1 = s.reverse_barrier1 ∧
    (detect_sweep2wake s flg x y st).1.exec_count = s.exec_count ∧
    pwrCount (detect_sweep2wake s flg x y st).2 = 0 := by
  obtain ⟨a0, a1, a2, a3, a4, a5, -⟩ := detect_step s flg x y st _ rfl
  have hn : ¬ 2400 < y := by omega
  refine ⟨bool_eq_of_iff (a0.trans ?_), bool_eq_of_iff (a1.trans ?_),
    bool_eq_of_iff (a2.trans ?_), bool_eq_of_iff (a3.trans ?_),
    bool_eq_of_iff_false (a4.trans ?_), ?_⟩
  · exact ⟨fun h => h.elim id (fun h => absurd h.2.2.2 hn), Or.inl⟩
  · exact ⟨fun h => h.elim id (fun h => absurd h.2.2.2.2 hn), Or.inl⟩
  · exact ⟨fun h => h.elim id (fun h => absurd h.2.2.2 hn), Or.inl⟩
  · exact ⟨fun h => h.elim id (fun h => absurd h.2.2.2.2 hn), Or.inl⟩
  · refine ⟨fun h => h.elim id (fun h => ?_), Or.inl⟩
    rcases h.2 with h | h
    · exact absurd h.2.2.2 hn
    · exact absurd h.2.2.2 hn
  · rcases a5 with ⟨-, -, h | h, -⟩ | ⟨-, a5⟩
    · exact absurd h.2.2.2 hn
    · exact absurd h.2.2.2 hn
    · exact a5

theorem padded_sum (flg : Bool) {l l' : List (Int × Int)} (h : Padded l l') :
    ∀ s t : State, gateView s = gateView t →
      (triggers flg t l').sum = (triggers flg s l).sum := by
  induction h with
  | nil => intro s t _; rfl
  | keep p _ ih =>
    intro s t hst
    obtain ⟨hg, hc⟩ := detect_gateView_congr s t flg p.1 p.2 true hst
    simp only [triggers, List.sum_cons]
    rw [hc, ih _ _ hg]
  | pad p hp _ ih =>
    intro s t hst
    obtain ⟨h0, h1, h2, h3, h4, h5⟩ := detect_out_of_band t flg p.1 p.2 true hp
    obtain ⟨-, -, -, -, -, -, h6, h7, -⟩ := detect_step t flg p.1 p.2 true _ rfl
    simp only [triggers, List.sum_cons]
    rw [h5, Nat.zero_add]
    apply ih
    rw [hst]
    exact (gateView_ext h0 h1 h2 h3 h4 h6 h7).symm

theorem out_of_band_never_fires (flg : Bool) (l : List (Int × Int))
    (h : ∀ p ∈ l, p.2 ≤ 2400) : ∀ s : State, ∀ n ∈ triggers flg s l, n = 0 := by
  induction l with
  | nil => intro s n hn; simp [triggers] at hn
  | cons p l ih =>
    intro s n hn
    simp only [triggers, List.mem_cons] at hn
    rcases hn with hn | hn
    · rw [hn]
      exact (detect_out_of_band s flg p.1 p.2 true (h p (List.mem_cons_self _ _))).2.2.2.2.2
    · exact ih (fun q hq => h q (List.mem_cons_of_mem _ hq)) _ n hn

/-- C7: an update with `y ≤ 2400` leaves the four gate flags and `exec_count` as
they were and requests no power action, in every state and mode; so inserting
such updates anywhere into a sequence does not change how often the action is
requested, and a sequence made only of such updates never requests it from a
reset state. -/
theorem out_of_band_updates_are_inert (s : State) (flg : Bool) (x y : Int) (st : Bool)
    (l l' : List (Int × Int)) :
    (y ≤ 2400 →
      (detect_sweep2wake s flg x y st).1.barrier0 = s.barrier0 ∧
      (detect_sweep2wake s flg x y st).1.barrier1 = s.barrier1 ∧
      (detect_sweep2wake s flg x y st).1.reverse_barrier0 = s.reverse_barrier0 ∧
      (detect_sweep2wake s flg x y st).1.reverse_barrier1 = s.reverse_barrier1 ∧
      (detect_sweep2wake s flg x y st).1.exec_count = s.exec_count ∧
      pwrCount (detect_sweep2wake s flg x y st).2 = 0) ∧
    (Padded l l' → (triggers flg s l').sum = (triggers flg s l).sum) ∧
    ((∀ p ∈ l, p.2 ≤ 2400) → ∀ n ∈ triggers flg (sweep2wake_reset s).1 l, n = 0) :=
  ⟨detect_out_of_band s flg x y st, fun h => padded_sum flg h s s rfl,
    fun h => out_of_band_never_fires flg l h _⟩

theorem out_of_band_updates_are_inert_witness :
    pwrCount (detect_sweep2wake
      { init with barrier0 := true, barrier1 := true, s2w_switch := 1 } true 200 2000 true).2 = 0 ∧
    (triggers true (sweep2wake_reset { init with s2w_switch := 1 }).1
        [(1000, 2450), (600, 2450), (200, 2000), (200, 2450)]).sum =
      (triggers true (sweep2wake_reset { init with s2w_switch := 1 }).1
        [(1000, 2450), (600, 2450), (200, 2450)]).sum ∧
    (∀ n ∈ triggers true (sweep2wake_reset { init with s2w_switch := 1 }).1
        [(1000, 2400), (600, 2400), (200, 2400)], n = 0) :=
  ⟨((out_of_band_updates_are_inert
      { init with barrier0 := true, barrier1 := true, s2w_switch := 1 } true 200 2000 true
      [] []).1 (by decide)).2.2.2.2.2,
    (out_of_band_updates_are_inert (sweep2wake_reset { init with s2w_switch := 1 }).1 true 0 0 true
      [(1000, 2450), (600, 2450), (200, 2450)]
      [(1000, 2450), (600, 2450), (200, 2000), (200, 2450)]).2.1
      (Padded.keep _ (Padded.keep _ (Padded.pad _ (by decide) (Padded.keep _ Padded.nil)))),
    (out_of_band_updates_are_inert { init with s2w_switch := 1 } true 0 0 true
      [(1000, 2400), (600, 2400), (200, 2400)] []).2.2 (by decide)⟩

/-! ## Independence of the two directions -/

theorem feed_forward_flags_clear (flg : Bool) (l : List (Int × Int))
    (h : ∀ p ∈ l, ¬ (700 < p.1 ∧ p.1 < 1190 ∧ 2400 < p.2)) :
    ∀ s : State, s.barrier0 = false → s.barrier1 = false →
      (feed flg s l).barrier0 = false ∧ (feed flg s l).barrier1 = false := by
  induction l with
  | nil => intro s h0 h1; exact ⟨h0, h1⟩
  | cons p l ih =>
    intro s h0 h1
    obtain ⟨a0, a1, -⟩ := detect_step s flg p.1 p.2 true _ rfl
    have hp := h p (List.mem_cons_self _ _)
    apply ih (fun q hq => h q (List.mem_cons_of_mem _ hq))
    · cases hb : (detect_sweep2wake s flg p.1 p.2 true).1.barrier0
      · rfl
      · rcases a0.mp hb with h | h
        · rw [h0] at h; exact absurd h (by decide)
        · exact absurd h.2 hp
    · cases hb : (detect_sweep2wake s flg p.1 p.2 true).1.barrier1
      · rfl
      · rcases a1.mp hb with h | h
        · rw [h1] at h; exact absurd h (by decide)
        · rw [h0] at h; exact absurd h.2.1 (by decide)

theorem feed_reverse_flags_clear (flg : Bool) (l : List (Int × Int))
    (h : ∀ p ∈ l, ¬ (250 < p.1 ∧ p.1 < 380 ∧ 2400 < p.2)) :
    ∀ s : State, s.reverse_barrier0 = false → s.reverse_barrier1 = false →
      (feed flg s l).reverse_barrier0 = false ∧ (feed flg s l).reverse_barrier1 = false := by
  induction l with
  | nil => intro s h0 h1; exact ⟨h0, h1⟩
  | cons p l ih =>
    intro s h0 h1
    obtain ⟨-, -, a0, a1, -⟩ := detect_step s flg p.1 p.2 true _ rfl
    have hp := h p (List.mem_cons_self _ _)
    apply ih (fun q hq => h q (List.mem_cons_of_mem _ hq))
    · cases hb : (detect_sweep2wake s flg p.1 p.2 true).1.reverse_barrier0
      · rfl
      · rcases a0.mp hb with h | h
        · rw [h0] at h; exact absurd h (by decide)
        · exact absurd h.2 hp
    · cases hb : (detect_sweep2wake s flg p.1 p.2 true).1.reverse_barrier1
      · rfl
      · rcases a1.mp hb with h | h
        · rw [h1] at h; exact absurd h (by decide)
        · rw [h0] at h; exact absurd h.2.1 (by decide)

/-- C8: the code breaks the independence of the two directions.  The single
update `(800, 2450)` satisfies the second reverse gate condition
(`380 < 800 < 1040`, in the band), yet fed from a reset state with
sweep-to-sleep active it sets the first forward flag `barrier[0]`, because it
also lies in the first forward gate (`700 < 800 < 1190`).  The two gates
overlap because B2 is 700, left of B4, where the layout comment of the source
(`B4-B2-B5`) has it between B4 and B5. -/
theorem reverse_update_sets_forward_flag :
    ReverseGateUpdate (800, 2450) ∧
    (feed true (sweep2wake_reset { init with s2w_switch := 1 }).1 [(800, 2450)]).barrier0
      = true := by
  decide

/-- What the code as it stands does guarantee about the two directions: in a
run from a reset state, if every update satisfies one of the reverse gate
conditions and none lies in the first forward gate (`700 < x < 1190`), neither
forward flag is ever set; and if every update satisfies one of the forward gate
conditions, neither reverse flag is ever set.  "Ever" is: after every initial
segment of the run. -/
theorem directions_independent (s0 : State) (flg : Bool) (l : List (Int × Int)) (n : Nat) :
    ((∀ p ∈ l, ReverseGateUpdate p ∧ ¬ (700 < p.1 ∧ p.1 < 1190)) →
      (feed flg (sweep2wake_reset s0).1 (l.take n)).barrier0 = false ∧
      (feed flg (sweep2wake_reset s0).1 (l.take n)).barrier1 = false) ∧
    ((∀ p ∈ l, ForwardGateUpdate p) →
      (feed flg (sweep2wake_reset s0).1 (l.take n)).reverse_barrier0 = false ∧
      (feed flg (sweep2wake_reset s0).1 (l.take n)).reverse_barrier1 = false) := by
  have hr := reset_fields s0
  constructor
  · intro h
    apply feed_forward_flags_clear flg _ _ _ hr.2.1 hr.2.2.1
    intro p hp hc
    exact (h p (List.mem_of_mem_take hp)).2 ⟨hc.1, hc.2.1⟩
  · intro h
    apply feed_reverse_flags_clear flg _ _ _ hr.2.2.2.1 hr.2.2.2.2.1
    intro p hp hc
    have := h p (List.mem_of_mem_take hp)
    unfold ForwardGateUpdate at this
    omega

theorem directions_independent_witness :
    ((feed true (sweep2wake_reset { init with s2w_switch := 1 }).1
        (List.take 3 [(300, 2450), (500, 2450), (1300, 2450)])).barrier0 = false ∧
      (feed true (sweep2wake_reset { init with s2w_switch := 1 }).1
        (List.take 3 [(300, 2450), (500, 2450), (1300, 2450)])).barrier1 = false) ∧
    ((feed true (sweep2wake_reset { init with s2w_switch := 1 }).1
        (List.take 3 [(1000, 2450), (600, 2450), (200, 2450)])).reverse_barrier0 = false ∧
      (feed true (sweep2wake_reset { init with s2w_switch := 1 }).1
        (List.take 3 [(1000, 2450), (600, 2450), (200, 2450)])).reverse_barrier1 = false) :=
  ⟨(directions_independent { init with s2w_switch := 1 } true
      [(300, 2450), (500, 2450), (1300, 2450)] 3).1 (by decide),
    (directions_independent { init with s2w_switch := 1 } true
      [(1000, 2450), (600, 2450), (200, 2450)] 3).2 (by decide)⟩

/-! ## Both switches off -/

theorem detect_off (s : State) (flg : Bool) (x y : Int) (st : Bool)
    (hz : s.s2w_switch = 0 ∧ s.s2w_wakeup = 0) : detect_sweep2wake s flg x y st = (s, []) := by
  rw [detect_eq, if_neg]
  rintro ⟨-, h | h⟩
  · rw [hz.1] at h; exact absurd h.2 (by decide)
  · rw [hz.2] at h; exact absurd h.2 (by decide)

theorem callStep_off (s : State) (c : Call) (hs : s.s2w_switch = 0 ∧ s.s2w_wakeup = 0)
    (hc : c.s2w_switch = 0 ∧ c.s2w_wakeup = 0) : callStep s c = (s, []) := by
  unfold callStep
  rw [input_event_off _ _ _ _ hc, hc.1, hc.2]
  have e : ({ s with s2w_switch := 0, s2w_wakeup := 0 } : State) = s := by
    cases s
    simp only [State.mk.injEq, true_and, and_true] at hs ⊢
    exact ⟨hs.1.symm, hs.2.symm⟩
  rw [e]

theorem runCalls_off (s : State) (l : List Call) (hs : s.s2w_switch = 0 ∧ s.s2w_wakeup = 0)
    (hl : ∀ c ∈ l, c.s2w_switch = 0 ∧ c.s2w_wakeup = 0) :
    runCalls s l = s ∧ ∀ e ∈ callEffects s l, e = [] := by
  induction l with
  | nil => exact ⟨rfl, fun e he => by simp [callEffects] at he⟩
  | cons c l ih =>
    have hc := callStep_off s c hs (hl c (List.mem_cons_self _ _))
    have ih1 := ih (fun d hd => hl d (List.mem_cons_of_mem _ hd))
    simp only [runCalls, callEffects, hc, List.mem_cons]
    refine ⟨ih1.1, ?_⟩
    rintro e (he | he)
    · exact he
    · exact ih1.2 e he

theorem feed_off (flg : Bool) (s : State) (l : List (Int × Int))
    (hs : s.s2w_switch = 0 ∧ s.s2w_wakeup = 0) :
    feed flg s l = s ∧ ∀ n ∈ triggers flg s l, n = 0 := by
  induction l with
  | nil => exact ⟨rfl, fun n hn => by simp [triggers] at hn⟩
  | cons p l ih =>
    simp only [feed, triggers, detect_off s flg p.1 p.2 true hs, List.mem_cons]
    refine ⟨ih.1, ?_⟩
    rintro n (hn | hn)
    · rw [hn]; rfl
    · exact ih.2 n hn

/-- C9: with `s2w_switch == 0` and `s2w_wakeup == 0`, `s2w_input_event` and
`detect_sweep2wake` return the state they were given, whatever the event, the
coordinates and the screen state, and have no effect at all: no power action,
no wake lock.  So every run of events, and every run of coordinate updates,
made while both switches stay zero ends in the state it started in and
requests nothing. -/
theorem switches_off_is_noop (s : State) (hz : s.s2w_switch = 0 ∧ s.s2w_wakeup = 0)
    (flg : Bool) (code : Nat) (value x y : Int) (st : Bool)
    (calls : List Call) (updates : List (Int × Int)) :
    s2w_input_event s flg code value = (s, []) ∧
    detect_sweep2wake s flg x y st = (s, []) ∧
    ((∀ c ∈ calls, c.s2w_switch = 0 ∧ c.s2w_wakeup = 0) →
      runCalls s calls = s ∧ ∀ e ∈ callEffects s calls, e = []) ∧
    (feed flg s updates = s ∧ ∀ n ∈ triggers flg s updates, n = 0) :=
  ⟨input_event_off s flg code value hz, detect_off s flg x y st hz,
    runCalls_off s calls hz, feed_off flg s updates hz⟩

theorem switches_off_is_noop_witness :
    (init.s2w_switch = 0 ∧ init.s2w_wakeup = 0) ∧
    s2w_input_event init true ABS_MT_POSITION_X 200 = (init, []) ∧
    detect_sweep2wake init true 200 2450 true = (init, []) :=
  ⟨by decide,
    (switches_off_is_noop init (by decide) true ABS_MT_POSITION_X 200 200 2450 true [] []).1,
    (switches_off_is_noop init (by decide) true ABS_MT_POSITION_X 200 200 2450 true [] []).2.1⟩

/-! ## The event demultiplexer -/

theorem right_left_detectCalls (s : State) (out : List Effect) (x y : Int) :
    detectCalls (sleep_right_left s out x y).2 = detectCalls out := by
  simp only [sleep_right_left]
  split_ifs <;> simp [detectCalls, List.filterMap_append]

theorem left_right_detectCalls (s : State) (out : List Effect) (x y : Int) :
    detectCalls (sleep_left_right s out x y).2 = detectCalls out := by
  simp only [sleep_left_right]
  split_ifs <;> simp [detectCalls, List.filterMap_append]

theorem detect_detectCalls (s : State) (flg : Bool) (x y : Int) (st : Bool) :
    detectCalls (detect_sweep2wake s flg x y st).2 = [] := by
  rw [detect_eq]
  split_ifs
  · rw [left_right_detectCalls, right_left_detectCalls]; rfl
  · rfl

theorem reset_detectCalls (s : State) : detectCalls (sweep2wake_reset s).2 = [] := by
  simp only [sweep2wake_reset]
  split_ifs <;> rfl

theorem codes_reset_distinct :
    ABS_MT_SLOT ≠ ABS_MT_POSITION_X ∧ ABS_MT_SLOT ≠ ABS_MT_POSITION_Y ∧
    ABS_MT_TRACKING_ID ≠ ABS_MT_POSITION_X ∧ ABS_MT_TRACKING_ID ≠ ABS_MT_POSITION_Y := by
  decide

/-- One step of the demultiplexer, for a call made with a switch on in a state
where the two marks are not both set. -/
theorem demux_step (s : State) (c : Call) (hon : ¬ (c.s2w_switch = 0 ∧ c.s2w_wakeup = 0))
    (hinv : ¬ (s.touch_x_called = true ∧ s.touch_y_called = true)) :
    (callStep s c).1.touch_x = (if c.code = ABS_MT_POSITION_X then c.value else s.touch_x) ∧
    (callStep s c).1.touch_y = (if c.code = ABS_MT_POSITION_Y then c.value else s.touch_y) ∧
    ((((c.code = ABS_MT_POSITION_X ∧ s.touch_y_called = true) ∨
          (c.code = ABS_MT_POSITION_Y ∧ s.touch_x_called = true)) ∧
        detectCalls (callStep s c).2 =
          [((if c.code = ABS_MT_POSITION_X then c.value else s.touch_x),
            (if c.code = ABS_MT_POSITION_Y then c.value else s.touch_y))] ∧
        (callStep s c).1.touch_x_called = false ∧ (callStep s c).1.touch_y_called = false) ∨
      (¬ ((c.code = ABS_MT_POSITION_X ∧ s.touch_y_called = true) ∨
          (c.code = ABS_MT_POSITION_Y ∧ s.touch_x_called = true)) ∧
        detectCalls (callStep s c).2 = [] ∧
        ((callStep s c).1.touch_x_called = true ↔
          s.touch_x_called = true ∨ c.code = ABS_MT_POSITION_X) ∧
        ((callStep s c).1.touch_y_called = true ↔
          s.touch_y_called = true ∨ c.code = ABS_MT_POSITION_Y))) := by
  unfold callStep
  by_cases hr : (c.code = ABS_MT_SLOT ∧ 0 < c.value) ∨
      (c.code = ABS_MT_TRACKING_ID ∧ c.value = -1)
  · have hx : c.code ≠ ABS_MT_POSITION_X := by
      rcases hr with h | h
      · rw [h.1]; exact codes_reset_distinct.1
      · rw [h.1]; exact codes_reset_distinct.2.2.1
    have hy : c.code ≠ ABS_MT_POSITION_Y := by
      rcases hr with h | h
      · rw [h.1]; exact codes_reset_distinct.2.1
      · rw [h.1]; exact codes_reset_distinct.2.2.2
    have he : s2w_input_event { s with s2w_switch := c.s2w_switch, s2w_wakeup := c.s2w_wakeup }
        c.flg_screen_report c.code c.value =
        sweep2wake_reset { s with s2w_switch := c.s2w_switch, s2w_wakeup := c.s2w_wakeup } := by
      simp only [s2w_input_event, gt_iff_lt]
      rw [if_neg hon]
      rcases hr with h | h
      · rw [if_pos h]
      · by_cases h2 : c.code = ABS_MT_SLOT ∧ 0 < c.value
        · rw [if_pos h2]
        · rw [if_neg h2, if_pos h]
    have hf := reset_fields { s with s2w_switch := c.s2w_switch, s2w_wakeup := c.s2w_wakeup }
    rw [he, if_neg hx, if_neg hy]
    refine ⟨hf.2.2.2.2.2.2.2.2.2.1, hf.2.2.2.2.2.2.2.2.2.2.1, Or.inr ⟨?_, reset_detectCalls _, ?_, ?_⟩⟩
    · rintro (h | h)
      · exact hx h.1
      · exact hy h.1
    · rw [hf.2.2.2.2.2.2.2.2.2.2.2.1]
      exact ⟨Or.inl, fun h => h.elim id (fun h => absurd h hx)⟩
    · rw [hf.2.2.2.2.2.2.2.2.2.2.2.2.1]
      exact ⟨Or.inl, fun h => h.elim id (fun h => absurd h hy)⟩
  · obtain ⟨s1, hx1, hy1, -, -, -, -, -, -, -, h | h⟩ :=
      input_event_spec { s with s2w_switch := c.s2w_switch, s2w_wakeup := c.s2w_wakeup }
        c.flg_screen_report c.code c.value hon hr
    · obtain ⟨hc, hxc, hyc, he⟩ := h
      simp only at hx1 hy1 hc
      obtain ⟨-, -, -, -, -, -, -, -, d1, d2, d3, d4⟩ :=
        detect_step s1 c.flg_screen_report s1.touch_x s1.touch_y true _ rfl
      rw [he]
      simp only [detectCalls, List.filterMap_cons]
      rw [show List.filterMap _ (detect_sweep2wake s1 c.flg_screen_report s1.touch_x
        s1.touch_y true).2 = detectCalls (detect_sweep2wake s1 c.flg_screen_report s1.touch_x
        s1.touch_y true).2 from rfl, detect_detectCalls, d1, d2, d3, d4, hx1, hy1, hxc, hyc]
      refine ⟨rfl, rfl, Or.inl ⟨?_, rfl, rfl, rfl⟩⟩
      rcases hc with ⟨hcx | hcx, hcy | hcy⟩
      · exact absurd ⟨hcx, hcy⟩ hinv
      · exact Or.inr ⟨hcy, hcx⟩
      · exact Or.inl ⟨hcx, hcy⟩
      · exact absurd (hcx.symm.trans hcy) codes_distinct
    · obtain ⟨hc, hxc, hyc, he⟩ := h
      simp only at hx1 hy1 hc hxc hyc
      rw [he]
      refine ⟨hx1, hy1, Or.inr ⟨?_, rfl, hxc, hyc⟩⟩
      rintro (h | h)
      · exact hc ⟨Or.inr h.1, Or.inl h.2⟩
      · exact hc ⟨Or.inl h.2, Or.inr h.1⟩

theorem runCalls_snoc (s : State) (l : List Call) (c : Call) :
    runCalls s (l ++ [c]) = (callStep (runCalls s l) c).1 := by
  induction l generalizing s with
  | nil => rfl
  | cons d l ih => exact ih _

theorem lastValue_snoc (code : Nat) (l : List Call) (c : Call) :
    lastValue code (l ++ [c]) = if c.code = code then some c.value else lastValue code l := by
  unfold lastValue
  rw [List.reverse_append, List.reverse_singleton, List.singleton_append, List.find?_cons]
  by_cases h : c.code = code
  · simp [h]
  · simp [h]

theorem getElem?_snoc_lt (l : List Call) (c : Call) (m : Nat) (h : m < l.length) :
    (l ++ [c])[m]? = l[m]? := List.getElem?_append_left h

theorem getElem?_snoc_len (l : List Call) (c : Call) : (l ++ [c])[l.length]? = some c := by
  simp

theorem getElem?_lt {l : List Call} {m : Nat} {c : Call} (h : l[m]? = some c) :
    m < l.length := by
  by_contra hc
  rw [List.getElem?_eq_none (by omega)] at h
  exact Option.noConfusion h

theorem detectCalledAt_lt {l : List Call} {m : Nat} (h : DetectCalledAt l m) :
    m < l.length := by
  obtain ⟨c, hc, -⟩ := h
  exact getElem?_lt hc

theorem detectCalledAt_snoc (l : List Call) (c : Call) (m : Nat) :
    DetectCalledAt (l ++ [c]) m ↔
      DetectCalledAt l m ∨
        (m = l.length ∧ detectCalls (callStep (runCalls init l) c).2 ≠ []) := by
  unfold DetectCalledAt
  rcases Nat.lt_trichotomy m l.length with h | h | h
  · rw [getElem?_snoc_lt l c m h, List.take_append_of_le_length (Nat.le_of_lt h)]
    constructor
    · exact Or.inl
    · rintro (h1 | ⟨h1, -⟩)
      · exact h1
      · omega
  · subst h
    rw [getElem?_snoc_len, List.take_left' rfl]
    constructor
    · rintro ⟨d, hd, h1⟩
      cases hd
      exact Or.inr ⟨rfl, h1⟩
    · rintro (⟨d, hd, -⟩ | ⟨-, h1⟩)
      · exact absurd (getElem?_lt hd) (by omega)
      · exact ⟨c, rfl, h1⟩
  · constructor
    · rintro ⟨d, hd, -⟩
      have := getElem?_lt hd
      simp only [List.length_append, List.length_singleton] at this
      omega
    · rintro (⟨d, hd, -⟩ | ⟨h1, -⟩)
      · exact absurd (getElem?_lt hd) (by omega)
      · omega

theorem eventAt_snoc (l : List Call) (c : Call) (i : Nat) (code : Nat) :
    EventAt (l ++ [c]) i code ↔ EventAt l i code ∨ (i = l.length ∧ c.code = code) := by
  unfold EventAt
  rcases Nat.lt_trichotomy i l.length with h | h | h
  · rw [getElem?_snoc_lt l c i h]
    constructor
    · exact Or.inl
    · rintro (h1 | ⟨h1, -⟩)
      · exact h1
      · omega
  · subst h
    rw [getElem?_snoc_len]
    constructor
    · rintro ⟨d, hd, h1⟩
      cases hd
      exact Or.inr ⟨rfl, h1⟩
    · rintro (⟨d, hd, -⟩ | ⟨-, h1⟩)
      · exact absurd (getElem?_lt hd) (by omega)
      · exact ⟨c, rfl, h1⟩
  · constructor
    · rintro ⟨d, hd, -⟩
      have := getElem?_lt hd
      simp only [List.length_append, List.length_singleton] at this
      omega
    · rintro (⟨d, hd, -⟩ | ⟨h1, -⟩)
      · exact absurd (getElem?_lt hd) (by omega)
      · omega

theorem lastValue_of_eventAt (code : Nat) (l : List Call) :
    (∃ i, EventAt l i code) → ∃ v, lastValue code l = some v := by
  induction l using List.reverseRecOn with
  | nil =>
    rintro ⟨i, c, hc, -⟩
    simp at hc
  | append_singleton l c ih =>
    rintro ⟨i, hi⟩
    rw [lastValue_snoc]
    by_cases h : c.code = code
    · exact ⟨c.value, by rw [if_pos h]⟩
    · rw [if_neg h]
      rcases (eventAt_snoc l c i code).mp hi with h1 | ⟨-, h1⟩
      · exact ih ⟨i, h1⟩
      · exact absurd h1 h

/-- What the pending coordinates and the two marks are after a run of calls from
the initial state, every call made with a switch on. -/
theorem demux_inv (l : List Call) (hon : ∀ c ∈ l, ¬ (c.s2w_switch = 0 ∧ c.s2w_wakeup = 0)) :
    (runCalls init l).touch_x = (lastValue ABS_MT_POSITION_X l).getD 0 ∧
    (runCalls init l).touch_y = (lastValue ABS_MT_POSITION_Y l).getD 0 ∧
    ¬ ((runCalls init l).touch_x_called = true ∧ (runCalls init l).touch_y_called = true) ∧
    ((runCalls init l).touch_x_called = true →
      ∃ i, EventAt l i ABS_MT_POSITION_X ∧ ∀ m, i ≤ m → ¬ DetectCalledAt l m) ∧
    ((runCalls init l).touch_y_called = true →
      ∃ j, EventAt l j ABS_MT_POSITION_Y ∧ ∀ m, j ≤ m → ¬ DetectCalledAt l m) := by
  induction l using List.reverseRecOn with
  | nil =>
    refine ⟨rfl, rfl, ?_, ?_, ?_⟩
    · rintro ⟨h, -⟩; exact absurd h (by decide)
    · intro h; exact absurd h (by decide)
    · intro h; exact absurd h (by decide)
  | append_singleton l c ih =>
    obtain ⟨i1, i2, i3, i4, i5⟩ := ih (fun d hd => hon d (List.mem_append_left _ hd))
    have hc := hon c (List.mem_append_right _ (List.mem_singleton_self c))
    obtain ⟨d1, d2, d3⟩ := demux_step (runCalls init l) c hc i3
    rw [runCalls_snoc, lastValue_snoc, lastValue_snoc]
    refine ⟨?_, ?_, ?_, ?_, ?_⟩
    · rw [d1]
      by_cases h : c.code = ABS_MT_POSITION_X
      · rw [if_pos h, if_pos h]; rfl
      · rw [if_neg h, if_neg h]; exact i1
    · rw [d2]
      by_cases h : c.code = ABS_MT_POSITION_Y
      · rw [if_pos h, if_pos h]; rfl
      · rw [if_neg h, if_neg h]; exact i2
    · rcases d3 with ⟨-, -, hx, -⟩ | ⟨hn, -, hx, hy⟩
      · rintro ⟨h, -⟩
        rw [hx] at h
        exact absurd h (by decide)
      · rintro ⟨h1, h2⟩
        rcases hx.mp h1 with h1 | h1 <;> rcases hy.mp h2 with h2 | h2
        · exact i3 ⟨h1, h2⟩
        · exact hn (Or.inr ⟨h2, h1⟩)
        · exact hn (Or.inl ⟨h1, h2⟩)
        · exact codes_distinct (h1.symm.trans h2)
    · intro h
      rcases d3 with ⟨-, -, hx, -⟩ | ⟨-, hd, hx, -⟩
      · rw [hx] at h
        exact absurd h (by decide)
      · have hnew : ∀ m, ¬ (m = l.length ∧
            detectCalls (callStep (runCalls init l) c).2 ≠ []) := fun m hm => hm.2 hd
        rcases hx.mp h with h | h
        · obtain ⟨i, hi, hm⟩ := i4 h
          refine ⟨i, (eventAt_snoc l c i _).mpr (Or.inl hi), fun m him hcall => ?_⟩
          rcases (detectCalledAt_snoc l c m).mp hcall with h1 | h1
          · exact hm m him h1
          · exact hnew m h1
        · refine ⟨l.length, (eventAt_snoc l c _ _).mpr (Or.inr ⟨rfl, h⟩), fun m him hcall => ?_⟩
          rcases (detectCalledAt_snoc l c m).mp hcall with h1 | h1
          · exact absurd (detectCalledAt_lt h1) (by omega)
          · exact hnew m h1
    · intro h
      rcases d3 with ⟨-, -, -, hy⟩ | ⟨-, hd, -, hy⟩
      · rw [hy] at h
        exact absurd h (by decide)
      · have hnew : ∀ m, ¬ (m = l.length ∧
            detectCalls (callStep (runCalls init l) c).2 ≠ []) := fun m hm => hm.2 hd
        rcases hy.mp h with h | h
        · obtain ⟨i, hi, hm⟩ := i5 h
          refine ⟨i, (eventAt_snoc l c i _).mpr (Or.inl hi), fun m him hcall => ?_⟩
          rcases (detectCalledAt_snoc l c m).mp hcall with h1 | h1
          · exact hm m him h1
          · exact hnew m h1
        · refine ⟨l.length, (eventAt_snoc l c _ _).mpr (Or.inr ⟨rfl, h⟩), fun m him hcall => ?_⟩
          rcases (detectCalledAt_snoc l c m).mp hcall with h1 | h1
          · exact absurd (detectCalledAt_lt h1) (by omega)
          · exact hnew m h1

theorem eventAt_take {l : List Call} {n i code : Nat} (h : EventAt (l.take n) i code) :
    i < n ∧ EventAt l i code := by
  obtain ⟨c, hc, hcode⟩ := h
  have hlt : i < n := by
    by_contra hn
    rw [List.getElem?_take_eq_none (by omega)] at hc
    exact Option.noConfusion hc
  rw [List.getElem?_take_of_lt hlt] at hc
  exact ⟨hlt, c, hc, hcode⟩

theorem detectCalledAt_take (l : List Call) (n m : Nat) (h : m < n) :
    DetectCalledAt (l.take n) m ↔ DetectCalledAt l m := by
  unfold DetectCalledAt
  rw [List.getElem?_take_of_lt h, List.take_take, Nat.min_eq_left (Nat.le_of_lt h)]

theorem take_succ_of_getElem? {l : List Call} {m : Nat} {c : Call} (h : l[m]? = some c) :
    l.take (m + 1) = l.take m ++ [c] := by
  rw [List.take_succ, h]
  rfl

theorem mem_of_getElem? {l : List Call} {m : Nat} {c : Call} (h : l[m]? = some c) : c ∈ l := by
  have hlt := getElem?_lt h
  rw [List.getElem?_eq_getElem hlt] at h
  cases h
  exact List.getElem_mem _

/-- The demultiplexer in terms of the two seen marks.  In a run of
`s2w_input_event` calls from the initial state, every call made with a switch
on: (1) a call reaches `detect_sweep2wake` exactly when its event is an X event
arriving while Y is marked seen, or a Y event arriving while X is marked seen;
it then calls it once, with the value of the most recent X event and the value
of the most recent Y event, and leaves both marks cleared; (2) between calls
the two marks are never both set; (3) between two calls of `detect_sweep2wake`,
after the first and up to the second, there is at least one new X event and one
new Y event. -/
theorem demux_pairs_core (l : List Call)
    (hon : ∀ c ∈ l, ¬ (c.s2w_switch = 0 ∧ c.s2w_wakeup = 0)) :
    (∀ m c, l[m]? = some c →
      (detectCalls (callStep (runCalls init (l.take m)) c).2 ≠ [] ↔
        (c.code = ABS_MT_POSITION_X ∧ (runCalls init (l.take m)).touch_y_called = true) ∨
        (c.code = ABS_MT_POSITION_Y ∧ (runCalls init (l.take m)).touch_x_called = true)) ∧
      (detectCalls (callStep (runCalls init (l.take m)) c).2 ≠ [] →
        ∃ vx vy, lastValue ABS_MT_POSITION_X (l.take (m + 1)) = some vx ∧
          lastValue ABS_MT_POSITION_Y (l.take (m + 1)) = some vy ∧
          detectCalls (callStep (runCalls init (l.take m)) c).2 = [(vx, vy)] ∧
          (runCalls init (l.take (m + 1))).touch_x_called = false ∧
          (runCalls init (l.take (m + 1))).touch_y_called = false)) ∧
    (∀ n, ¬ ((runCalls init (l.take n)).touch_x_called = true ∧
      (runCalls init (l.take n)).touch_y_called = true)) ∧
    (∀ m1 m2, m1 < m2 → DetectCalledAt l m1 → DetectCalledAt l m2 →
      ∃ i j, m1 < i ∧ i ≤ m2 ∧ m1 < j ∧ j ≤ m2 ∧
        EventAt l i ABS_MT_POSITION_X ∧ EventAt l j ABS_MT_POSITION_Y) := by
  have hpre : ∀ n, ∀ c ∈ l.take n, ¬ (c.s2w_switch = 0 ∧ c.s2w_wakeup = 0) :=
    fun n c hc => hon c (List.mem_of_mem_take hc)
  have step : ∀ m c, l[m]? = some c →
      (detectCalls (callStep (runCalls init (l.take m)) c).2 ≠ [] ↔
        (c.code = ABS_MT_POSITION_X ∧ (runCalls init (l.take m)).touch_y_called = true) ∨
        (c.code = ABS_MT_POSITION_Y ∧ (runCalls init (l.take m)).touch_x_called = true)) := by
    intro m c hc
    obtain ⟨-, -, i3, -, -⟩ := demux_inv (l.take m) (hpre m)
    obtain ⟨-, -, d3⟩ := demux_step (runCalls init (l.take m)) c (hon c (mem_of_getElem? hc)) i3
    rcases d3 with ⟨hC, hd, -, -⟩ | ⟨hC, hd, -, -⟩
    · exact ⟨fun _ => hC, fun _ => by rw [hd]; exact List.cons_ne_nil _ _⟩
    · exact ⟨fun h => absurd hd h, fun h => absurd h hC⟩
  refine ⟨fun m c hc => ⟨step m c hc, fun hne => ?_⟩, fun n => (demux_inv (l.take n) (hpre n)).2.2.1,
    ?_⟩
  · obtain ⟨i1, i2, i3, i4, i5⟩ := demux_inv (l.take m) (hpre m)
    obtain ⟨-, -, d3⟩ := demux_step (runCalls init (l.take m)) c (hon c (mem_of_getElem? hc)) i3
    rcases d3 with ⟨hC, hd, hx, hy⟩ | ⟨-, hd, -, -⟩
    · rw [take_succ_of_getElem? hc, lastValue_snoc, lastValue_snoc, runCalls_snoc]
      refine ⟨_, _, ?_, ?_, hd, hx, hy⟩
      · by_cases h : c.code = ABS_MT_POSITION_X
        · rw [if_pos h, if_pos h]
        · rw [if_neg h, if_neg h]
          rcases hC with hC | hC
          · exact absurd hC.1 h
          · obtain ⟨i, hi, -⟩ := i4 hC.2
            obtain ⟨v, hv⟩ := lastValue_of_eventAt _ _ ⟨i, hi⟩
            rw [i1, hv]
            rfl
      · by_cases h : c.code = ABS_MT_POSITION_Y
        · rw [if_pos h, if_pos h]
        · rw [if_neg h, if_neg h]
          rcases hC with hC | hC
          · obtain ⟨i, hi, -⟩ := i5 hC.2
            obtain ⟨v, hv⟩ := lastValue_of_eventAt _ _ ⟨i, hi⟩
            rw [i2, hv]
            rfl
          · exact absurd hC.1 h
    · exact absurd hd hne
  · intro m1 m2 h12 hcall1 hcall2
    obtain ⟨c, hc, hne⟩ := hcall2
    obtain ⟨-, -, -, i4, i5⟩ := demux_inv (l.take m2) (hpre m2)
    have hcall1' : DetectCalledAt (l.take m2) m1 := (detectCalledAt_take l m2 m1 h12).mpr hcall1
    rcases (step m2 c hc).mp hne with hC | hC
    · obtain ⟨j, hj, hjm⟩ := i5 hC.2
      obtain ⟨hj2, hjl⟩ := eventAt_take hj
      have hj1 : m1 < j := by
        by_contra hn
        exact hjm m1 (by omega) hcall1'
      exact ⟨m2, j, h12, Nat.le_refl _, hj1, Nat.le_of_lt hj2, ⟨c, hc, hC.1⟩, hjl⟩
    · obtain ⟨i, hi, him⟩ := i4 hC.2
      obtain ⟨hi2, hil⟩ := eventAt_take hi
      have hi1 : m1 < i := by
        by_contra hn
        exact him m1 (by omega) hcall1'
      exact ⟨i, m2, hi1, Nat.le_of_lt hi2, h12, Nat.le_refl _, hil, ⟨c, hc, hC.1⟩⟩

/-! ## Invariants of the reachable states -/

theorem input_event_reset (s : State) (flg : Bool) (code : Nat) (value : Int)
    (hon : ¬ (s.s2w_switch = 0 ∧ s.s2w_wakeup = 0))
    (hr : (code = ABS_MT_SLOT ∧ 0 < value) ∨ (code = ABS_MT_TRACKING_ID ∧ value = -1)) :
    s2w_input_event s flg code value = sweep2wake_reset s := by
  simp only [s2w_input_event, gt_iff_lt]
  rw [if_neg hon]
  rcases hr with h | h
  · rw [if_pos h]
  · by_cases h2 : code = ABS_MT_SLOT ∧ 0 < value
    · rw [if_pos h2]
    · rw [if_neg h2, if_pos h]

theorem detect_keeps_inv (s : State) (flg : Bool) (x y : Int) (st : Bool)
    (h : StateInv s) : StateInv (detect_sweep2wake s flg x y st).1 := by
  obtain ⟨a0, a1, a2, a3, a4, -, -, -, -, -, a9, a10⟩ := detect_step s flg x y st _ rfl
  obtain ⟨h0, h1, h2, h3⟩ := h
  refine ⟨?_, ?_, ?_, ?_⟩
  · rw [a9, a10]; exact h0
  · intro hb
    rcases a1.mp hb with hb | hb
    · exact a0.mpr (Or.inl (h1 hb))
    · exact a0.mpr (Or.inl hb.2.1)
  · intro hb
    rcases a3.mp hb with hb | hb
    · exact a2.mpr (Or.inl (h2 hb))
    · exact a2.mpr (Or.inl hb.2.1)
  · intro he
    rcases a4.mp he with he | ⟨-, he | he⟩
    · rcases h3 he with hf | hf
      · exact Or.inl ⟨a0.mpr (Or.inl hf.1), a1.mpr (Or.inl hf.2)⟩
      · exact Or.inr ⟨a2.mpr (Or.inl hf.1), a3.mpr (Or.inl hf.2)⟩
    · exact Or.inl ⟨a0.mpr (Or.inl he.1), a1.mpr (Or.inl he.2.1)⟩
    · exact Or.inr ⟨a2.mpr (Or.inl he.1), a3.mpr (Or.inl he.2.1)⟩

theorem reset_keeps_inv (s : State) (h : StateInv s) : StateInv (sweep2wake_reset s).1 := by
  have hf := reset_fields s
  obtain ⟨h0, -⟩ := h
  refine ⟨?_, ?_, ?_, ?_⟩
  · rw [hf.2.2.2.2.2.2.2.2.2.2.2.1, hf.2.2.2.2.2.2.2.2.2.2.2.2.1]; exact h0
  · intro hb; rw [hf.2.2.1] at hb; exact absurd hb (by decide)
  · intro hb; rw [hf.2.2.2.2.1] at hb; exact absurd hb (by decide)
  · intro hb; rw [hf.1] at hb; exact absurd hb (by decide)

theorem input_event_keeps_inv (s : State) (flg : Bool) (code : Nat) (value : Int)
    (h : StateInv s) : StateInv (s2w_input_event s flg code value).1 := by
  by_cases hz : s.s2w_switch = 0 ∧ s.s2w_wakeup = 0
  · rw [input_event_off s flg code value hz]; exact h
  · by_cases hr : (code = ABS_MT_SLOT ∧ 0 < value) ∨ (code = ABS_MT_TRACKING_ID ∧ value = -1)
    · rw [input_event_reset s flg code value hz hr]; exact reset_keeps_inv s h
    · obtain ⟨s1, -, -, e0, e1, e2, e3, e4, -, -, hc | hc⟩ := input_event_spec s flg code value hz hr
      · obtain ⟨-, hx, hy, he⟩ := hc
        rw [he]
        apply detect_keeps_inv
        refine ⟨?_, ?_, ?_, ?_⟩
        · rw [hx]; rintro ⟨hb, -⟩; exact absurd hb (by decide)
        · rw [e1, e2]; exact h.2.1
        · rw [e3, e4]; exact h.2.2.1
        · rw [e0, e1, e2, e3, e4]; exact h.2.2.2
      · obtain ⟨hn, hx, hy, he⟩ := hc
        rw [he]
        refine ⟨?_, ?_, ?_, ?_⟩
        · rintro ⟨hb1, hb2⟩; exact hn ⟨hx.mp hb1, hy.mp hb2⟩
        · rw [e1, e2]; exact h.2.1
        · rw [e3, e4]; exact h.2.2.1
        · rw [e0, e1, e2, e3, e4]; exact h.2.2.2

theorem reachable_inv {s : State} (h : Reachable s) : StateInv s := by
  induction h with
  | init =>
    refine ⟨?_, ?_, ?_, ?_⟩
    · rintro ⟨hb, -⟩; exact absurd hb (by decide)
    · intro hb; exact absurd hb (by decide)
    · intro hb; exact absurd hb (by decide)
    · intro hb; exact absurd hb (by decide)
  | switches s sw wk _ ih => exact ih
  | event s flg code value _ ih => exact input_event_keeps_inv s flg code value ih
  | detect s flg x y st _ ih => exact detect_keeps_inv s flg x y st ih
  | reset s _ ih => exact reset_keeps_inv s ih

theorem codes_slot_tracking_distinct : ABS_MT_SLOT ≠ ABS_MT_TRACKING_ID := by decide

/-- C11: in every reachable state with a switch non-zero, a call of
`s2w_input_event` with `SLOT` and a value above zero, or `TRACKING_ID` and value
`-1`, is exactly `sweep2wake_reset`: `exec_count` true, the four gate flags
false, the wake lock released, no call of `detect_sweep2wake` and no power
action, whatever is pending; and a `SLOT` event with value at most zero, or a
`TRACKING_ID` event with another value than `-1`, returns the state unchanged
with no effect at all. -/
theorem lifecycle_events (s : State) (hreach : Reachable s)
    (hon : ¬ (s.s2w_switch = 0 ∧ s.s2w_wakeup = 0)) (flg : Bool) (code : Nat) (value : Int) :
    (((code = ABS_MT_SLOT ∧ 0 < value) ∨ (code = ABS_MT_TRACKING_ID ∧ value = -1)) →
      s2w_input_event s flg code value = sweep2wake_reset s ∧
      (s2w_input_event s flg code value).1.exec_count = true ∧
      (s2w_input_event s flg code value).1.barrier0 = false ∧
      (s2w_input_event s flg code value).1.barrier1 = false ∧
      (s2w_input_event s flg code value).1.reverse_barrier0 = false ∧
      (s2w_input_event s flg code value).1.reverse_barrier1 = false ∧
      (s2w_input_event s flg code value).1.wakelock_active = false ∧
      detectCalls (s2w_input_event s flg code value).2 = [] ∧
      pwrCount (s2w_input_event s flg code value).2 = 0) ∧
    (((code = ABS_MT_SLOT ∧ value ≤ 0) ∨ (code = ABS_MT_TRACKING_ID ∧ value ≠ -1)) →
      s2w_input_event s flg code value = (s, [])) := by
  constructor
  · intro hr
    have he := input_event_reset s flg code value hon hr
    have hf := reset_fields s
    rw [he]
    exact ⟨rfl, hf.1, hf.2.1, hf.2.2.1, hf.2.2.2.1, hf.2.2.2.2.1, hf.2.2.2.2.2.2.1,
      reset_detectCalls s, hf.2.2.2.2.2.2.2.2.2.2.2.2.2⟩
  · intro hn
    have hinv := (reachable_inv hreach).1
    have h1 : ¬ (code = ABS_MT_SLOT ∧ 0 < value) := by
      rintro ⟨hc, hv⟩
      rcases hn with h | h
      · omega
      · exact codes_slot_tracking_distinct (hc.symm.trans h.1)
    have h2 : ¬ (code = ABS_MT_TRACKING_ID ∧ value = -1) := by
      rintro ⟨hc, hv⟩
      rcases hn with h | h
      · exact codes_slot_tracking_distinct (h.1.symm.trans hc)
      · exact h.2 hv
    have hx : code ≠ ABS_MT_POSITION_X := by
      rcases hn with h | h
      · rw [h.1]; exact codes_reset_distinct.1
      · rw [h.1]; exact codes_reset_distinct.2.2.1
    have hy : code ≠ ABS_MT_POSITION_Y := by
      rcases hn with h | h
      · rw [h.1]; exact codes_reset_distinct.2.1
      · rw [h.1]; exact codes_reset_distinct.2.2.2
    simp only [s2w_input_event, gt_iff_lt]
    rw [if_neg hon, if_neg h1, if_neg h2, if_neg hx, if_neg hy, if_neg hinv]

theorem lifecycle_events_witness :
    Reachable { init with s2w_switch := 1, s2w_wakeup := 0 } ∧
    ¬ (({ init with s2w_switch := 1, s2w_wakeup := 0 } : State).s2w_switch = 0 ∧
      ({ init with s2w_switch := 1, s2w_wakeup := 0 } : State).s2w_wakeup = 0) ∧
    s2w_input_event { init with s2w_switch := 1, s2w_wakeup := 0 } true ABS_MT_TRACKING_ID (-1) =
      sweep2wake_reset { init with s2w_switch := 1, s2w_wakeup := 0 } ∧
    s2w_input_event { init with s2w_switch := 1, s2w_wakeup := 0 } true ABS_MT_SLOT 0 =
      ({ init with s2w_switch := 1, s2w_wakeup := 0 }, []) :=
  ⟨Reachable.switches init 1 0 Reachable.init, by decide,
    ((lifecycle_events _ (Reachable.switches init 1 0 Reachable.init) (by decide) true
      ABS_MT_TRACKING_ID (-1)).1 (Or.inr ⟨rfl, rfl⟩)).1,
    (lifecycle_events _ (Reachable.switches init 1 0 Reachable.init) (by decide) true
      ABS_MT_SLOT 0).2 (Or.inl ⟨rfl, by decide⟩)⟩

/-- C18: in every reachable state, `barrier[1]` implies `barrier[0]`,
`reverse_barrier[1]` implies `reverse_barrier[0]`, and fired (`exec_count`
false) implies that both flags of at least one direction are set. -/
theorem reachable_gate_order (s : State) (hreach : Reachable s) :
    (s.barrier1 = true → s.barrier0 = true) ∧
    (s.reverse_barrier1 = true → s.reverse_barrier0 = true) ∧
    (s.exec_count = false →
      (s.barrier0 = true ∧ s.barrier1 = true) ∨
        (s.reverse_barrier0 = true ∧ s.reverse_barrier1 = true)) :=
  (reachable_inv hreach).2

theorem reachable_gate_order_witness :
    Reachable (feed true { init with s2w_switch := 1, s2w_wakeup := 0 }
      [(1000, 2450), (600, 2450), (200, 2450)]) ∧
    (feed true { init with s2w_switch := 1, s2w_wakeup := 0 }
      [(1000, 2450), (600, 2450), (200, 2450)]).exec_count = false ∧
    (((feed true { init with s2w_switch := 1, s2w_wakeup := 0 }
        [(1000, 2450), (600, 2450), (200, 2450)]).barrier0 = true ∧
      (feed true { init with s2w_switch := 1, s2w_wakeup := 0 }
        [(1000, 2450), (600, 2450), (200, 2450)]).barrier1 = true) ∨
      ((feed true { init with s2w_switch := 1, s2w_wakeup := 0 }
        [(1000, 2450), (600, 2450), (200, 2450)]).reverse_barrier0 = true ∧
      (feed true { init with s2w_switch := 1, s2w_wakeup := 0 }
        [(1000, 2450), (600, 2450), (200, 2450)]).reverse_barrier1 = true)) :=
  ⟨Reachable.detect _ _ _ _ _ (Reachable.detect _ _ _ _ _ (Reachable.detect _ _ _ _ _
      (Reachable.switches init 1 0 Reachable.init))),
    by decide,
    (reachable_gate_order _ (Reachable.detect _ _ _ _ _ (Reachable.detect _ _ _ _ _
      (Reachable.detect _ _ _ _ _ (Reachable.switches init 1 0 Reachable.init))))).2.2
      (by decide)⟩

/-! ## What a reset leaves behind -/

/-- The values a `detect_sweep2wake` call is made with are those of the most
recent X event and the most recent Y event of the run so far, and the event
that makes the call is an X or a Y event. -/
theorem demux_call_values (l : List Call)
    (hon : ∀ c ∈ l, ¬ (c.s2w_switch = 0 ∧ c.s2w_wakeup = 0)) (m : Nat) (c : Call)
    (hc : l[m]? = some c)
    (hne : detectCalls (callStep (runCalls init (l.take m)) c).2 ≠ []) :
    (c.code = ABS_MT_POSITION_X ∨ c.code = ABS_MT_POSITION_Y) ∧
    ∃ vx vy, lastValue ABS_MT_POSITION_X (l.take (m + 1)) = some vx ∧
      lastValue ABS_MT_POSITION_Y (l.take (m + 1)) = some vy ∧
      detectCalls (callStep (runCalls init (l.take m)) c).2 = [(vx, vy)] := by
  have hpre : ∀ c ∈ l.take m, ¬ (c.s2w_switch = 0 ∧ c.s2w_wakeup = 0) :=
    fun c hc => hon c (List.mem_of_mem_take hc)
  obtain ⟨i1, i2, i3, i4, i5⟩ := demux_inv (l.take m) hpre
  obtain ⟨-, -, d3⟩ := demux_step (runCalls init (l.take m)) c (hon c (mem_of_getElem? hc)) i3
  rcases d3 with ⟨hC, hd, -, -⟩ | ⟨-, hd, -, -⟩
  · refine ⟨hC.elim (fun h => Or.inl h.1) (fun h => Or.inr h.1), ?_⟩
    rw [take_succ_of_getElem? hc, lastValue_snoc, lastValue_snoc]
    refine ⟨_, _, ?_, ?_, hd⟩
    · by_cases h : c.code = ABS_MT_POSITION_X
      · rw [if_pos h, if_pos h]
      · rw [if_neg h, if_neg h]
        rcases hC with hC | hC
        · exact absurd hC.1 h
        · obtain ⟨i, hi, -⟩ := i4 hC.2
          obtain ⟨v, hv⟩ := lastValue_of_eventAt _ _ ⟨i, hi⟩
          rw [i1, hv]
          rfl
    · by_cases h : c.code = ABS_MT_POSITION_Y
      · rw [if_pos h, if_pos h]
      · rw [if_neg h, if_neg h]
        rcases hC with hC | hC
        · obtain ⟨i, hi, -⟩ := i5 hC.2
          obtain ⟨v, hv⟩ := lastValue_of_eventAt _ _ ⟨i, hi⟩
          rw [i2, hv]
          rfl
        · exact absurd hC.1 h
  · exact absurd hd hne

/-- C12, as stated, fails: in the run X = 100, TRACKING_ID = -1, Y = 2450 (with
`s2w_switch` 1) the X axis is still marked seen after the reset event, and the
Y event that follows the reset calls `detect_sweep2wake` with `(100, 2450)`,
whose X value arrived before the reset. -/
theorem reset_keeps_pending_axis :
    IsResetEvent (Call.mk 1 0 true ABS_MT_TRACKING_ID (-1)) ∧
    (runCalls init [Call.mk 1 0 true ABS_MT_POSITION_X 100,
      Call.mk 1 0 true ABS_MT_TRACKING_ID (-1)]).touch_x_called = true ∧
    detectCalls (callStep (runCalls init [Call.mk 1 0 true ABS_MT_POSITION_X 100,
      Call.mk 1 0 true ABS_MT_TRACKING_ID (-1)])
      (Call.mk 1 0 true ABS_MT_POSITION_Y 2450)).2 = [(100, 2450)] := by
  decide

/-- C12, amended: a reset event handled by `s2w_input_event` (with a switch on)
clears the gesture flags but leaves the pending coordinates and both seen marks
as they were; so in every run from the initial state a coordinate update passed
to `detect_sweep2wake` after a reset event is built from the most recent X event
and the most recent Y event of the whole run, before or after the reset, and
the event that completes the pair (an X or a Y event) comes after the reset. -/
theorem reset_leaves_pending (s : State) (c : Call) (l : List Call) (r m : Nat) (d : Call) :
    (¬ (c.s2w_switch = 0 ∧ c.s2w_wakeup = 0) → IsResetEvent c →
      (callStep s c).1.touch_x = s.touch_x ∧ (callStep s c).1.touch_y = s.touch_y ∧
      (callStep s c).1.touch_x_called = s.touch_x_called ∧
      (callStep s c).1.touch_y_called = s.touch_y_called ∧
      (callStep s c).1.exec_count = true ∧
      (callStep s c).1.barrier0 = false ∧ (callStep s c).1.barrier1 = false ∧
      (callStep s c).1.reverse_barrier0 = false ∧
      (callStep s c).1.reverse_barrier1 = false) ∧
    ((∀ e ∈ l, ¬ (e.s2w_switch = 0 ∧ e.s2w_wakeup = 0)) →
      (∃ e, l[r]? = some e ∧ IsResetEvent e) → r < m → l[m]? = some d →
      detectCalls (callStep (runCalls init (l.take m)) d).2 ≠ [] →
      (d.code = ABS_MT_POSITION_X ∨ d.code = ABS_MT_POSITION_Y) ∧
      ∃ vx vy, lastValue ABS_MT_POSITION_X (l.take (m + 1)) = some vx ∧
        lastValue ABS_MT_POSITION_Y (l.take (m + 1)) = some vy ∧
        detectCalls (callStep (runCalls init (l.take m)) d).2 = [(vx, vy)]) := by
  constructor
  · intro hon hr
    unfold callStep
    rw [input_event_reset _ _ _ _ hon hr]
    have hf := reset_fields { s with s2w_switch := c.s2w_switch, s2w_wakeup := c.s2w_wakeup }
    exact ⟨hf.2.2.2.2.2.2.2.2.2.1, hf.2.2.2.2.2.2.2.2.2.2.1, hf.2.2.2.2.2.2.2.2.2.2.2.1,
      hf.2.2.2.2.2.2.2.2.2.2.2.2.1, hf.1, hf.2.1, hf.2.2.1, hf.2.2.2.1, hf.2.2.2.2.1⟩
  · intro hon _ _ hd hne
    exact demux_call_values l hon m d hd hne

theorem reset_leaves_pending_witness :
    ((callStep { init with touch_x := 100, touch_x_called := true }
        (Call.mk 1 0 true ABS_MT_TRACKING_ID (-1))).1.touch_x_called = true ∧
      (callStep { init with touch_x := 100, touch_x_called := true }
        (Call.mk 1 0 true ABS_MT_TRACKING_ID (-1))).1.touch_x = 100) ∧
    ∃ vx vy, lastValue ABS_MT_POSITION_X (List.take (2 + 1)
        [Call.mk 1 0 true ABS_MT_POSITION_X 100, Call.mk 1 0 true ABS_MT_TRACKING_ID (-1),
          Call.mk 1 0 true ABS_MT_POSITION_Y 2450]) = some vx ∧
      lastValue ABS_MT_POSITION_Y (List.take (2 + 1)
        [Call.mk 1 0 true ABS_MT_POSITION_X 100, Call.mk 1 0 true ABS_MT_TRACKING_ID (-1),
          Call.mk 1 0 true ABS_MT_POSITION_Y 2450]) = some vy ∧
      detectCalls (callStep (runCalls init (List.take 2
        [Call.mk 1 0 true ABS_MT_POSITION_X 100, Call.mk 1 0 true ABS_MT_TRACKING_ID (-1),
          Call.mk 1 0 true ABS_MT_POSITION_Y 2450]))
        (Call.mk 1 0 true ABS_MT_POSITION_Y 2450)).2 = [(vx, vy)] :=
  ⟨⟨((reset_leaves_pending { init with touch_x := 100, touch_x_called := true }
        (Call.mk 1 0 true ABS_MT_TRACKING_ID (-1)) [] 0 0
        (Call.mk 1 0 true ABS_MT_TRACKING_ID (-1))).1 (by decide) (by decide)).2.2.1,
      ((reset_leaves_pending { init with touch_x := 100, touch_x_called := true }
        (Call.mk 1 0 true ABS_MT_TRACKING_ID (-1)) [] 0 0
        (Call.mk 1 0 true ABS_MT_TRACKING_ID (-1))).1 (by decide) (by decide)).1⟩,
    ((reset_leaves_pending init (Call.mk 1 0 true ABS_MT_TRACKING_ID (-1))
      [Call.mk 1 0 true ABS_MT_POSITION_X 100, Call.mk 1 0 true ABS_MT_TRACKING_ID (-1),
        Call.mk 1 0 true ABS_MT_POSITION_Y 2450] 1 2
      (Call.mk 1 0 true ABS_MT_POSITION_Y 2450)).2 (by decide)
      ⟨_, rfl, by decide⟩ (by decide) rfl (by decide)).2⟩

/-! ## After the action has fired -/

/-- C13, as stated, fails: in a state that has fired on a forward sweep
(`exec_count` false, both forward flags set), with sweep-to-sleep active, the
update `(300, 2450)` sets `reverse_barrier[0]` and takes the wake lock, so the
call is not a no-op on the gesture state. -/
theorem fired_state_still_advances :
    firedForward.exec_count = false ∧
    firedForward.reverse_barrier0 = false ∧
    (detect_sweep2wake firedForward true 300 2450 true).1.reverse_barrier0 = true ∧
    firedForward.wakelock_active = false ∧
    (detect_sweep2wake firedForward true 300 2450 true).1.wakelock_active = true := by
  decide

/-- C13, amended: in every state in which the action has already fired
(`exec_count` false), for every coordinate and every mode, `detect_sweep2wake`
requests no power action and leaves `exec_count` false; gate flags that are set
stay set (flags that are clear may still be set by the call). -/
theorem fired_state_never_fires (s : State) (flg : Bool) (x y : Int) (st : Bool)
    (hfired : s.exec_count = false) :
    pwrCount (detect_sweep2wake s flg x y st).2 = 0 ∧
    (detect_sweep2wake s flg x y st).1.exec_count = false ∧
    (s.barrier0 = true → (detect_sweep2wake s flg x y st).1.barrier0 = true) ∧
    (s.barrier1 = true → (detect_sweep2wake s flg x y st).1.barrier1 = true) ∧
    (s.reverse_barrier0 = true →
      (detect_sweep2wake s flg x y st).1.reverse_barrier0 = true) ∧
    (s.reverse_barrier1 = true →
      (detect_sweep2wake s flg x y st).1.reverse_barrier1 = true) := by
  have hp := (detect_potential s flg x y st).1 hfired
  have hm := detect_monotone s flg x y st
  exact ⟨hp.2, hp.1, hm.1, hm.2.1, hm.2.2.1, hm.2.2.2.1⟩

theorem fired_state_never_fires_witness :
    firedForward.exec_count = false ∧
    pwrCount (detect_sweep2wake firedForward true 200 2450 true).2 = 0 ∧
    (detect_sweep2wake firedForward true 200 2450 true).1.exec_count = false :=
  ⟨rfl,
    (fired_state_never_fires firedForward true 200 2450 true rfl).1,
    (fired_state_never_fires firedForward true 200 2450 true rfl).2.1⟩

/-! ## The two branches of `detect_sweep2wake` -/

theorem right_left_switches (s : State) (out : List Effect) (x y a b : Int) :
    sleep_right_left { s with s2w_switch := a, s2w_wakeup := b } out x y =
      ({ (sleep_right_left s out x y).1 with s2w_switch := a, s2w_wakeup := b },
        (sleep_right_left s out x y).2) := by
  simp only [sleep_right_left]
  split_ifs <;> rfl

theorem left_right_switches (s : State) (out : List Effect) (x y a b : Int) :
    sleep_left_right { s with s2w_switch := a, s2w_wakeup := b } out x y =
      ({ (sleep_left_right s out x y).1 with s2w_switch := a, s2w_wakeup := b },
        (sleep_left_right s out x y).2) := by
  simp only [sleep_left_right]
  split_ifs <;> rfl

theorem cascade_switches (s : State) (x y a b : Int) :
    sleep_left_right (sleep_right_left { s with s2w_switch := a, s2w_wakeup := b } [] x y).1
        (sleep_right_left { s with s2w_switch := a, s2w_wakeup := b } [] x y).2 x y =
      ({ (sleep_left_right (sleep_right_left s [] x y).1
            (sleep_right_left s [] x y).2 x y).1 with s2w_switch := a, s2w_wakeup := b },
        (sleep_left_right (sleep_right_left s [] x y).1
          (sleep_right_left s [] x y).2 x y).2) := by
  rw [right_left_switches]
  exact left_right_switches _ _ x y a b

/-- With the screen on, `detect_sweep2wake` is the sweep-to-sleep branch or
nothing; the sweep-to-wake branch does not run. -/
theorem detect_screen_on (s : State) (x y : Int) (st : Bool) :
    detect_sweep2wake s true x y st =
      if st = true ∧ 0 < s.s2w_switch then
        sleep_left_right (sleep_right_left { s with scr_on_touch := true } [] x y).1
          (sleep_right_left { s with scr_on_touch := true } [] x y).2 x y
      else (s, []) := by
  simp only [detect_sweep2wake]
  cases st <;> simp

/-- With the screen off, `detect_sweep2wake` is the sweep-to-wake branch or
nothing; the sweep-to-sleep branch does not run. -/
theorem detect_screen_off (s : State) (x y : Int) (st : Bool) :
    detect_sweep2wake s false x y st =
      if st = true ∧ 0 < s.s2w_wakeup then
        wake_left_right (wake_right_left { s with scr_on_touch := true } [] x y).1
          (wake_right_left { s with scr_on_touch := true } [] x y).2 x y
      else (s, []) := by
  simp only [detect_sweep2wake]
  cases st <;> simp

/-- C14: the sweep-to-sleep branch and the sweep-to-wake branch compute the same
function.  A call with the screen on and `s2w_switch > 0` and a call with the
screen off and `s2w_wakeup > 0`, made in states that differ at most in the two
switches, end with the same gate flags, `exec_count`, `scr_on_touch` and wake
lock and have the same effects in the same order (so the same lock
acquisitions and the same number of power actions).  And a call runs at most
one branch: with the screen on it is the sleep branch or nothing, with the
screen off the wake branch or nothing. -/
theorem sleep_wake_branches_agree (s : State) (x y : Int) (st : Bool) (sw wk sw2 wk2 : Int)
    (hsw : 0 < sw) (hwk : 0 < wk2) :
    ((detect_sweep2wake { s with s2w_switch := sw, s2w_wakeup := wk } true x y st).1.barrier0 =
      (detect_sweep2wake { s with s2w_switch := sw2, s2w_wakeup := wk2 } false x y st).1.barrier0 ∧
    (detect_sweep2wake { s with s2w_switch := sw, s2w_wakeup := wk } true x y st).1.barrier1 =
      (detect_sweep2wake { s with s2w_switch := sw2, s2w_wakeup := wk2 } false x y st).1.barrier1 ∧
    (detect_sweep2wake { s with s2w_switch := sw, s2w_wakeup := wk } true x y
        st).1.reverse_barrier0 =
      (detect_sweep2wake { s with s2w_switch := sw2, s2w_wakeup := wk2 } false x y
        st).1.reverse_barrier0 ∧
    (detect_sweep2wake { s with s2w_switch := sw, s2w_wakeup := wk } true x y
        st).1.reverse_barrier1 =
      (detect_sweep2wake { s with s2w_switch := sw2, s2w_wakeup := wk2 } false x y
        st).1.reverse_barrier1 ∧
    (detect_sweep2wake { s with s2w_switch := sw, s2w_wakeup := wk } true x y st).1.exec_count =
      (detect_sweep2wake { s with s2w_switch := sw2, s2w_wakeup := wk2 } false x y
        st).1.exec_count ∧
    (detect_sweep2wake { s with s2w_switch := sw, s2w_wakeup := wk } true x y
        st).1.scr_on_touch =
      (detect_sweep2wake { s with s2w_switch := sw2, s2w_wakeup := wk2 } false x y
        st).1.scr_on_touch ∧
    (detect_sweep2wake { s with s2w_switch := sw, s2w_wakeup := wk } true x y
        st).1.wakelock_active =
      (detect_sweep2wake { s with s2w_switch := sw2, s2w_wakeup := wk2 } false x y
        st).1.wakelock_active ∧
    (detect_sweep2wake { s with s2w_switch := sw, s2w_wakeup := wk } true x y st).2 =
      (detect_sweep2wake { s with s2w_switch := sw2, s2w_wakeup := wk2 } false x y st).2) ∧
    (detect_sweep2wake s true x y st =
      if st = true ∧ 0 < s.s2w_switch then
        sleep_left_right (sleep_right_left { s with scr_on_touch := true } [] x y).1
          (sleep_right_left { s with scr_on_touch := true } [] x y).2 x y
      else (s, [])) ∧
    (detect_sweep2wake s false x y st =
      if st = true ∧ 0 < s.s2w_wakeup then
        wake_left_right (wake_right_left { s with scr_on_touch := true } [] x y).1
          (wake_right_left { s with scr_on_touch := true } [] x y).2 x y
      else (s, [])) := by
  refine ⟨?_, detect_screen_on s x y st, detect_screen_off s x y st⟩
  rw [detect_screen_on, detect_screen_off, wake_right_left_eq, wake_left_right_eq]
  cases st
  · simp
  · have e1 : ({ ({ s with s2w_switch := sw, s2w_wakeup := wk } : State) with
        scr_on_touch := true } : State) =
        { ({ s with scr_on_touch := true } : State) with s2w_switch := sw, s2w_wakeup := wk } :=
      rfl
    have e2 : ({ ({ s with s2w_switch := sw2, s2w_wakeup := wk2 } : State) with
        scr_on_touch := true } : State) =
        { ({ s with scr_on_touch := true } : State) with s2w_switch := sw2, s2w_wakeup := wk2 } :=
      rfl
    simp only [hsw, hwk, and_self, if_true]
    rw [e1, e2, cascade_switches, cascade_switches]
    exact ⟨rfl, rfl, rfl, rfl, rfl, rfl, rfl, rfl⟩

theorem sleep_wake_branches_agree_witness :
    (detect_sweep2wake { firedForward with s2w_switch := 1, s2w_wakeup := 0 } true 300 2450
        true).2 =
      (detect_sweep2wake { firedForward with s2w_switch := 0, s2w_wakeup := 1 } false 300 2450
        true).2 :=
  (sleep_wake_branches_agree firedForward 300 2450 true 1 0 0 1 (by decide)
    (by decide)).1.2.2.2.2.2.2.2

/-! ## The geometry -/

/-- C15: the geometry constants have the values 2400 (band threshold), and
1190, 700, 400, 250 for the forward gates B5, B2, B1, B0, and 250, 380, 1040,
1190 for the reverse gates B0, B3, B4, B5; the gates are strictly ordered in
each direction and lie strictly between 0 and the width 1440; and these are the
numbers every cascade of `detect_sweep2wake` compares the coordinates with. -/
theorem default_geometry :
    DEFAULT_S2W_Y_LIMIT = 2400 ∧
    DEFAULT_S2W_X_B5 = 1190 ∧ DEFAULT_S2W_X_B2 = 700 ∧ DEFAULT_S2W_X_B1 = 400 ∧
    DEFAULT_S2W_X_B0 = 250 ∧ DEFAULT_S2W_X_B3 = 380 ∧ DEFAULT_S2W_X_B4 = 1040 ∧
    DEFAULT_S2W_X_MAX = 1440 ∧
    (DEFAULT_S2W_X_B5 > DEFAULT_S2W_X_B2 ∧ DEFAULT_S2W_X_B2 > DEFAULT_S2W_X_B1 ∧
      DEFAULT_S2W_X_B1 > DEFAULT_S2W_X_B0) ∧
    (DEFAULT_S2W_X_B0 < DEFAULT_S2W_X_B3 ∧ DEFAULT_S2W_X_B3 < DEFAULT_S2W_X_B4 ∧
      DEFAULT_S2W_X_B4 < DEFAULT_S2W_X_B5) ∧
    (0 < DEFAULT_S2W_X_B0 ∧ DEFAULT_S2W_X_B5 < DEFAULT_S2W_X_MAX) ∧
    (∀ (s : State) (out : List Effect) (x y : Int),
      ((sleep_right_left s out x y).1.barrier0 = true ↔
        s.barrier0 = true ∨ (700 < x ∧ x < 1190 ∧ 2400 < y)) ∧
      ((sleep_right_left s out x y).1.barrier1 = true ↔
        s.barrier1 = true ∨ (s.barrier0 = true ∧ 400 < x ∧ x < 700 ∧ 2400 < y)) ∧
      ((sleep_right_left s out x y).1.exec_count = false ↔ s.exec_count = false ∨
        (s.barrier0 = true ∧ s.barrier1 = true ∧ x < 250 ∧ 2400 < y)) ∧
      ((sleep_left_right s out x y).1.reverse_barrier0 = true ↔
        s.reverse_barrier0 = true ∨ (250 < x ∧ x < 380 ∧ 2400 < y)) ∧
      ((sleep_left_right s out x y).1.reverse_barrier1 = true ↔
        s.reverse_barrier1 = true ∨
          (s.reverse_barrier0 = true ∧ 380 < x ∧ x < 1040 ∧ 2400 < y)) ∧
      ((sleep_left_right s out x y).1.exec_count = false ↔ s.exec_count = false ∨
        (s.reverse_barrier0 = true ∧ s.reverse_barrier1 = true ∧ 1190 < x ∧ 2400 < y)) ∧
      ((wake_right_left s out x y).1.barrier0 = true ↔
        s.barrier0 = true ∨ (700 < x ∧ x < 1190 ∧ 2400 < y)) ∧
      ((wake_right_left s out x y).1.barrier1 = true ↔
        s.barrier1 = true ∨ (s.barrier0 = true ∧ 400 < x ∧ x < 700 ∧ 2400 < y)) ∧
      ((wake_right_left s out x y).1.exec_count = false ↔ s.exec_count = false ∨
        (s.barrier0 = true ∧ s.barrier1 = true ∧ x < 250 ∧ 2400 < y)) ∧
      ((wake_left_right s out x y).1.reverse_barrier0 = true ↔
        s.reverse_barrier0 = true ∨ (250 < x ∧ x < 380 ∧ 2400 < y)) ∧
      ((wake_left_right s out x y).1.reverse_barrier1 = true ↔
        s.reverse_barrier1 = true ∨
          (s.reverse_barrier0 = true ∧ 380 < x ∧ x < 1040 ∧ 2400 < y)) ∧
      ((wake_left_right s out x y).1.exec_count = false ↔ s.exec_count = false ∨
        (s.reverse_barrier0 = true ∧ s.reverse_barrier1 = true ∧ 1190 < x ∧ 2400 < y))) := by
  refine ⟨by decide, by decide, by decide, by decide, by decide, by decide, by decide,
    by decide, by decide, by decide, by decide, fun s out x y => ?_⟩
  obtain ⟨a0, a1, a2, -⟩ := right_left_step s out x y _ rfl
  obtain ⟨b0, b1, b2, -⟩ := left_right_step s out x y _ rfl
  rw [wake_right_left_eq, wake_left_right_eq]
  exact ⟨a0, a1, a2, b0, b1, b2, a0, a1, a2, b0, b1, b2⟩

/-- C16: the code breaks the mirror symmetry at the gate B2.  The reverse gate B3
is 380, but 1440 minus the forward gate B2 is 740 (B2 is 700, where the mirror
image of B3 is 1060).  So from a reset state with sweep-to-sleep active the
update `(500, 2450)` does not advance the reverse cascade, while its mirror
image `(940, 2450)` advances the forward cascade from the same (all flags
clear, hence flag-swapped) state. -/
theorem mirror_image_fails_at_B2 :
    DEFAULT_S2W_X_B3 = 380 ∧ DEFAULT_S2W_X_MAX - DEFAULT_S2W_X_B2 = 740 ∧
    DEFAULT_S2W_X_B2 = 700 ∧ DEFAULT_S2W_X_MAX - DEFAULT_S2W_X_B3 = 1060 ∧
    (detect_sweep2wake (sweep2wake_reset { init with s2w_switch := 1 }).1 true
      500 2450 true).1.reverse_barrier0 = false ∧
    (detect_sweep2wake (sweep2wake_reset { init with s2w_switch := 1 }).1 true
      (1440 - 500) 2450 true).1.barrier0 = true := by
  decide

/-! ## The value 2 of `s2w_switch` -/

/-- C17, as stated, fails: after `read_s2w_cmdline` has stored 2 for the text `2`
(logging "Sweep2Wake disabled"), with the screen on the forward sweep
`(1000,2450)`, `(600,2450)`, `(200,2450)` requests the power action at its third
update, both when fed to `detect_sweep2wake` from the reset state and when it
arrives as X and Y events at `s2w_input_event`: the value 2 passes the test
`s2w_switch > 0`. -/
theorem switch_two_still_sleeps :
    (read_s2w_cmdline init ['2']).1.s2w_switch = 2 ∧
    (read_s2w_cmdline init ['2']).2.1 = CmdlineLog.disabled ∧
    triggers true (sweep2wake_reset (read_s2w_cmdline init ['2']).1).1
      [(1000, 2450), (600, 2450), (200, 2450)] = [0, 0, 1] ∧
    ((callEffects (read_s2w_cmdline init ['2']).1
      [Call.mk 2 0 true ABS_MT_POSITION_X 1000, Call.mk 2 0 true ABS_MT_POSITION_Y 2450,
        Call.mk 2 0 true ABS_MT_POSITION_X 600, Call.mk 2 0 true ABS_MT_POSITION_Y 2450,
        Call.mk 2 0 true ABS_MT_POSITION_X 200,
        Call.mk 2 0 true ABS_MT_POSITION_Y 2450]).map pwrCount).sum = 1 := by
  decide

theorem reset_switch (s : State) (a : Int) :
    sweep2wake_reset { s with s2w_switch := a } =
      ({ (sweep2wake_reset s).1 with s2w_switch := a }, (sweep2wake_reset s).2) := by
  simp only [sweep2wake_reset]
  split_ifs <;> rfl

/-- Two positive values of `s2w_switch` are alike to `detect_sweep2wake`. -/
theorem detect_switch_pos (s : State) (a b : Int) (ha : 0 < a) (hb : 0 < b)
    (flg : Bool) (x y : Int) (st : Bool) :
    detect_sweep2wake { s with s2w_switch := a } flg x y st =
      ({ (detect_sweep2wake { s with s2w_switch := b } flg x y st).1 with s2w_switch := a },
        (detect_sweep2wake { s with s2w_switch := b } flg x y st).2) := by
  have hm : ModeActive { s with s2w_switch := a } flg ↔
      ModeActive { s with s2w_switch := b } flg := by
    unfold ModeActive
    simp only [ha, hb]
  rw [detect_eq, detect_eq]
  by_cases hA : st = true ∧ ModeActive { s with s2w_switch := b } flg
  · have hA' : st = true ∧ ModeActive { s with s2w_switch := a } flg := ⟨hA.1, hm.mpr hA.2⟩
    rw [if_pos hA, if_pos hA']
    have ea : ({ ({ s with s2w_switch := a } : State) with scr_on_touch := true } : State) =
        { ({ s with scr_on_touch := true } : State) with
          s2w_switch := a, s2w_wakeup := s.s2w_wakeup } := rfl
    have eb : ({ ({ s with s2w_switch := b } : State) with scr_on_touch := true } : State) =
        { ({ s with scr_on_touch := true } : State) with
          s2w_switch := b, s2w_wakeup := s.s2w_wakeup } := rfl
    rw [ea, eb, cascade_switches, cascade_switches]
  · have hA' : ¬ (st = true ∧ ModeActive { s with s2w_switch := a } flg) :=
      fun h => hA ⟨h.1, hm.mp h.2⟩
    rw [if_neg hA, if_neg hA']

/-- Two positive values of `s2w_switch` are alike to `s2w_input_event`. -/
theorem input_event_switch_pos (s : State) (a b : Int) (ha : 0 < a) (hb : 0 < b)
    (flg : Bool) (code : Nat) (value : Int) :
    s2w_input_event { s with s2w_switch := a } flg code value =
      ({ (s2w_input_event { s with s2w_switch := b } flg code value).1 with s2w_switch := a },
        (s2w_input_event { s with s2w_switch := b } flg code value).2) := by
  have hza : ¬ (a = 0 ∧ s.s2w_wakeup = 0) := fun h => by omega
  have hzb : ¬ (b = 0 ∧ s.s2w_wakeup = 0) := fun h => by omega
  simp only [s2w_input_event]
  rw [if_neg hza, if_neg hzb]
  by_cases h1 : code = ABS_MT_SLOT ∧ value > 0
  · rw [if_pos h1, if_pos h1]
    exact (reset_switch { s with s2w_switch := b } a).trans rfl
  · rw [if_neg h1, if_neg h1]
    by_cases h2 : code = ABS_MT_TRACKING_ID ∧ value = -1
    · rw [if_pos h2, if_pos h2]
      exact (reset_switch { s with s2w_switch := b } a).trans rfl
    · rw [if_neg h2, if_neg h2]
      have hy2 : ABS_MT_POSITION_X ≠ ABS_MT_POSITION_Y := codes_distinct
      have hx2 : ABS_MT_POSITION_Y ≠ ABS_MT_POSITION_X := fun h => codes_distinct h.symm
      by_cases hx : code = ABS_MT_POSITION_X
      · subst hx
        by_cases hc : s.touch_y_called = true
        · have h := detect_switch_pos
            { s with touch_x := value, touch_x_called := false, touch_y_called := false }
            a b ha hb flg value s.touch_y true
          simp only [hy2, hc, if_true, if_false, and_self]
          dsimp only at h
          rw [h]
        · simp only [hy2, hc, if_true, if_false, and_false]
          rfl
      · by_cases hy : code = ABS_MT_POSITION_Y
        · subst hy
          by_cases hc : s.touch_x_called = true
          · have h := detect_switch_pos
              { s with touch_y := value, touch_x_called := false, touch_y_called := false }
              a b ha hb flg s.touch_x value true
            simp only [hx2, hc, if_true, if_false, and_self]
            dsimp only at h
            rw [h]
          · simp only [hx2, hc, if_true, if_false, false_and]
            rfl
        · by_cases hc : s.touch_x_called = true ∧ s.touch_y_called = true
          · have h := detect_switch_pos
              { s with touch_x_called := false, touch_y_called := false }
              a b ha hb flg s.touch_x s.touch_y true
            simp only [hx, hy, hc.1, hc.2, if_true, if_false, and_self]
            dsimp only at h
            rw [h]
          · simp only [hx, hy, if_false]
            rw [if_neg hc, if_neg hc]

theorem detect_switch_fixed (s : State) (b : Int) (hb : 0 < b)
    (flg : Bool) (x y : Int) (st : Bool) :
    (detect_sweep2wake { s with s2w_switch := b } flg x y st).1 =
      { (detect_sweep2wake { s with s2w_switch := b } flg x y st).1 with s2w_switch := b } :=
  congrArg Prod.fst (detect_switch_pos s b b hb hb flg x y st)

/-- Two positive values of `s2w_switch` give the same trigger counts in every run
of `detect_sweep2wake`. -/
theorem triggers_switch_pos (a b : Int) (ha : 0 < a) (hb : 0 < b) (flg : Bool)
    (l : List (Int × Int)) (s : State) :
    triggers flg { s with s2w_switch := a } l = triggers flg { s with s2w_switch := b } l := by
  induction l generalizing s with
  | nil => rfl
  | cons p l ih =>
    simp only [triggers]
    rw [detect_switch_pos s a b ha hb]
    dsimp only
    rw [ih, detect_switch_fixed s b hb]

theorem callStep_switch_pos (s : State) (c : Call) (a b : Int) (ha : 0 < a) (hb : 0 < b) :
    callStep s { c with s2w_switch := a } =
      ({ (callStep s { c with s2w_switch := b }).1 with s2w_switch := a },
        (callStep s { c with s2w_switch := b }).2) :=
  input_event_switch_pos { s with s2w_wakeup := c.s2w_wakeup } a b ha hb _ _ _

theorem callEffects_switch_irrelevant (s : State) (a : Int) (l : List Call) :
    callEffects { s with s2w_switch := a } l = callEffects s l := by
  cases l with
  | nil => rfl
  | cons c l => rfl

/-- Two positive values of `s2w_switch` give the same effects in every run of
`s2w_input_event`. -/
theorem callEffects_switch_pos (a b : Int) (ha : 0 < a) (hb : 0 < b)
    (l : List Call) (s : State) :
    callEffects s (l.map (fun c => { c with s2w_switch := a })) =
      callEffects s (l.map (fun c => { c with s2w_switch := b })) := by
  induction l generalizing s with
  | nil => rfl
  | cons c l ih =>
    simp only [List.map_cons, callEffects]
    rw [callStep_switch_pos s c a b ha hb]
    dsimp only
    rw [callEffects_switch_irrelevant, ih]

/-- C17, amended: the value 2 of `s2w_switch` is an on value, not an off value.
`read_s2w_cmdline` stores 2 for the text `2` (logging "Sweep2Wake disabled") and
1 for the text `1`.  For every state, every call of `detect_sweep2wake` and every
call of `s2w_input_event` has with `s2w_switch == 2` the same effects as with
`s2w_switch == 1`, and the same resulting state but for the switch value
itself; so every sequence of coordinate updates gives the same trigger counts
with 2 as with 1, and every sequence of events the same effects.  With the
screen on and `s2w_switch == 2`, coordinate updates fed from the reset state
request the power action exactly when they trace a forward or a reverse
sweep. -/
theorem switch_two_is_on (s : State) (flg : Bool) (x y : Int) (st : Bool)
    (code : Nat) (value : Int) (l : List (Int × Int)) (cs : List Call) :
    (read_s2w_cmdline s ['2']).1 = { s with s2w_switch := 2 } ∧
    (read_s2w_cmdline s ['2']).2.1 = CmdlineLog.disabled ∧
    (read_s2w_cmdline s ['1']).1 = { s with s2w_switch := 1 } ∧
    detect_sweep2wake { s with s2w_switch := 2 } flg x y st =
      ({ (detect_sweep2wake { s with s2w_switch := 1 } flg x y st).1 with s2w_switch := 2 },
        (detect_sweep2wake { s with s2w_switch := 1 } flg x y st).2) ∧
    s2w_input_event { s with s2w_switch := 2 } flg code value =
      ({ (s2w_input_event { s with s2w_switch := 1 } flg code value).1 with s2w_switch := 2 },
        (s2w_input_event { s with s2w_switch := 1 } flg code value).2) ∧
    triggers flg { s with s2w_switch := 2 } l = triggers flg { s with s2w_switch := 1 } l ∧
    callEffects s (cs.map (fun c => { c with s2w_switch := 2 })) =
      callEffects s (cs.map (fun c => { c with s2w_switch := 1 })) ∧
    ((∃ n ∈ triggers true (sweep2wake_reset { s with s2w_switch := 2 }).1 l, n ≠ 0) ↔
      ∃ i j k, ForwardSweepAt l i j k ∨ ReverseSweepAt l i j k) := by
  refine ⟨rfl, rfl, rfl, detect_switch_pos s 2 1 (by decide) (by decide) flg x y st,
    input_event_switch_pos s 2 1 (by decide) (by decide) flg code value,
    triggers_switch_pos 2 1 (by decide) (by decide) flg l s,
    callEffects_switch_pos 2 1 (by decide) (by decide) cs s, ?_⟩
  have hm : ModeActive { s with s2w_switch := 2 } true := Or.inl ⟨rfl, (by decide : (0 : Int) < 2)⟩
  rw [triggers_pos_iff _ true hm l]
  unfold SweepEndsAt
  constructor
  · rintro ⟨k, i, j, h⟩
    exact ⟨i, j, k, h⟩
  · rintro ⟨i, j, k, h⟩
    exact ⟨k, i, j, h⟩

theorem switch_two_is_on_witness :
    triggers true { (sweep2wake_reset init).1 with s2w_switch := 2 }
      [(1300, 2450), (300, 2450), (500, 2450), (1300, 2450)] = [0, 0, 0, 1] ∧
    (callEffects init
      [Call.mk 2 0 true ABS_MT_POSITION_X 300, Call.mk 2 0 true ABS_MT_POSITION_Y 2450,
        Call.mk 2 0 true ABS_MT_POSITION_X 500, Call.mk 2 0 true ABS_MT_POSITION_Y 2450,
        Call.mk 2 0 true ABS_MT_POSITION_X 1300,
        Call.mk 2 0 true ABS_MT_POSITION_Y 2450]).map pwrCount = [0, 0, 0, 0, 0, 1] := by
  have h := switch_two_is_on (sweep2wake_reset init).1 true 0 0 true 0 0
    [(1300, 2450), (300, 2450), (500, 2450), (1300, 2450)] []
  have g := switch_two_is_on init true 0 0 true 0 0 []
    [Call.mk 0 0 true ABS_MT_POSITION_X 300, Call.mk 0 0 true ABS_MT_POSITION_Y 2450,
      Call.mk 0 0 true ABS_MT_POSITION_X 500, Call.mk 0 0 true ABS_MT_POSITION_Y 2450,
      Call.mk 0 0 true ABS_MT_POSITION_X 1300,
      Call.mk 0 0 true ABS_MT_POSITION_Y 2450]
  refine ⟨h.2.2.2.2.2.1.trans (by decide), ?_⟩
  exact (congrArg (List.map pwrCount) g.2.2.2.2.2.2.1).trans (by decide)

/-! ## Repeating an update -/

theorem right_left_lock (s : State) (out : List Effect) (x y : Int) :
    ((sleep_right_left s out x y).1.wakelock_active = true ↔
      s.wakelock_active = true ∨ (sleep_right_left s out x y).1.barrier0 = true) := by
  simp only [sleep_right_left]
  cases hb0 : s.barrier0 <;> cases hw : s.wakelock_active <;> split_ifs <;> simp_all

theorem left_right_lock (s : State) (out : List Effect) (x y : Int) :
    ((sleep_left_right s out x y).1.wakelock_active = true ↔
      s.wakelock_active = true ∨ (sleep_left_right s out x y).1.reverse_barrier0 = true) := by
  simp only [sleep_left_right]
  cases hb0 : s.reverse_barrier0 <;> cases hw : s.wakelock_active <;> split_ifs <;> simp_all

/-- What a call of `detect_sweep2wake` does to `scr_on_touch` and to the wake
lock. -/
theorem detect_lock_step (s : State) (flg : Bool) (x y : Int) (st : Bool) :
    ((detect_sweep2wake s flg x y st).1.scr_on_touch = true ↔
      s.scr_on_touch = true ∨ (st = true ∧ ModeActive s flg)) ∧
    ((detect_sweep2wake s flg x y st).1.wakelock_active = true ↔
      s.wakelock_active = true ∨ ((st = true ∧ ModeActive s flg) ∧
        ((detect_sweep2wake s flg x y st).1.barrier0 = true ∨
          (detect_sweep2wake s flg x y st).1.reverse_barrier0 = true))) := by
  rw [detect_eq]
  by_cases hA : st = true ∧ ModeActive s flg
  · rw [if_pos hA]
    obtain ⟨-, -, -, -, -, -, -, -, -, -, -, -, a13⟩ :=
      right_left_step { s with scr_on_touch := true } [] x y _ rfl
    obtain ⟨-, -, -, -, b5, -, -, -, -, -, -, -, b13⟩ :=
      left_right_step (sleep_right_left { s with scr_on_touch := true } [] x y).1
        (sleep_right_left { s with scr_on_touch := true } [] x y).2 x y _ rfl
    have l1 := right_left_lock { s with scr_on_touch := true } [] x y
    have l2 := left_right_lock (sleep_right_left { s with scr_on_touch := true } [] x y).1
        (sleep_right_left { s with scr_on_touch := true } [] x y).2 x y
    simp only at a13 l1
    refine ⟨?_, ?_⟩
    · rw [b13, a13]
      exact ⟨fun _ => Or.inr hA, fun _ => rfl⟩
    · rw [l2, l1, b5]
      constructor
      · rintro ((h | h) | h)
        · exact Or.inl h
        · exact Or.inr ⟨hA, Or.inl h⟩
        · exact Or.inr ⟨hA, Or.inr h⟩
      · rintro (h | ⟨-, h | h⟩)
        · exact Or.inl (Or.inl h)
        · exact Or.inl (Or.inr h)
        · exact Or.inr h
  · rw [if_neg hA]
    exact ⟨⟨Or.inl, fun h => h.elim id (fun h => absurd h hA)⟩,
      ⟨Or.inl, fun h => h.elim id (fun h => absurd h.1 hA)⟩⟩

theorem state_ext {s t : State} (h1 : s.s2w_switch = t.s2w_switch)
    (h2 : s.s2w_wakeup = t.s2w_wakeup) (h3 : s.touch_x = t.touch_x) (h4 : s.touch_y = t.touch_y)
    (h5 : s.touch_x_called = t.touch_x_called) (h6 : s.touch_y_called = t.touch_y_called)
    (h7 : s.exec_count = t.exec_count) (h8 : s.scr_on_touch = t.scr_on_touch)
    (h9 : s.barrier0 = t.barrier0) (h10 : s.barrier1 = t.barrier1)
    (h11 : s.reverse_barrier0 = t.reverse_barrier0)
    (h12 : s.reverse_barrier1 = t.reverse_barrier1)
    (h13 : s.wakelock_active = t.wakelock_active) : s = t := by
  cases s
  cases t
  simp only [State.mk.injEq]
  exact ⟨h1, h2, h3, h4, h5, h6, h7, h8, h9, h10, h11, h12, h13⟩

/-- C19: processing the same coordinate twice in a row is the same as processing
it once.  For every state, coordinate, `st` and screen state, the state after
two consecutive `detect_sweep2wake` calls with the same arguments equals the
state after one, and the second call requests no power action. -/
theorem detect_twice_is_once (s : State) (flg : Bool) (x y : Int) (st : Bool) :
    (detect_sweep2wake (detect_sweep2wake s flg x y st).1 flg x y st).1 =
      (detect_sweep2wake s flg x y st).1 ∧
    pwrCount (detect_sweep2wake (detect_sweep2wake s flg x y st).1 flg x y st).2 = 0 := by
  obtain ⟨a0, a1, a2, a3, a4, -, a6, a7, a8, a9, a10, a11⟩ := detect_step s flg x y st _ rfl
  obtain ⟨b0, b1, b2, b3, b4, b5, b6, b7, b8, b9, b10, b11⟩ :=
    detect_step (detect_sweep2wake s flg x y st).1 flg x y st _ rfl
  obtain ⟨c1, c2⟩ := detect_lock_step s flg x y st
  obtain ⟨d1, d2⟩ := detect_lock_step (detect_sweep2wake s flg x y st).1 flg x y st
  have hm : ModeActive (detect_sweep2wake s flg x y st).1 flg ↔ ModeActive s flg := by
    unfold ModeActive
    rw [a6, a7]
  rw [hm] at b0 b1 b2 b3 b4 b5 d1 d2
  generalize detect_sweep2wake s flg x y st = r1 at *
  generalize detect_sweep2wake r1.1 flg x y st = r2 at *
  -- the four flags
  have e0 : r2.1.barrier0 = r1.1.barrier0 := by
    apply bool_eq_of_iff
    rw [b0]
    exact ⟨fun h => h.elim id (fun h => a0.mpr (Or.inr h)), Or.inl⟩
  have e1 : r2.1.barrier1 = r1.1.barrier1 := by
    apply bool_eq_of_iff
    rw [b1]
    refine ⟨fun h => h.elim id (fun h => ?_), Or.inl⟩
    rcases a0.mp h.2.1 with h0 | h0
    · exact a1.mpr (Or.inr ⟨h.1, h0, h.2.2⟩)
    · exfalso
      have := h0.2
      have := h.2.2
      omega
  have e2 : r2.1.reverse_barrier0 = r1.1.reverse_barrier0 := by
    apply bool_eq_of_iff
    rw [b2]
    exact ⟨fun h => h.elim id (fun h => a2.mpr (Or.inr h)), Or.inl⟩
  have e3 : r2.1.reverse_barrier1 = r1.1.reverse_barrier1 := by
    apply bool_eq_of_iff
    rw [b3]
    refine ⟨fun h => h.elim id (fun h => ?_), Or.inl⟩
    rcases a2.mp h.2.1 with h0 | h0
    · exact a3.mpr (Or.inr ⟨h.1, h0, h.2.2⟩)
    · exfalso
      have := h0.2
      have := h.2.2
      omega
  -- a sweep that the second call could complete was already complete for the first
  have hfire : (st = true ∧ ModeActive s flg) →
      ((r1.1.barrier0 = true ∧ r1.1.barrier1 = true ∧ x < 250 ∧ 2400 < y) ∨
        (r1.1.reverse_barrier0 = true ∧ r1.1.reverse_barrier1 = true ∧ 1190 < x ∧ 2400 < y)) →
      r1.1.exec_count = false := by
    intro hA h
    apply a4.mpr
    right
    refine ⟨hA, ?_⟩
    rcases h with ⟨h0, h1, hx, hy⟩ | ⟨h0, h1, hx, hy⟩
    · left
      refine ⟨?_, ?_, hx, hy⟩
      · rcases a0.mp h0 with h | h
        · exact h
        · exfalso
          have := h.2
          omega
      · rcases a1.mp h1 with h | h
        · exact h
        · exfalso
          have := h.2.2
          omega
    · right
      refine ⟨?_, ?_, hx, hy⟩
      · rcases a2.mp h0 with h | h
        · exact h
        · exfalso
          have := h.2
          omega
      · rcases a3.mp h1 with h | h
        · exact h
        · exfalso
          have := h.2.2
          omega
  have e4 : r2.1.exec_count = r1.1.exec_count := by
    apply bool_eq_of_iff_false
    rw [b4]
    exact ⟨fun h => h.elim id (fun h => hfire h.1 h.2), Or.inl⟩
  have e5 : r2.1.scr_on_touch = r1.1.scr_on_touch := by
    apply bool_eq_of_iff
    rw [d1]
    exact ⟨fun h => h.elim id (fun h => c1.mpr (Or.inr h)), Or.inl⟩
  have e6 : r2.1.wakelock_active = r1.1.wakelock_active := by
    apply bool_eq_of_iff
    rw [d2, e0, e2]
    exact ⟨fun h => h.elim id (fun h => c2.mpr (Or.inr h)), Or.inl⟩
  refine ⟨state_ext b6 b7 b8 b9 b10 b11 e4 e5 e0 e1 e2 e3 e6, ?_⟩
  rcases b5 with ⟨h1, h2, h3, -⟩ | ⟨-, h⟩
  · have := hfire h2 h3
    rw [h1] at this
    exact absurd this (by decide)
  · exact h

/-! ## The sysfs setters -/

theorem charAt_zero_cons (c : Char) (l : List Char) : charAt (c :: l) 0 = (c.toNat : Int) := rfl

theorem charAt_one_cons (c d : Char) (l : List Char) :
    charAt (c :: d :: l) 1 = (d.toNat : Int) := rfl

theorem char_of_toNat {c : Char} {n : Nat} (h : (c.toNat : Int) = (n : Int)) :
    c = Char.ofNat n := by
  have h1 : c.toNat = n := by omega
  rw [← h1, Char.ofNat_toNat]

/-- The test both setters make on the buffer holds exactly when the buffer starts
with `0` or `1` followed by a newline. -/
theorem setter_test_iff (buf : List Char) :
    (charAt buf 0 ≥ (('0' : Char).toNat : Int) ∧ charAt buf 0 ≤ (('1' : Char).toNat : Int) ∧
      charAt buf 1 = (newline.toNat : Int)) ↔
    ∃ rest, buf = '0' :: newline :: rest ∨ buf = '1' :: newline :: rest := by
  have h0 : (('0' : Char).toNat : Int) = 48 := by decide
  have h1 : (('1' : Char).toNat : Int) = 49 := by decide
  have hn : (newline.toNat : Int) = 10 := by decide
  rw [h0, h1, hn]
  constructor
  · rintro ⟨ha, hb, hc⟩
    match buf, ha, hb, hc with
    | [], ha, _, _ =>
      have : charAt [] 0 = 0 := by decide
      omega
    | [c], _, _, hc =>
      have : charAt [c] 1 = 0 := rfl
      omega
    | c :: d :: rest, ha, hb, hc =>
      rw [charAt_zero_cons] at ha hb
      rw [charAt_one_cons] at hc
      have hd : d = newline := char_of_toNat (n := 10) hc
      have hcases : (c.toNat : Int) = ((48 : Nat) : Int) ∨ (c.toNat : Int) = ((49 : Nat) : Int) := by
        omega
      rcases hcases with h | h
      · exact ⟨rest, Or.inl (by rw [char_of_toNat h, hd])⟩
      · exact ⟨rest, Or.inr (by rw [char_of_toNat h, hd])⟩
  · rintro ⟨rest, h | h⟩
    · rw [h, charAt_zero_cons, charAt_one_cons, h0, hn]
      omega
    · rw [h, charAt_zero_cons, charAt_one_cons, h1, hn]
      omega

/-- What `s2w_sweep2sleep_dump` does. -/
theorem sweep2sleep_dump_spec (w : Nat) (s : State) (buf : List Char) (count : Nat) :
    (s2w_sweep2sleep_dump w s buf count).2 = toSsize w count ∧
    (∀ rest, buf = '0' :: newline :: rest →
      (s2w_sweep2sleep_dump w s buf count).1 = { s with s2w_switch := 0 }) ∧
    (∀ rest, buf = '1' :: newline :: rest →
      (s2w_sweep2sleep_dump w s buf count).1 = { s with s2w_switch := 1 }) ∧
    ((¬ ∃ rest, buf = '0' :: newline :: rest ∨ buf = '1' :: newline :: rest) →
      (s2w_sweep2sleep_dump w s buf count).1 = s) := by
  have key : ∀ (v : Int), (if s.s2w_switch ≠ v then
      (({ s with s2w_switch := v } : State), toSsize w count) else (s, toSsize w count)) =
      (({ s with s2w_switch := v } : State), toSsize w count) := by
    intro v
    split_ifs with h
    · rfl
    · have h' : s.s2w_switch = v := not_not.mp h
      cases s
      simp only at h'
      subst h'
      rfl
  have hz : charAt ('0' :: newline :: ([] : List Char)) 0 - (('0' : Char).toNat : Int) = 0 := by
    decide
  have ho : charAt ('1' :: newline :: ([] : List Char)) 0 - (('0' : Char).toNat : Int) = 1 := by
    decide
  refine ⟨?_, ?_, ?_, ?_⟩
  · simp only [s2w_sweep2sleep_dump]
    split_ifs <;> rfl
  · intro rest h
    have ht := (setter_test_iff buf).mpr ⟨rest, Or.inl h⟩
    simp only [s2w_sweep2sleep_dump]
    rw [if_pos ht, key, h]
    simp only [charAt_zero_cons]
    exact congrArg (fun v => ({ s with s2w_switch := v } : State)) hz
  · intro rest h
    have ht := (setter_test_iff buf).mpr ⟨rest, Or.inr h⟩
    simp only [s2w_sweep2sleep_dump]
    rw [if_pos ht, key, h]
    simp only [charAt_zero_cons]
    exact congrArg (fun v => ({ s with s2w_switch := v } : State)) ho
  · intro h
    have ht := fun hc => h ((setter_test_iff buf).mp hc)
    simp only [s2w_sweep2sleep_dump]
    rw [if_neg ht]

/-- What `s2w_sweep2wake_dump` does. -/
theorem sweep2wake_dump_spec (w : Nat) (s : State) (buf : List Char) (count : Nat) :
    (s2w_sweep2wake_dump w s buf count).2 = toSsize w count ∧
    (∀ rest, buf = '0' :: newline :: rest →
      (s2w_sweep2wake_dump w s buf count).1 = { s with s2w_wakeup := 0 }) ∧
    (∀ rest, buf = '1' :: newline :: rest →
      (s2w_sweep2wake_dump w s buf count).1 = { s with s2w_wakeup := 1 }) ∧
    ((¬ ∃ rest, buf = '0' :: newline :: rest ∨ buf = '1' :: newline :: rest) →
      (s2w_sweep2wake_dump w s buf count).1 = s) := by
  have key : ∀ (v : Int), (if s.s2w_wakeup ≠ v then
      (({ s with s2w_wakeup := v } : State), toSsize w count) else (s, toSsize w count)) =
      (({ s with s2w_wakeup := v } : State), toSsize w count) := by
    intro v
    split_ifs with h
    · rfl
    · have h' : s.s2w_wakeup = v := not_not.mp h
      cases s
      simp only at h'
      subst h'
      rfl
  have hz : charAt ('0' :: newline :: ([] : List Char)) 0 - (('0' : Char).toNat : Int) = 0 := by
    decide
  have ho : charAt ('1' :: newline :: ([] : List Char)) 0 - (('0' : Char).toNat : Int) = 1 := by
    decide
  refine ⟨?_, ?_, ?_, ?_⟩
  · simp only [s2w_sweep2wake_dump]
    split_ifs <;> rfl
  · intro rest h
    have ht := (setter_test_iff buf).mpr ⟨rest, Or.inl h⟩
    simp only [s2w_sweep2wake_dump]
    rw [if_pos ht, key, h]
    simp only [charAt_zero_cons]
    exact congrArg (fun v => ({ s with s2w_wakeup := v } : State)) hz
  · intro rest h
    have ht := (setter_test_iff buf).mpr ⟨rest, Or.inr h⟩
    simp only [s2w_sweep2wake_dump]
    rw [if_pos ht, key, h]
    simp only [charAt_zero_cons]
    exact congrArg (fun v => ({ s with s2w_wakeup := v } : State)) ho
  · intro h
    have ht := fun hc => h ((setter_test_iff buf).mp hc)
    simp only [s2w_sweep2wake_dump]
    rw [if_neg ht]

theorem sweep2sleep_dump_fields (w : Nat) (s : State) (buf : List Char) (count : Nat) :
    ((s2w_sweep2sleep_dump w s buf count).1.s2w_switch = s.s2w_switch ∨
      (s2w_sweep2sleep_dump w s buf count).1.s2w_switch = 0 ∨
      (s2w_sweep2sleep_dump w s buf count).1.s2w_switch = 1) ∧
    (s2w_sweep2sleep_dump w s buf count).1.s2w_wakeup = s.s2w_wakeup := by
  obtain ⟨-, h0, h1, hn⟩ := sweep2sleep_dump_spec w s buf count
  by_cases h : ∃ rest, buf = '0' :: newline :: rest ∨ buf = '1' :: newline :: rest
  · obtain ⟨rest, h | h⟩ := h
    · rw [h0 rest h]; exact ⟨Or.inr (Or.inl rfl), rfl⟩
    · rw [h1 rest h]; exact ⟨Or.inr (Or.inr rfl), rfl⟩
  · rw [hn h]; exact ⟨Or.inl rfl, rfl⟩

theorem sweep2wake_dump_fields (w : Nat) (s : State) (buf : List Char) (count : Nat) :
    ((s2w_sweep2wake_dump w s buf count).1.s2w_wakeup = s.s2w_wakeup ∨
      (s2w_sweep2wake_dump w s buf count).1.s2w_wakeup = 0 ∨
      (s2w_sweep2wake_dump w s buf count).1.s2w_wakeup = 1) ∧
    (s2w_sweep2wake_dump w s buf count).1.s2w_switch = s.s2w_switch := by
  obtain ⟨-, h0, h1, hn⟩ := sweep2wake_dump_spec w s buf count
  by_cases h : ∃ rest, buf = '0' :: newline :: rest ∨ buf = '1' :: newline :: rest
  · obtain ⟨rest, h | h⟩ := h
    · rw [h0 rest h]; exact ⟨Or.inr (Or.inl rfl), rfl⟩
    · rw [h1 rest h]; exact ⟨Or.inr (Or.inr rfl), rfl⟩
  · rw [hn h]; exact ⟨Or.inl rfl, rfl⟩

theorem runSetters_fields (w : Nat) (l : List SetterCall) : ∀ s : State,
    ((runSetters w s l).s2w_switch = s.s2w_switch ∨ (runSetters w s l).s2w_switch = 0 ∨
      (runSetters w s l).s2w_switch = 1) ∧
    ((runSetters w s l).s2w_wakeup = s.s2w_wakeup ∨ (runSetters w s l).s2w_wakeup = 0 ∨
      (runSetters w s l).s2w_wakeup = 1) := by
  induction l with
  | nil => intro s; exact ⟨Or.inl rfl, Or.inl rfl⟩
  | cons c l ih =>
    intro s
    cases c with
    | sweep2sleep buf count =>
      obtain ⟨f1, f2⟩ := sweep2sleep_dump_fields w s buf count
      obtain ⟨i1, i2⟩ := ih (s2w_sweep2sleep_dump w s buf count).1
      simp only [runSetters]
      rw [f2] at i2
      refine ⟨?_, i2⟩
      rcases i1 with i1 | i1
      · rw [i1]; exact f1
      · exact Or.inr i1
    | sweep2wake buf count =>
      obtain ⟨f1, f2⟩ := sweep2wake_dump_fields w s buf count
      obtain ⟨i1, i2⟩ := ih (s2w_sweep2wake_dump w s buf count).1
      simp only [runSetters]
      rw [f2] at i1
      refine ⟨i1, ?_⟩
      rcases i2 with i2 | i2
      · rw [i2]; exact f1
      · exact Or.inr i2

theorem toSsize_of_lt (w count : Nat) (h : count < 2 ^ (w - 1)) :
    toSsize w count = (count : Int) := by
  have hle : 2 ^ (w - 1) ≤ 2 ^ w := Nat.pow_le_pow_right (by decide) (Nat.sub_le w 1)
  have hmod : count % 2 ^ w = count := Nat.mod_eq_of_lt (Nat.lt_of_lt_of_le h hle)
  unfold toSsize
  rw [hmod, if_pos h]

/-- C20, as stated, fails in the return value: both setters return `ssize_t`, so a
`count` above the largest `ssize_t` does not come back as `count`.  With 64-bit
`size_t` the count `2 ^ 64 - 1` is returned as `-1`, and with 32-bit `size_t`
the count `2 ^ 32 - 1` is. -/
theorem setter_return_wraps :
    (s2w_sweep2sleep_dump 64 init ['1', newline] (2 ^ 64 - 1)).2 = -1 ∧
    (s2w_sweep2wake_dump 64 init ['1', newline] (2 ^ 64 - 1)).2 = -1 ∧
    (s2w_sweep2sleep_dump 32 init ['1', newline] (2 ^ 32 - 1)).2 = -1 ∧
    (s2w_sweep2wake_dump 32 init ['1', newline] (2 ^ 32 - 1)).2 = -1 := by
  decide

/-- C20, amended: the two switch setters validate their input and are
independent.  For every buffer and count, on a target of any width `w`,
`s2w_sweep2sleep_dump` sets `s2w_switch` to 0 or to 1 when the buffer starts
with that digit followed by a newline, and changes nothing else; on any other
buffer it changes nothing at all; in particular it never touches `s2w_wakeup`;
and it returns `count` whenever `count` is at most the largest `ssize_t`
(`count < 2 ^ (w - 1)`), as every count that sysfs passes is.
`s2w_sweep2wake_dump` does the same for `s2w_wakeup` and never touches
`s2w_switch`.  So after any sequence of setter calls each switch holds the
value it had before or 0 or 1. -/
theorem setters_validate (w : Nat) (s : State) (buf : List Char) (count : Nat)
    (l : List SetterCall) :
    ((count < 2 ^ (w - 1) → (s2w_sweep2sleep_dump w s buf count).2 = (count : Int)) ∧
      (∀ rest, buf = '0' :: newline :: rest →
        (s2w_sweep2sleep_dump w s buf count).1 = { s with s2w_switch := 0 }) ∧
      (∀ rest, buf = '1' :: newline :: rest →
        (s2w_sweep2sleep_dump w s buf count).1 = { s with s2w_switch := 1 }) ∧
      ((¬ ∃ rest, buf = '0' :: newline :: rest ∨ buf = '1' :: newline :: rest) →
        (s2w_sweep2sleep_dump w s buf count).1 = s) ∧
      (s2w_sweep2sleep_dump w s buf count).1.s2w_wakeup = s.s2w_wakeup) ∧
    ((count < 2 ^ (w - 1) → (s2w_sweep2wake_dump w s buf count).2 = (count : Int)) ∧
      (∀ rest, buf = '0' :: newline :: rest →
        (s2w_sweep2wake_dump w s buf count).1 = { s with s2w_wakeup := 0 }) ∧
      (∀ rest, buf = '1' :: newline :: rest →
        (s2w_sweep2wake_dump w s buf count).1 = { s with s2w_wakeup := 1 }) ∧
      ((¬ ∃ rest, buf = '0' :: newline :: rest ∨ buf = '1' :: newline :: rest) →
        (s2w_sweep2wake_dump w s buf count).1 = s) ∧
      (s2w_sweep2wake_dump w s buf count).1.s2w_switch = s.s2w_switch) ∧
    (((runSetters w s l).s2w_switch = s.s2w_switch ∨ (runSetters w s l).s2w_switch = 0 ∨
        (runSetters w s l).s2w_switch = 1) ∧
      ((runSetters w s l).s2w_wakeup = s.s2w_wakeup ∨ (runSetters w s l).s2w_wakeup = 0 ∨
        (runSetters w s l).s2w_wakeup = 1)) := by
  obtain ⟨a1, a2, a3, a4⟩ := sweep2sleep_dump_spec w s buf count
  obtain ⟨b1, b2, b3, b4⟩ := sweep2wake_dump_spec w s buf count
  exact ⟨⟨fun h => by rw [a1, toSsize_of_lt w count h], a2, a3, a4,
      (sweep2sleep_dump_fields w s buf count).2⟩,
    ⟨fun h => by rw [b1, toSsize_of_lt w count h], b2, b3, b4,
      (sweep2wake_dump_fields w s buf count).2⟩, runSetters_fields w l s⟩

theorem setters_validate_witness :
    (s2w_sweep2sleep_dump 64 init ['1', newline] 2).2 = 2 ∧
    (s2w_sweep2sleep_dump 64 init ['1', newline] 2).1 = { init with s2w_switch := 1 } ∧
    (s2w_sweep2wake_dump 64 init ['1', newline] 2).2 = 2 ∧
    (s2w_sweep2wake_dump 64 init ['1', newline] 2).1 = { init with s2w_wakeup := 1 } ∧
    (s2w_sweep2sleep_dump 64 init ['2', newline] 2).1 = init :=
  ⟨(setters_validate 64 init ['1', newline] 2 []).1.1 (by decide),
    (setters_validate 64 init ['1', newline] 2 []).1.2.2.1 [] rfl,
    (setters_validate 64 init ['1', newline] 2 []).2.1.1 (by decide),
    (setters_validate 64 init ['1', newline] 2 []).2.1.2.2.1 [] rfl,
    (setters_validate 64 init ['2', newline] 2 []).1.2.2.2.1 (by
      rintro ⟨rest, h | h⟩
      · exact absurd (List.cons.inj h).1 (by decide)
      · exact absurd (List.cons.inj h).1 (by decide))⟩

/-! ## The seen marks in terms of the events -/

theorem detectCalledAt_mono (l : List Call) (c : Call) (m : Nat) (h : DetectCalledAt l m) :
    DetectCalledAt (l ++ [c]) m :=
  (detectCalledAt_snoc l c m).mpr (Or.inl h)

/-- An axis is marked seen after a run exactly when an event of that axis has
arrived and no call of `detect_sweep2wake` has been made at or after it. -/
theorem demux_marks (l : List Call)
    (hon : ∀ c ∈ l, ¬ (c.s2w_switch = 0 ∧ c.s2w_wakeup = 0)) :
    ((runCalls init l).touch_x_called = true ↔
      ∃ i, EventAt l i ABS_MT_POSITION_X ∧ ∀ m, i ≤ m → ¬ DetectCalledAt l m) ∧
    ((runCalls init l).touch_y_called = true ↔
      ∃ j, EventAt l j ABS_MT_POSITION_Y ∧ ∀ m, j ≤ m → ¬ DetectCalledAt l m) := by
  refine ⟨⟨(demux_inv l hon).2.2.2.1, ?_⟩, ⟨(demux_inv l hon).2.2.2.2, ?_⟩⟩
  · induction l using List.reverseRecOn with
    | nil =>
      rintro ⟨i, ⟨c, hc, -⟩, -⟩
      simp at hc
    | append_singleton l c ih =>
      have honl : ∀ d ∈ l, ¬ (d.s2w_switch = 0 ∧ d.s2w_wakeup = 0) :=
        fun d hd => hon d (List.mem_append_left _ hd)
      have hc := hon c (List.mem_append_right _ (List.mem_singleton_self c))
      obtain ⟨-, -, i3, -, -⟩ := demux_inv l honl
      obtain ⟨-, -, d3⟩ := demux_step (runCalls init l) c hc i3
      rintro ⟨i, hi, hno⟩
      have hilt : i ≤ l.length := by
        obtain ⟨e, he, -⟩ := hi
        have := getElem?_lt he
        simp only [List.length_append, List.length_singleton] at this
        omega
      have hnocall : detectCalls (callStep (runCalls init l) c).2 = [] := by
        by_contra hne
        exact hno l.length hilt ((detectCalledAt_snoc l c _).mpr (Or.inr ⟨rfl, hne⟩))
      rw [runCalls_snoc]
      rcases d3 with ⟨-, hd, -, -⟩ | ⟨-, -, hx, -⟩
      · rw [hnocall] at hd
        exact absurd hd (by simp)
      · apply hx.mpr
        rcases (eventAt_snoc l c i _).mp hi with h | ⟨-, h⟩
        · exact Or.inl (ih honl ⟨i, h, fun m hm hcall =>
            hno m hm (detectCalledAt_mono l c m hcall)⟩)
        · exact Or.inr h
  · induction l using List.reverseRecOn with
    | nil =>
      rintro ⟨i, ⟨c, hc, -⟩, -⟩
      simp at hc
    | append_singleton l c ih =>
      have honl : ∀ d ∈ l, ¬ (d.s2w_switch = 0 ∧ d.s2w_wakeup = 0) :=
        fun d hd => hon d (List.mem_append_left _ hd)
      have hc := hon c (List.mem_append_right _ (List.mem_singleton_self c))
      obtain ⟨-, -, i3, -, -⟩ := demux_inv l honl
      obtain ⟨-, -, d3⟩ := demux_step (runCalls init l) c hc i3
      rintro ⟨i, hi, hno⟩
      have hilt : i ≤ l.length := by
        obtain ⟨e, he, -⟩ := hi
        have := getElem?_lt he
        simp only [List.length_append, List.length_singleton] at this
        omega
      have hnocall : detectCalls (callStep (runCalls init l) c).2 = [] := by
        by_contra hne
        exact hno l.length hilt ((detectCalledAt_snoc l c _).mpr (Or.inr ⟨rfl, hne⟩))
      rw [runCalls_snoc]
      rcases d3 with ⟨-, hd, -, -⟩ | ⟨-, -, -, hy⟩
      · rw [hnocall] at hd
        exact absurd hd (by simp)
      · apply hy.mpr
        rcases (eventAt_snoc l c i _).mp hi with h | ⟨-, h⟩
        · exact Or.inl (ih honl ⟨i, h, fun m hm hcall =>
            hno m hm (detectCalledAt_mono l c m hcall)⟩)
        · exact Or.inr h

theorem eventAt_take_iff (l : List Call) (n i code : Nat) :
    EventAt (l.take n) i code ↔ i < n ∧ EventAt l i code := by
  constructor
  · exact eventAt_take
  · rintro ⟨hlt, c, hc, hcode⟩
    exact ⟨c, by rw [List.getElem?_take_of_lt hlt]; exact hc, hcode⟩

theorem no_calls_take_iff (l : List Call) (n i : Nat) :
    (∀ m, i ≤ m → ¬ DetectCalledAt (l.take n) m) ↔
      ∀ m, i ≤ m → m < n → ¬ DetectCalledAt l m := by
  constructor
  · intro h m him hmn hcall
    exact h m him ((detectCalledAt_take l n m hmn).mpr hcall)
  · intro h m him hcall
    have hlt : m < n := by
      have := detectCalledAt_lt hcall
      rw [List.length_take] at this
      omega
    exact h m him hlt ((detectCalledAt_take l n m hlt).mp hcall)

/-- The marks after the first `n` calls of a run, in terms of the events of the
run. -/
theorem demux_marks_take (l : List Call)
    (hon : ∀ c ∈ l, ¬ (c.s2w_switch = 0 ∧ c.s2w_wakeup = 0)) (n : Nat) :
    ((runCalls init (l.take n)).touch_x_called = true ↔
      ∃ i, i < n ∧ EventAt l i ABS_MT_POSITION_X ∧
        ∀ m, i ≤ m → m < n → ¬ DetectCalledAt l m) ∧
    ((runCalls init (l.take n)).touch_y_called = true ↔
      ∃ j, j < n ∧ EventAt l j ABS_MT_POSITION_Y ∧
        ∀ m, j ≤ m → m < n → ¬ DetectCalledAt l m) := by
  obtain ⟨hx, hy⟩ := demux_marks (l.take n) (fun c hc => hon c (List.mem_of_mem_take hc))
  constructor
  · rw [hx]
    constructor
    · rintro ⟨i, hi, hno⟩
      exact ⟨i, ((eventAt_take_iff l n i _).mp hi).1, ((eventAt_take_iff l n i _).mp hi).2,
        (no_calls_take_iff l n i).mp hno⟩
    · rintro ⟨i, hlt, hi, hno⟩
      exact ⟨i, (eventAt_take_iff l n i _).mpr ⟨hlt, hi⟩, (no_calls_take_iff l n i).mpr hno⟩
  · rw [hy]
    constructor
    · rintro ⟨i, hi, hno⟩
      exact ⟨i, ((eventAt_take_iff l n i _).mp hi).1, ((eventAt_take_iff l n i _).mp hi).2,
        (no_calls_take_iff l n i).mp hno⟩
    · rintro ⟨i, hlt, hi, hno⟩
      exact ⟨i, (eventAt_take_iff l n i _).mpr ⟨hlt, hi⟩, (no_calls_take_iff l n i).mpr hno⟩

/-- C10: in a run of `s2w_input_event` calls from the initial state, every call
made with a switch on.  (1) In terms of the events alone: the call at position
`m` reaches `detect_sweep2wake` exactly when its event is an X event and a Y
event has arrived before it with no `detect_sweep2wake` call at or after that
Y event, or the same with X and Y exchanged.  (2) An axis is marked seen after
the first `n` calls exactly when an event of that axis is among them with no
`detect_sweep2wake` call at or after it: every X or Y event sets its mark, and
only a `detect_sweep2wake` call clears it.  (3) A call reaches
`detect_sweep2wake` exactly when its event is an X event arriving while Y is
marked seen, or a Y event arriving while X is marked seen; it then calls it
once, with the value of the most recent X event and the value of the most
recent Y event, and leaves both marks cleared.  (4) Between calls the two marks
are never both set.  (5) Between two calls of `detect_sweep2wake`, after the
first and up to the second, there is at least one new X event and one new Y
event. -/
theorem demux_pairs_axes (l : List Call)
    (hon : ∀ c ∈ l, ¬ (c.s2w_switch = 0 ∧ c.s2w_wakeup = 0)) :
    (∀ m, DetectCalledAt l m ↔
      (EventAt l m ABS_MT_POSITION_X ∧ ∃ j, j < m ∧ EventAt l j ABS_MT_POSITION_Y ∧
        ∀ k, j ≤ k → k < m → ¬ DetectCalledAt l k) ∨
      (EventAt l m ABS_MT_POSITION_Y ∧ ∃ i, i < m ∧ EventAt l i ABS_MT_POSITION_X ∧
        ∀ k, i ≤ k → k < m → ¬ DetectCalledAt l k)) ∧
    (∀ n,
      ((runCalls init (l.take n)).touch_x_called = true ↔
        ∃ i, i < n ∧ EventAt l i ABS_MT_POSITION_X ∧
          ∀ m, i ≤ m → m < n → ¬ DetectCalledAt l m) ∧
      ((runCalls init (l.take n)).touch_y_called = true ↔
        ∃ j, j < n ∧ EventAt l j ABS_MT_POSITION_Y ∧
          ∀ m, j ≤ m → m < n → ¬ DetectCalledAt l m)) ∧
    (∀ m c, l[m]? = some c →
      (detectCalls (callStep (runCalls init (l.take m)) c).2 ≠ [] ↔
        (c.code = ABS_MT_POSITION_X ∧ (runCalls init (l.take m)).touch_y_called = true) ∨
        (c.code = ABS_MT_POSITION_Y ∧ (runCalls init (l.take m)).touch_x_called = true)) ∧
      (detectCalls (callStep (runCalls init (l.take m)) c).2 ≠ [] →
        ∃ vx vy, lastValue ABS_MT_POSITION_X (l.take (m + 1)) = some vx ∧
          lastValue ABS_MT_POSITION_Y (l.take (m + 1)) = some vy ∧
          detectCalls (callStep (runCalls init (l.take m)) c).2 = [(vx, vy)] ∧
          (runCalls init (l.take (m + 1))).touch_x_called = false ∧
          (runCalls init (l.take (m + 1))).touch_y_called = false)) ∧
    (∀ n, ¬ ((runCalls init (l.take n)).touch_x_called = true ∧
      (runCalls init (l.take n)).touch_y_called = true)) ∧
    (∀ m1 m2, m1 < m2 → DetectCalledAt l m1 → DetectCalledAt l m2 →
      ∃ i j, m1 < i ∧ i ≤ m2 ∧ m1 < j ∧ j ≤ m2 ∧
        EventAt l i ABS_MT_POSITION_X ∧ EventAt l j ABS_MT_POSITION_Y) := by
  obtain ⟨c1, c2, c3⟩ := demux_pairs_core l hon
  refine ⟨fun m => ?_, demux_marks_take l hon, c1, c2, c3⟩
  obtain ⟨mx, my⟩ := demux_marks_take l hon m
  constructor
  · rintro ⟨c, hc, hne⟩
    rcases ((c1 m c hc).1).mp hne with h | h
    · exact Or.inl ⟨⟨c, hc, h.1⟩, my.mp h.2⟩
    · exact Or.inr ⟨⟨c, hc, h.1⟩, mx.mp h.2⟩
  · rintro (⟨⟨c, hc, hcode⟩, hj⟩ | ⟨⟨c, hc, hcode⟩, hi⟩)
    · exact ⟨c, hc, ((c1 m c hc).1).mpr (Or.inl ⟨hcode, my.mpr hj⟩)⟩
    · exact ⟨c, hc, ((c1 m c hc).1).mpr (Or.inr ⟨hcode, mx.mpr hi⟩)⟩

theorem demux_pairs_axes_witness :
    (∀ c ∈ [Call.mk 1 0 true ABS_MT_POSITION_X 200, Call.mk 1 0 true ABS_MT_POSITION_Y 2450],
      ¬ (c.s2w_switch = 0 ∧ c.s2w_wakeup = 0)) ∧
    (runCalls init (List.take 1 [Call.mk 1 0 true ABS_MT_POSITION_X 200,
      Call.mk 1 0 true ABS_MT_POSITION_Y 2450])).touch_x_called = true ∧
    DetectCalledAt [Call.mk 1 0 true ABS_MT_POSITION_X 200,
      Call.mk 1 0 true ABS_MT_POSITION_Y 2450] 1 ∧
    detectCalls (callStep (runCalls init (List.take 1
      [Call.mk 1 0 true ABS_MT_POSITION_X 200, Call.mk 1 0 true ABS_MT_POSITION_Y 2450]))
      (Call.mk 1 0 true ABS_MT_POSITION_Y 2450)).2 = [(200, 2450)] := by
  have h := demux_pairs_axes [Call.mk 1 0 true ABS_MT_POSITION_X 200,
    Call.mk 1 0 true ABS_MT_POSITION_Y 2450] (by decide)
  obtain ⟨h1, h2, h3, -, -⟩ := h
  have hno : ∀ k, 0 ≤ k → k < 1 → ¬ DetectCalledAt [Call.mk 1 0 true ABS_MT_POSITION_X 200,
      Call.mk 1 0 true ABS_MT_POSITION_Y 2450] k := by
    intro k _ hk hcall
    rcases (h1 k).mp hcall with ⟨-, j, hj, -⟩ | ⟨-, i, hi, -⟩ <;> omega
  have hmark := (h2 1).1.mpr ⟨0, by decide, ⟨_, rfl, rfl⟩, hno⟩
  have hcall := (h1 1).mpr (Or.inr ⟨⟨_, rfl, rfl⟩, 0, by decide, ⟨_, rfl, rfl⟩, hno⟩)
  refine ⟨by decide, hmark, hcall, ?_⟩
  have hne := ((h3 1 (Call.mk 1 0 true ABS_MT_POSITION_Y 2450) rfl).1).mpr
    (Or.inr ⟨rfl, hmark⟩)
  obtain ⟨vx, vy, hx, hy, hd, -, -⟩ :=
    (h3 1 (Call.mk 1 0 true ABS_MT_POSITION_Y 2450) rfl).2 hne
  have ex : lastValue ABS_MT_POSITION_X (List.take (1 + 1)
      [Call.mk 1 0 true ABS_MT_POSITION_X 200, Call.mk 1 0 true ABS_MT_POSITION_Y 2450]) =
      some 200 := by decide
  have ey : lastValue ABS_MT_POSITION_Y (List.take (1 + 1)
      [Call.mk 1 0 true ABS_MT_POSITION_X 200, Call.mk 1 0 true ABS_MT_POSITION_Y 2450]) =
      some 2450 := by decide
  rw [ex] at hx
  rw [ey] at hy
  rw [hd, ← Option.some.inj hx, ← Option.some.inj hy]

end Sweep2Wake
